import Mathlib

/-!
Verification development for the onedrive-client core: the in-memory tree
cache (`lib/msobject_info.py`) and the delta-based synchronization engine
with adaptive polling (`lib/shell_helper.py`).

The Python heap is modelled as a total function from references (`Ref`) to
object records (`MsObj`); the global identity map `DictMsObject` is an
association list from remote ids to references.  Python exceptions
(`KeyError`, `TypeError`, `AttributeError`, beartype violations) are
modelled by `Option`: `none` means the call raised.  Timestamps are
modelled by `PyDatetime`, which has a dedicated constructor `tyOptional`
for the `Optional[datetime.datetime]` typing object that appears as the
default value of the `lmdt` parameter of
`MsObject.update_parent_after_arrival` in the source.
-/

namespace ODC

abbrev Ref := Nat
abbrev MsId := String

inductive Kind where
  | folder
  | file
  | other
deriving DecidableEq, Repr, Inhabited, Fintype

/-- Model of the values that can be stored in the `last_modified_datetime`
and `creation_datetime` attributes: a real datetime (`dt`), Python `None`
(`pyNone`), or the `Optional[datetime.datetime]` typing object
(`tyOptional`) that the buggy default argument of
`update_parent_after_arrival` stores there. -/
inductive PyDatetime where
  | dt (t : Int)
  | pyNone
  | tyOptional
deriving DecidableEq, Repr, Inhabited

/-- One record for all three `MsObject` subclasses (`MsFolderInfo`,
`MsFileInfo`, `MsOtherInfo`); `kind` plays the role of the Python dynamic
type.  Folder-only attributes are inert defaults on files/others. -/
structure MsObj where
  ms_id : MsId
  kind : Kind
  name : String
  size : Int
  parent : Option Ref
  parent_path : Option String
  lmdt : PyDatetime
  cdt : PyDatetime
  is_root : Bool
  children_file : List Ref
  children_folder : List Ref
  children_other : List Ref
  dict_children_file : List (String × Ref)
  dict_children_folder : List (String × Option Ref)
  dict_children_other : List (String × Ref)
  child_count : Option Int
  retrieval_status : Option String
  next_link : Option String
  qxh : Option String
  sha1hash : Option String
  type_other : String
deriving DecidableEq, Repr, Inhabited

/-- The mutable world: the Python heap (total over `Ref`, fresh objects are
allocated at `nextRef`) plus the `DictMsObject` global registry. -/
structure St where
  heap : Ref → MsObj
  registry : List (MsId × Ref)
  nextRef : Ref

def setObj (s : St) (r : Ref) (o : MsObj) : St :=
  { s with heap := fun x => if x = r then o else s.heap x }

def modifyObj (s : St) (r : Ref) (f : MsObj → MsObj) : St :=
  setObj s r (f (s.heap r))

def alloc (s : St) (o : MsObj) : St × Ref :=
  ({ heap := fun x => if x = s.nextRef then o else s.heap x,
     registry := s.registry,
     nextRef := s.nextRef + 1 }, s.nextRef)

/-! Python `dict` as an association list with unique keys: assignment
replaces in place, `pop` raises `KeyError` on a missing key. -/

def dictHasKey {α : Type} (d : List (String × α)) (k : String) : Bool :=
  (d.lookup k).isSome

def dictSet {α : Type} (d : List (String × α)) (k : String) (v : α) :
    List (String × α) :=
  if (d.lookup k).isSome then
    d.map (fun e => if e.1 = k then (k, v) else e)
  else d ++ [(k, v)]

def dictPop {α : Type} (d : List (String × α)) (k : String) :
    Option (List (String × α)) :=
  if (d.lookup k).isSome then some (d.filter (fun e => e.1 ≠ k)) else none

/-! `DictMsObject`: the identity map (id → canonical instance). -/

/-- `DictMsObject.get`. -/
def dictGet (s : St) (i : MsId) : Option Ref :=
  s.registry.lookup i

/-- `DictMsObject.remove`: `dict.pop(ms_id)` raises `KeyError` when the id
is absent. -/
def dictRemove (s : St) (i : MsId) : Option St :=
  if (s.registry.lookup i).isSome then
    some { s with registry := s.registry.filter (fun e => e.1 ≠ i) }
  else none

/-! The adaptive scheduler (`ServerCheckDelta` and its inner `EMA`),
modelled over `ℚ`: `alpha = 0.3`, seed 15 s, delay seed 20 s, and
`update_delay_with_ema_value` clamping `ema * 2` to `[15, 300]`. -/

structure EMA where
  value : ℚ
deriving DecidableEq, Repr

def EMA.init : EMA := ⟨15⟩

/-- `EMA.tick`: `value = elapsed * alpha + value * (1 - alpha)`. -/
def EMA.tickUpd (e : EMA) (elapsed : ℚ) : EMA :=
  ⟨elapsed * (3/10) + e.value * (1 - 3/10)⟩

/-- `EMA.value_if_ticked_now`: same formula, without storing the result. -/
def EMA.valueIfTickedNow (e : EMA) (elapsed : ℚ) : ℚ :=
  elapsed * (3/10) + e.value * (1 - 3/10)

structure SchedSt where
  ema : EMA
  wait_delay : ℚ
deriving DecidableEq, Repr

def minWaitDelay : ℚ := 15
def maxWaitDelay : ℚ := 5 * 60
def coefDelay : ℚ := 2

/-- `ServerCheckDelta.__init__`: ema seeded at 15 s, starting delay 20 s. -/
def SchedSt.init : SchedSt := ⟨EMA.init, 20⟩

/-- `ServerCheckDelta.update_delay_with_ema_value`. -/
def updateDelayWithEmaValue (st : SchedSt) (emaValue : ℚ) : SchedSt :=
  let theoreticalDelay := emaValue * coefDelay
  if theoreticalDelay < minWaitDelay then { st with wait_delay := minWaitDelay }
  else if theoreticalDelay > maxWaitDelay then { st with wait_delay := maxWaitDelay }
  else { st with wait_delay := theoreticalDelay }

/-- `ServerCheckDelta.tick`: record a tick on the EMA, then recompute the
delay from the stored EMA value. -/
def SchedSt.tick (st : SchedSt) (elapsed : ℚ) : SchedSt :=
  let e := st.ema.tickUpd elapsed
  updateDelayWithEmaValue { st with ema := e } e.value

/-- The pre-sleep recomputation in `ServerCheckDelta.loop`: query
`value_if_ticked_now` (without recording a tick) and recompute the delay. -/
def SchedSt.presleep (st : SchedSt) (elapsed : ℚ) : SchedSt :=
  updateDelayWithEmaValue st (st.ema.valueIfTickedNow elapsed)

inductive SchedEvent where
  | tick (elapsed : ℚ)
  | presleep (elapsed : ℚ)

def schedStep (st : SchedSt) : SchedEvent → SchedSt
  | .tick e => st.tick e
  | .presleep e => st.presleep e

/-- The scheduler state after an arbitrary sequence of tick intervals and
pre-sleep queries, starting from the constructor's initial state. -/
def schedRun (evs : List SchedEvent) : SchedSt :=
  evs.foldl schedStep SchedSt.init

theorem updateDelay_bounds (st : SchedSt) (v : ℚ) :
    15 ≤ (updateDelayWithEmaValue st v).wait_delay ∧
      (updateDelayWithEmaValue st v).wait_delay ≤ 300 := by
  unfold updateDelayWithEmaValue minWaitDelay maxWaitDelay coefDelay
  by_cases h1 : v * 2 < 15
  · simp only [if_pos h1]
    norm_num
  · simp only [if_neg h1]
    by_cases h2 : v * 2 > 5 * 60
    · simp only [if_pos h2]
      norm_num
    · simp only [if_neg h2]
      push_neg at h1 h2
      refine ⟨h1, ?_⟩
      calc v * 2 ≤ 5 * 60 := h2
      _ ≤ 300 := by norm_num

theorem schedStep_bounds (st : SchedSt) (e : SchedEvent) :
    15 ≤ (schedStep st e).wait_delay ∧ (schedStep st e).wait_delay ≤ 300 := by
  cases e with
  | tick x => exact updateDelay_bounds _ _
  | presleep x => exact updateDelay_bounds _ _

theorem schedFold_bounds (evs : List SchedEvent) (st : SchedSt)
    (h : 15 ≤ st.wait_delay ∧ st.wait_delay ≤ 300) :
    15 ≤ (evs.foldl schedStep st).wait_delay ∧
      (evs.foldl schedStep st).wait_delay ≤ 300 := by
  induction evs generalizing st with
  | nil => simpa using h
  | cons e rest ih =>
      simpa using ih (schedStep st e) (schedStep_bounds st e)

/-- C9: for any sequence of tick intervals and pre-sleep delay
recomputations, the background loop's wait delay stays within
[15 s, 300 s]; in particular the initial delay (20 s) is within bounds and
each recomputation clamps `ema_value * 2` to `[15, 300]`. -/
theorem c9_scheduler_bounds (evs : List SchedEvent) :
    15 ≤ (schedRun evs).wait_delay ∧ (schedRun evs).wait_delay ≤ 300 := by
  unfold schedRun
  apply schedFold_bounds
  constructor
  · norm_num [SchedSt.init]
  · norm_num [SchedSt.init]

/-! Tree node operations (`MsObject` / `MsFolderInfo` methods). -/

/-- `MsFolderInfo.children_retrieval_has_started`. -/
def retrievalHasStarted (o : MsObj) : Bool :=
  o.retrieval_status = some "all" || o.retrieval_status = some "partial"

/-- The `MsObject.path` property: `""` for the root, otherwise
`parent_path ++ "/" ++ name`, where a missing `parent_path` is recomputed
from the parent (memoization elided: the cached value written by the
source equals the value computed here).  When both `parent_path` and
`parent` are `None`, the Python f-string renders the literal string
`"None"`. -/
def pathOf (s : St) : Nat → Ref → Option String
  | 0, _ => none
  | fuel + 1, r =>
    let o := s.heap r
    match o.parent_path, o.parent with
    | some pp, _ => some (if o.is_root then "" else pp ++ "/" ++ o.name)
    | none, some p =>
        (pathOf s fuel p).map (fun pp => if o.is_root then "" else pp ++ "/" ++ o.name)
    | none, none => some (if o.is_root then "" else "None/" ++ o.name)

/-- `MsFolderInfo.remove_info_for_child`: dispatch on the child's dynamic
kind, `list.remove` (raises on a missing element) from the ordered list
and `dict.pop` (raises on a missing key) from the name index. -/
def removeInfoForChild (s : St) (p c : Ref) : Option St :=
  let co := s.heap c
  let po := s.heap p
  match co.kind with
  | Kind.folder =>
      if po.children_folder.contains c then
        match dictPop po.dict_children_folder co.name with
        | none => none
        | some d' =>
            some (setObj s p { po with children_folder := po.children_folder.erase c,
                                       dict_children_folder := d' })
      else none
  | Kind.file =>
      if po.children_file.contains c then
        match dictPop po.dict_children_file co.name with
        | none => none
        | some d' =>
            some (setObj s p { po with children_file := po.children_file.erase c,
                                       dict_children_file := d' })
      else none
  | Kind.other =>
      if po.children_other.contains c then
        match dictPop po.dict_children_other co.name with
        | none => none
        | some d' =>
            some (setObj s p { po with children_other := po.children_other.erase c,
                                       dict_children_other := d' })
      else none

/-- `MsFolderInfo.__add_folder_info_if_necessary`: skip silently when the
name is already present in the name index. -/
def addFolderInfoIfNecessary (s : St) (p f : Ref) : St :=
  let po := s.heap p
  let n := (s.heap f).name
  if dictHasKey po.dict_children_folder n then s
  else setObj s p { po with children_folder := po.children_folder ++ [f],
                            dict_children_folder := dictSet po.dict_children_folder n (some f) }

/-- `MsFolderInfo.__add_file_info_if_necessary`. -/
def addFileInfoIfNecessary (s : St) (p f : Ref) : St :=
  let po := s.heap p
  let n := (s.heap f).name
  if dictHasKey po.dict_children_file n then s
  else setObj s p { po with children_file := po.children_file ++ [f],
                            dict_children_file := dictSet po.dict_children_file n f }

/-- `MsFolderInfo.__add_other_info_if_necessary`. -/
def addOtherInfoIfNecessary (s : St) (p f : Ref) : St :=
  let po := s.heap p
  let n := (s.heap f).name
  if dictHasKey po.dict_children_other n then s
  else setObj s p { po with children_other := po.children_other ++ [f],
                            dict_children_other := dictSet po.dict_children_other n f }

/-- `MsFolderInfo.add_object_info`: dispatch on the child's dynamic kind. -/
def addObjectInfo (s : St) (p f : Ref) : St :=
  match (s.heap f).kind with
  | Kind.folder => addFolderInfoIfNecessary s p f
  | Kind.file => addFileInfoIfNecessary s p f
  | Kind.other => addOtherInfoIfNecessary s p f

/-- The ancestor walk shared by `update_parent_before_removal`
(`sign = -1`) and `update_parent_after_arrival` (`sign = 1`): adjust each
ancestor's size by the child's current size and stamp `lmdt`, following
`parent` back-references; fuel bounds the walk (the Python `while` loop
does not terminate on a cyclic chain). -/
def propagateSize (sign : Int) (cRef : Ref) (lmdt : PyDatetime) :
    Nat → St → Option Ref → Option St
  | _, s, none => some s
  | 0, _, some _ => none
  | fuel + 1, s, some r =>
      let o := s.heap r
      let s' := setObj s r { o with size := o.size + sign * (s.heap cRef).size, lmdt := lmdt }
      propagateSize sign cRef lmdt fuel s' o.parent

/-- `MsObject.update_parent_before_removal(lmdt=None)`: decrement the
parent's `child_count` (a `TypeError` when it is `None`), propagate the
size subtraction and `lmdt` up the ancestor chain, then remove the child
from the parent's collections. -/
def updateParentBeforeRemoval (fuel : Nat) (now : Int) (s : St) (r : Ref)
    (lmdt0 : PyDatetime) : Option St :=
  match (s.heap r).parent with
  | none => some s
  | some p =>
      let lmdt := if lmdt0 = PyDatetime.pyNone then PyDatetime.dt now else lmdt0
      match (s.heap p).child_count with
      | none => none
      | some cc =>
          let s1 := setObj s p { s.heap p with child_count := some (cc - 1) }
          match propagateSize (-1) r lmdt fuel s1 (some p) with
          | none => none
          | some s2 => removeInfoForChild s2 p r

/-- `MsObject.update_parent_after_arrival(new_parent, lmdt=Optional[datetime.datetime])`:
the default value of `lmdt` in the source is the typing object
`Optional[datetime.datetime]` itself (not `None`), so callers that omit it
pass `PyDatetime.tyOptional` here.  Increments the new parent's
`child_count`, propagates the size addition and `lmdt` up the chain, then
inserts the child into the new parent's collections. -/
def updateParentAfterArrival (fuel : Nat) (now : Int) (s : St) (r : Ref)
    (newParent : Option Ref) (lmdt0 : PyDatetime) : Option St :=
  match newParent with
  | none => some s
  | some np =>
      if (s.heap np).kind = Kind.folder then
        let lmdt := if lmdt0 = PyDatetime.pyNone then PyDatetime.dt now else lmdt0
        match (s.heap np).child_count with
        | none => none
        | some cc =>
            let s1 := setObj s np { s.heap np with child_count := some (cc + 1) }
            match propagateSize 1 r lmdt fuel s1 (some np) with
            | none => none
            | some s2 => some (addObjectInfo s2 np r)
      else none

/-- `MsObject.update_parent` / `MsFolderInfo.update_parent`: set the parent
back-reference, recompute the cached `parent_path` from the new parent's
path, and (folders only) repoint the synthetic `".."` entry. -/
def objUpdateParent (fuel : Nat) (s : St) (r np : Ref) : Option St :=
  let s1 := modifyObj s r (fun o => { o with parent := some np })
  match pathOf s1 fuel np with
  | none => none
  | some pp =>
      let s2 := modifyObj s1 r (fun o => { o with parent_path := some pp })
      if (s2.heap r).kind = Kind.folder then
        some (modifyObj s2 r (fun o =>
          { o with dict_children_folder := dictSet o.dict_children_folder ".." (some np) }))
      else some s2

/-- `MsObject.move_object(new_parent, lmdt=None)`: detach, repoint the
parent and cached path, reattach (beartype requires a folder target). -/
def moveObject (fuel : Nat) (now : Int) (s : St) (r np : Ref)
    (lmdt : PyDatetime) : Option St :=
  if (s.heap np).kind = Kind.folder then
    match updateParentBeforeRemoval fuel now s r PyDatetime.pyNone with
    | none => none
    | some s1 =>
        match objUpdateParent fuel s1 r np with
        | none => none
        | some s2 =>
            match pathOf s2 fuel np with
            | none => none
            | some pp =>
                let s3 := modifyObj s2 r (fun o => { o with parent_path := some pp })
                updateParentAfterArrival fuel now s3 r (some np) lmdt
  else none

/-- `MsObject.rename(new_name)`: detach (with the default `lmdt=None`,
hence the current time), overwrite the private name, reattach under the
same parent — the reattach call omits `lmdt`, hence passes the buggy
`Optional[datetime.datetime]` default along to every ancestor. -/
def objRename (fuel : Nat) (now : Int) (s : St) (r : Ref) (newName : String) :
    Option St :=
  match updateParentBeforeRemoval fuel now s r PyDatetime.pyNone with
  | none => none
  | some s1 =>
      let s2 := modifyObj s1 r (fun o => { o with name := newName })
      updateParentAfterArrival fuel now s2 r ((s2.heap r).parent) PyDatetime.tyOptional

/-- `MsObject._change_name_in_parent` (per-kind overrides): move the name
index entry of the owning folder from the old name to the new one, if the
old name is present. -/
def changeNameInParent (s : St) (r : Ref) (newName : String) : St :=
  let o := s.heap r
  match o.parent with
  | none => s
  | some p =>
      let po := s.heap p
      match o.kind with
      | Kind.folder =>
          if dictHasKey po.dict_children_folder o.name then
            let d' := dictSet (po.dict_children_folder.filter (fun e => e.1 ≠ o.name)) newName (some r)
            setObj s p { po with dict_children_folder := d' }
          else s
      | Kind.file =>
          if dictHasKey po.dict_children_file o.name then
            let d' := dictSet (po.dict_children_file.filter (fun e => e.1 ≠ o.name)) newName r
            setObj s p { po with dict_children_file := d' }
          else s
      | Kind.other =>
          if dictHasKey po.dict_children_other o.name then
            let d' := dictSet (po.dict_children_other.filter (fun e => e.1 ≠ o.name)) newName r
            setObj s p { po with dict_children_other := d' }
          else s

/-- `MsObject.set_name`. -/
def objSetName (s : St) (r : Ref) (newName : String) : St :=
  if (s.heap r).name = newName then s
  else
    let s1 := changeNameInParent s r newName
    modifyObj s1 r (fun o => { o with name := newName })

/-- `MsObject.set_size`. -/
def objSetSize (s : St) (r : Ref) (v : Int) : St :=
  modifyObj s r (fun o => { o with size := v })

/-- `ObjectInfoFactory.UpdateMsFolderInfo`: merge the mutable folder fields
of `src` into `tgt` (beartype rejects non-folder arguments). -/
def updateMsFolderInfo (s : St) (tgt src : Ref) (updateChildCount : Bool) :
    Option St :=
  if (s.heap tgt).kind = Kind.folder ∧ (s.heap src).kind = Kind.folder then
    let s1 := objSetName s tgt ((s.heap src).name)
    let s2 := objSetSize s1 tgt ((s1.heap src).size)
    let s3 := modifyObj s2 tgt (fun o => { o with lmdt := (s2.heap src).lmdt })
    let s4 := modifyObj s3 tgt (fun o => { o with cdt := (s3.heap src).cdt })
    if updateChildCount then
      some (modifyObj s4 tgt (fun o => { o with child_count := (s4.heap src).child_count }))
    else some s4
  else none

/-- `ObjectInfoFactory.UpdateMsFileInfo`: merge the mutable file fields of
`src` into `tgt` (beartype rejects non-file arguments). -/
def updateMsFileInfo (s : St) (tgt src : Ref) : Option St :=
  if (s.heap tgt).kind = Kind.file ∧ (s.heap src).kind = Kind.file then
    let s1 := objSetName s tgt ((s.heap src).name)
    let s2 := objSetSize s1 tgt ((s1.heap src).size)
    let s3 := modifyObj s2 tgt (fun o => { o with lmdt := (s2.heap src).lmdt })
    let s4 := modifyObj s3 tgt (fun o => { o with cdt := (s3.heap src).cdt })
    let s5 := modifyObj s4 tgt (fun o => { o with qxh := (s4.heap src).qxh })
    some (modifyObj s5 tgt (fun o => { o with sha1hash := (s5.heap src).sha1hash }))
  else none

/-- `DictMsObject.add_or_get_update(obj)`: if the id is registered, merge
the candidate's fields into the canonical instance and return it (folder
and file candidates only — any other kind logs a warning and returns
`None`); otherwise register the candidate and return it.  The inner
`Option` is the returned Python value (`none` models Python `None`); the
outer `Option` models a raised exception. -/
def addOrGetUpdate (s : St) (r : Ref) : Option (St × Option Ref) :=
  let o := s.heap r
  match s.registry.lookup o.ms_id with
  | some tgt =>
      match o.kind with
      | Kind.folder => (updateMsFolderInfo s tgt r true).map (fun s' => (s', some tgt))
      | Kind.file => (updateMsFileInfo s tgt r).map (fun s' => (s', some tgt))
      | Kind.other => some (s, none)
  | none => some ({ s with registry := s.registry ++ [(o.ms_id, r)] }, some r)

/-! The change feed and the object factories
(`ObjectInfoFactory.*FromMgcResponse`, `DeltaChecker`). -/

/-- A Microsoft Graph item JSON as consumed by the factories and the delta
checker: presence of the `deleted` / `folder` / `file` / `package` / `root`
keys becomes a flag; `parentPath` is the (already unquoted, already
prefix-sliced) `parentReference.path`, `none` when the key is missing. -/
structure DiffItem where
  id : MsId
  name : String
  size : Int
  isDeleted : Bool
  isFolder : Bool
  isFile : Bool
  isPackage : Bool
  isRoot : Bool
  parentId : MsId
  parentPath : Option String
  childCount : Option Int
  qxh : Option String
  sha1 : Option String
  packageType : Option String
  cdt : PyDatetime
  lmdt : PyDatetime
deriving DecidableEq, Repr

/-- beartype check of `MsObject.__init__`: `parent` must be absent or a
folder instance. -/
def parentKindOk (s : St) (parent : Option Ref) : Bool :=
  match parent with
  | none => true
  | some p => (s.heap p).kind = Kind.folder

/-- The `MsFileInfo` record built by `MsFileInfoFromMgcResponse` before the
parent is wired up. -/
def detachedFileObj (d : DiffItem) (ppath : String) : MsObj :=
  { ms_id := d.id, kind := Kind.file, name := d.name, size := d.size,
    parent := none, parent_path := some ppath, lmdt := d.lmdt, cdt := d.cdt,
    is_root := false, children_file := [], children_folder := [],
    children_other := [], dict_children_file := [], dict_children_folder := [],
    dict_children_other := [], child_count := none, retrieval_status := none,
    next_link := none, qxh := d.qxh, sha1hash := d.sha1, type_other := "unknown" }

/-- `ObjectInfoFactory.MsFileInfoFromMgcResponse`: build a fresh
`MsFileInfo` from the item (its `parent_path` always comes from the item's
`parentReference.path`, a `KeyError` when absent), add it to the given
parent's collections if a parent was supplied, and register it through
`add_or_get_update` unless `no_update_and_get_from_global_dict` is set. -/
def msFileInfoFromMgcResponse (s : St) (d : DiffItem) (parent : Option Ref)
    (noUpd : Bool) : Option (St × Ref) :=
  match d.parentPath with
  | none => none
  | some ppath =>
      if parentKindOk s parent then
        let o : MsObj := { detachedFileObj d ppath with parent := parent }
        let (s1, r) := alloc s o
        let s2 := match parent with
          | some p => addFileInfoIfNecessary s1 p r
          | none => s1
        if noUpd then some (s2, r)
        else
          match addOrGetUpdate s2 r with
          | some (s3, some r') => some (s3, r')
          | _ => none
      else none

/-- `ObjectInfoFactory.MsFolderFromMgcResponse`: `parent_path`/`is_root`
come from the supplied parent when present, else from the item's
`parentReference.path` (no such key ⇒ this is the root).  The fresh
`MsFolderInfo` gets the synthetic `"."`/`".."` entries, is added to the
parent's collections, and registered unless the no-update flag is set.
A missing `folder.childCount` raises. -/
def msFolderInfoFromMgcResponse (fuel : Nat) (s : St) (d : DiffItem)
    (parent : Option Ref) (noUpd : Bool) : Option (St × Ref) :=
  match d.childCount with
  | none => none
  | some cc =>
      let ppIsRoot? : Option (String × Bool) :=
        match parent with
        | some _ => none
        | none =>
            match d.parentPath with
            | some pp => some (pp, false)
            | none => some ("", true)
      let ppRes : Option (String × Bool) :=
        match parent with
        | some p => (pathOf s fuel p).map (fun pp => (pp, false))
        | none => ppIsRoot?
      match ppRes with
      | none => none
      | some (ppath, isRoot) =>
          if parentKindOk s parent then
            let o : MsObj :=
              { ms_id := d.id, kind := Kind.folder, name := d.name, size := d.size,
                parent := parent, parent_path := some ppath, lmdt := d.lmdt, cdt := d.cdt,
                is_root := isRoot, children_file := [], children_folder := [],
                children_other := [],
                dict_children_file := [],
                dict_children_folder := [(".", some s.nextRef), ("..", parent)],
                dict_children_other := [], child_count := some cc,
                retrieval_status := none, next_link := none,
                qxh := none, sha1hash := none, type_other := "unknown" }
            let (s1, r) := alloc s o
            let s2 := match parent with
              | some p => addFolderInfoIfNecessary s1 p r
              | none => s1
            if noUpd then some (s2, r)
            else
              match addOrGetUpdate s2 r with
              | some (s3, some r') => some (s3, r')
              | _ => none
          else none

/-- `ObjectInfoFactory.MsOtherInfoFromMgcResponse`. -/
def msOtherInfoFromMgcResponse (s : St) (d : DiffItem) (parent : Option Ref)
    (noUpd : Bool) : Option (St × Ref) :=
  match d.parentPath with
  | none => none
  | some ppath =>
      if parentKindOk s parent then
        let o : MsObj :=
          { ms_id := d.id, kind := Kind.other, name := d.name, size := d.size,
            parent := parent, parent_path := some ppath, lmdt := d.lmdt, cdt := d.cdt,
            is_root := false, children_file := [], children_folder := [],
            children_other := [], dict_children_file := [], dict_children_folder := [],
            dict_children_other := [], child_count := none, retrieval_status := none,
            next_link := none, qxh := none, sha1hash := none,
            type_other := d.packageType.getD "unknown" }
        let (s1, r) := alloc s o
        let s2 := match parent with
          | some p => addOtherInfoIfNecessary s1 p r
          | none => s1
        if noUpd then some (s2, r)
        else
          match addOrGetUpdate s2 r with
          | some (s3, some r') => some (s3, r')
          | _ => none
      else none

/-- `ObjectInfoFactory.get_object_info_from_mgc_response`: dispatch on the
item's kind keys (`folder`, then `file`, else other). -/
def objectInfoFromMgcResponse (fuel : Nat) (s : St) (d : DiffItem)
    (parent : Option Ref) (noUpd : Bool) : Option (St × Ref) :=
  if d.isFolder then msFolderInfoFromMgcResponse fuel s d parent noUpd
  else if d.isFile then msFileInfoFromMgcResponse s d parent noUpd
  else msOtherInfoFromMgcResponse s d parent noUpd

/-- `DeltaChecker.__process_diff_delete`: when the id is known, remove it
from the identity map and, when the (delete item's) parent is known, from
the parent's collections. -/
def processDiffDelete (s : St) (d : DiffItem) : Option St :=
  match dictGet s d.id with
  | none => some s
  | some r =>
      match dictRemove s d.id with
      | none => none
      | some s1 =>
          match dictGet s1 d.parentId with
          | none => some s1
          | some p => removeInfoForChild s1 p r

/-- `DeltaChecker.__process_diff_file`: build a detached reference object
from the item, merge into the known instance if the id is known, else
register it when the declared parent is known; in either of those cases
record a pending `(object, declaredParent)` reparenting pair. -/
def processDiffFile (s : St) (pend : List (Ref × Option Ref)) (d : DiffItem) :
    Option (St × List (Ref × Option Ref)) :=
  let msobj := dictGet s d.id
  match msFileInfoFromMgcResponse s d none true with
  | none => none
  | some (s1, fiRef) =>
      let pnew := dictGet s1 d.parentId
      match msobj with
      | some m =>
          match updateMsFileInfo s1 m fiRef with
          | none => none
          | some s2 => some (s2, pend ++ [(m, pnew)])
      | none =>
          match pnew with
          | some _ =>
              match addOrGetUpdate s1 fiRef with
              | none => none
              | some (s2, _) => some (s2, pend ++ [(fiRef, pnew)])
          | none => some (s1, pend)

/-- `DeltaChecker.__process_diff_folder`: re-fetch the object by id through
the collaborator (`fetch`; `none` models the caught
`ObjectRetrievalException`, which skips the item), merge into the known
instance if the id is known, skip reparenting for the root item, else
register when the declared parent is known and record the pending pair. -/
def processDiffFolder (fuel : Nat) (fetch : MsId → Option DiffItem) (s : St)
    (pend : List (Ref × Option Ref)) (d : DiffItem) :
    Option (St × List (Ref × Option Ref)) :=
  let msobj := dictGet s d.id
  match fetch d.id with
  | none => some (s, pend)
  | some resp =>
      match objectInfoFromMgcResponse fuel s resp none true with
      | none => none
      | some (s1, fiRef) =>
          let s2? := match msobj with
            | some m => updateMsFolderInfo s1 m fiRef true
            | none => some s1
          match s2? with
          | none => none
          | some s2 =>
              if d.isRoot then some (s2, pend)
              else
                let pnew := dictGet s2 d.parentId
                match msobj with
                | some m => some (s2, pend ++ [(m, pnew)])
                | none =>
                    match pnew with
                    | some _ =>
                        match addOrGetUpdate s2 fiRef with
                        | none => none
                        | some (s3, _) => some (s3, pend ++ [(fiRef, pnew)])
                    | none => some (s2, pend)

/-- `DeltaChecker.__process_parentship`: absent declared parent ⇒ evict a
non-root object from its current parent and the identity map; no current
parent ⇒ attach; different parent ⇒ detach then attach; same parent ⇒ no
structural change.  Attach/detach here move collection entries only — no
size or timestamp propagation. -/
def processParentship (fuel : Nat) (s : St) (item : Ref × Option Ref) :
    Option St :=
  match item.2 with
  | none =>
      if (s.heap item.1).is_root then some s
      else
        match (s.heap item.1).parent with
        | none => none
        | some p =>
            match removeInfoForChild s p item.1 with
            | none => none
            | some s1 => dictRemove s1 ((s1.heap item.1).ms_id)
  | some np =>
      match (s.heap item.1).parent with
      | none =>
          match objUpdateParent fuel s item.1 np with
          | none => none
          | some s1 => some (addObjectInfo s1 np item.1)
      | some p =>
          if (s.heap p).ms_id ≠ (s.heap np).ms_id then
            match removeInfoForChild s p item.1 with
            | none => none
            | some s1 =>
                match objUpdateParent fuel s1 item.1 np with
                | none => none
                | some s2 => some (addObjectInfo s2 np item.1)
          else some s

/-- `DeltaChecker.process_diffs`: partition the accumulated items into
deleted / folder-upserts / file-upserts, then apply deletes, file upserts,
folder upserts, and finally the recorded reparenting pairs, in that
order. -/
def processDiffs (fuel : Nat) (fetch : MsId → Option DiffItem) (s : St)
    (items : List DiffItem) : Option St := do
  let deleted := items.filter (fun x => x.isDeleted)
  let folders := items.filter (fun x => x.isFolder && !x.isDeleted)
  let files := items.filter (fun x => x.isFile && !x.isDeleted)
  let s1 ← deleted.foldlM processDiffDelete s
  let sp2 ← files.foldlM (fun (a : St × List (Ref × Option Ref)) d =>
    processDiffFile a.1 a.2 d) (s1, [])
  let sp3 ← folders.foldlM (fun (a : St × List (Ref × Option Ref)) d =>
    processDiffFolder fuel fetch a.1 a.2 d) sp2
  sp3.2.foldlM (processParentship fuel) sp3.1

/-- `MsFolderInfo.create_empty_subfolder(folder_name)`: `resp` is the JSON
returned by the collaborator's `create_folder` (`none` for a falsy
response).  Builds and registers the subfolder (the factory already
inserts it into this folder's collections), runs
`update_parent_after_arrival` (which increments `child_count`), then
increments `child_count` once more when it is not `None`. -/
def createEmptySubfolder (fuel : Nat) (now : Int) (s : St) (p : Ref)
    (resp : Option DiffItem) : Option (St × Option Ref) :=
  match resp with
  | none => some (s, none)
  | some d =>
      match msFolderInfoFromMgcResponse fuel s d (some p) false with
      | none => none
      | some (s1, nf) =>
          let s2 := addFolderInfoIfNecessary s1 p nf
          match updateParentAfterArrival fuel now s2 nf (some p) ((s2.heap nf).lmdt) with
          | none => none
          | some s3 =>
              let s4 := match (s3.heap p).child_count with
                | some cc => setObj s3 p { s3.heap p with child_count := some (cc + 1) }
                | none => s3
              some (s4, some nf)

/-! Concrete cache states used by the scenario claims. -/

/-- A default-initialized object record; concrete states override the
relevant fields. -/
def blankObj : MsObj :=
  { ms_id := "", kind := Kind.other, name := "", size := 0, parent := none,
    parent_path := none, lmdt := PyDatetime.pyNone, cdt := PyDatetime.pyNone,
    is_root := false, children_file := [], children_folder := [],
    children_other := [], dict_children_file := [], dict_children_folder := [],
    dict_children_other := [], child_count := none, retrieval_status := none,
    next_link := none, qxh := none, sha1hash := none, type_other := "unknown" }

/-- Reparenting scenario of C1: root(0) with folders A(1) (size 100,
childCount 1) and B(2) (size 0), file O(3) (size 10) under A. -/
def c1Heap : Ref → MsObj
  | 0 => { blankObj with
           ms_id := "root", kind := Kind.folder, is_root := true,
           size := 100, child_count := some 2, retrieval_status := some "all",
           children_folder := [1, 2],
           dict_children_folder := [(".", some 0), ("..", none), ("A", some 1), ("B", some 2)] }
  | 1 => { blankObj with
           ms_id := "A", kind := Kind.folder, name := "A",
           parent := some 0, parent_path := some "", size := 100,
           child_count := some 1, retrieval_status := some "all",
           children_file := [3], dict_children_file := [("o", 3)],
           dict_children_folder := [(".", some 1), ("..", some 0)] }
  | 2 => { blankObj with
           ms_id := "B", kind := Kind.folder, name := "B",
           parent := some 0, parent_path := some "", size := 0,
           child_count := some 0, retrieval_status := some "all",
           dict_children_folder := [(".", some 2), ("..", some 0)] }
  | 3 => { blankObj with
           ms_id := "O", kind := Kind.file, name := "o",
           parent := some 1, parent_path := some "/A", size := 10,
           lmdt := PyDatetime.dt 1, cdt := PyDatetime.dt 0 }
  | _ => blankObj

def c1St : St :=
  { heap := c1Heap,
    registry := [("root", 0), ("A", 1), ("B", 2), ("O", 3)],
    nextRef := 4 }

/-- The delta batch of C1: one file upsert for O declaring parent B. -/
def c1Item : DiffItem :=
  { id := "O", name := "o", size := 10, isDeleted := false, isFolder := false,
    isFile := true, isPackage := false, isRoot := false, parentId := "B",
    parentPath := some "/B", childCount := none, qxh := some "Q2",
    sha1 := some "S2", packageType := none, cdt := PyDatetime.dt 1,
    lmdt := PyDatetime.dt 2 }

def c1Run : Option St := processDiffs 6 (fun _ => none) c1St [c1Item]

/-- C1 counterexample: applying the reparenting upsert for O (size 10,
parent A of size 100, declared parent B) leaves A.size at 100 — not 90 as
the claim states — because `__process_parentship` moves collection entries
without any size propagation. -/
theorem c1_counterexample :
    Option.map (fun s => (s.heap 1).size) c1Run = some 100 ∧
      Option.map (fun s => (s.heap 1).size) c1Run ≠ some 90 := by
  constructor
  · decide
  · decide

/-- C1 amended: after applying the change-feed upsert that reparents the
locally known O (size 10) from A (size 100) to the locally known B, O's
parent is B and O has moved from A's child collection to B's, but neither
A.size nor B.size changes — the reparenting step performs no size
propagation (folder sizes are refreshed by later change-feed upserts). -/
theorem c1_amended :
    Option.map (fun s =>
        ((s.heap 1).size, (s.heap 2).size, (s.heap 3).parent,
         (s.heap 2).children_file.contains 3, (s.heap 1).children_file.contains 3))
      c1Run = some (100, 0, some 2, true, false) := by
  decide

/-- Identity-map state of C2's counterexample: an `MsOtherInfo` instance
(ref 0) registered under id "x", and a fresh `MsOtherInfo` candidate
(ref 1) with the same id. -/
def c2St : St :=
  { heap := fun r =>
      if r = 0 then { blankObj with
           ms_id := "x", kind := Kind.other, name := "old" }
      else if r = 1 then { blankObj with
           ms_id := "x", kind := Kind.other, name := "new" }
      else blankObj,
    registry := [("x", 0)],
    nextRef := 2 }

/-- C2 counterexample: `add_or_get_update` with an `MsOtherInfo` candidate
whose id is already registered returns Python `None` (after only logging a
warning), contradicting the claim that no call returns an absent result. -/
theorem c2_counterexample :
    Option.map Prod.snd (addOrGetUpdate c2St 1) = some none := by
  decide

/-- Rename scenario of C4: root folder P(0) (childCount 1, lmdt = dt 50)
holding file (1) named "b". -/
def c4St : St :=
  { heap := fun r =>
      if r = 0 then
        { blankObj with
          ms_id := "root", kind := Kind.folder, is_root := true,
          size := 10, child_count := some 1, lmdt := PyDatetime.dt 50,
          children_file := [1], dict_children_file := [("b", 1)],
          dict_children_folder := [(".", some 0), ("..", none)] }
      else if r = 1 then
        { blankObj with
          ms_id := "f", kind := Kind.file, name := "b",
          parent := some 0, parent_path := some "", size := 10,
          lmdt := PyDatetime.dt 40 }
      else blankObj,
    registry := [("root", 0), ("f", 1)],
    nextRef := 2 }

/-- C4 failing input: renaming file "b" to "c" under parent P leaves P's
`last_modified_datetime` equal to the `Optional[datetime.datetime]` typing
object (the buggy default of `update_parent_after_arrival`), not a valid
datetime — neither the supplied modification time nor the current time. -/
theorem c4_rename_stores_typing_object :
    Option.map (fun s => (s.heap 0).lmdt) (objRename 5 100 c4St 1 "c") =
      some PyDatetime.tyOptional := by
  decide

/-- Folder state of C8: root folder P(0) with known childCount 3. -/
def c8St : St :=
  { heap := fun r =>
      if r = 0 then
        { blankObj with
          ms_id := "root", kind := Kind.folder, is_root := true,
          size := 0, child_count := some 3, lmdt := PyDatetime.dt 0,
          dict_children_folder := [(".", some 0), ("..", none)] }
      else blankObj,
    registry := [("root", 0)],
    nextRef := 1 }

/-- The collaborator's `create_folder` response of C8. -/
def c8Item : DiffItem :=
  { id := "newf", name := "sub", size := 0, isDeleted := false, isFolder := true,
    isFile := false, isPackage := false, isRoot := false, parentId := "root",
    parentPath := some "", childCount := some 0, qxh := none, sha1 := none,
    packageType := none, cdt := PyDatetime.dt 5, lmdt := PyDatetime.dt 5 }

/-- C8 failing input: a successful `create_empty_subfolder` under a folder
with known childCount 3 leaves childCount at 5, not 4 — the count is
incremented once inside `update_parent_after_arrival` and once more by
`create_empty_subfolder` itself, so it grows by two, not by exactly one. -/
theorem c8_childcount_incremented_twice :
    Option.map (fun x => (x.1.heap 0).child_count)
      (createEmptySubfolder 5 1000 c8St 0 (some c8Item)) = some (some 5) := by
  decide

/-! Heap-access lemmas. -/

theorem setObj_registry (s : St) (r : Ref) (o : MsObj) :
    (setObj s r o).registry = s.registry := rfl

theorem setObj_heap_self (s : St) (r : Ref) (o : MsObj) :
    (setObj s r o).heap r = o := by
  simp [setObj]

theorem setObj_heap_ne (s : St) (r x : Ref) (o : MsObj) (h : x ≠ r) :
    (setObj s r o).heap x = s.heap x := by
  simp [setObj, h]

/-- The fields that `set_name`/`_change_name_in_parent` never touch. -/
def mergeInert (o : MsObj) :
    MsId × Kind × Int × PyDatetime × PyDatetime × Option Int × Option String × Option String :=
  (o.ms_id, o.kind, o.size, o.lmdt, o.cdt, o.child_count, o.qxh, o.sha1hash)

theorem changeNameInParent_inert (s : St) (r : Ref) (n : String) (x : Ref) :
    mergeInert ((changeNameInParent s r n).heap x) = mergeInert (s.heap x) := by
  unfold changeNameInParent
  rcases hp : (s.heap r).parent with _ | p
  · simp only [hp]
  · rcases hk : (s.heap r).kind
    all_goals
      simp only [hp, hk]
      split_ifs with hcond
      case pos =>
        by_cases hx : x = p <;> simp [setObj, mergeInert, hx]
      case neg => rfl

theorem changeNameInParent_registry (s : St) (r : Ref) (n : String) :
    (changeNameInParent s r n).registry = s.registry := by
  unfold changeNameInParent
  rcases hp : (s.heap r).parent with _ | p
  · simp only [hp]
  · rcases hk : (s.heap r).kind
    all_goals
      simp only [hp, hk]
      split_ifs with hcond <;> rfl

theorem objSetName_inert (s : St) (tgt : Ref) (n : String) (x : Ref) :
    mergeInert ((objSetName s tgt n).heap x) = mergeInert (s.heap x) := by
  unfold objSetName
  split
  · rfl
  · rw [modifyObj]
    by_cases hx : x = tgt
    · subst hx
      rw [setObj_heap_self]
      have h := changeNameInParent_inert s x n x
      simp [mergeInert] at h ⊢
      exact h
    · rw [setObj_heap_ne _ _ _ _ hx]
      exact changeNameInParent_inert s tgt n x

theorem objSetName_registry (s : St) (tgt : Ref) (n : String) :
    (objSetName s tgt n).registry = s.registry := by
  unfold objSetName
  split
  · rfl
  · rw [modifyObj, setObj_registry, changeNameInParent_registry]

theorem objSetName_name_self (s : St) (tgt : Ref) (n : String) :
    ((objSetName s tgt n).heap tgt).name = n := by
  unfold objSetName
  split
  · rename_i h
    exact h
  · rw [modifyObj, setObj_heap_self]

/-- `UpdateMsFolderInfo` merges the mutable folder fields of `src` into
`tgt` and leaves the registry alone. -/
theorem updateMsFolderInfo_spec (s : St) (tgt src : Ref) (hne : src ≠ tgt)
    (ht : (s.heap tgt).kind = Kind.folder) (hs : (s.heap src).kind = Kind.folder) :
    ∃ s', updateMsFolderInfo s tgt src true = some s' ∧
      (s'.heap tgt).name = (s.heap src).name ∧
      (s'.heap tgt).size = (s.heap src).size ∧
      (s'.heap tgt).lmdt = (s.heap src).lmdt ∧
      (s'.heap tgt).cdt = (s.heap src).cdt ∧
      (s'.heap tgt).child_count = (s.heap src).child_count ∧
      s'.registry = s.registry := by
  have hinert := objSetName_inert s tgt ((s.heap src).name) src
  simp only [mergeInert, Prod.mk.injEq] at hinert
  obtain ⟨h_id, h_kind, h_size, h_lmdt, h_cdt, h_cc, h_qxh, h_sha⟩ := hinert
  unfold updateMsFolderInfo
  rw [if_pos (And.intro ht hs)]
  simp only [objSetSize, modifyObj]
  refine ⟨_, rfl, ?_, ?_, ?_, ?_, ?_, ?_⟩
  · simp [setObj_heap_self, setObj_heap_ne, hne, objSetName_name_self]
  · simp [setObj_heap_self, setObj_heap_ne, hne, h_size]
  · simp [setObj_heap_self, setObj_heap_ne, hne, h_lmdt]
  · simp [setObj_heap_self, setObj_heap_ne, hne, h_cdt]
  · simp [setObj_heap_self, setObj_heap_ne, hne, h_cc]
  · simp [setObj_registry, objSetName_registry]

/-- `UpdateMsFileInfo` merges the mutable file fields of `src` into `tgt`
and leaves the registry alone. -/
theorem updateMsFileInfo_spec (s : St) (tgt src : Ref) (hne : src ≠ tgt)
    (ht : (s.heap tgt).kind = Kind.file) (hs : (s.heap src).kind = Kind.file) :
    ∃ s', updateMsFileInfo s tgt src = some s' ∧
      (s'.heap tgt).name = (s.heap src).name ∧
      (s'.heap tgt).size = (s.heap src).size ∧
      (s'.heap tgt).lmdt = (s.heap src).lmdt ∧
      (s'.heap tgt).cdt = (s.heap src).cdt ∧
      (s'.heap tgt).qxh = (s.heap src).qxh ∧
      (s'.heap tgt).sha1hash = (s.heap src).sha1hash ∧
      s'.registry = s.registry := by
  have hinert := objSetName_inert s tgt ((s.heap src).name) src
  simp only [mergeInert, Prod.mk.injEq] at hinert
  obtain ⟨h_id, h_kind, h_size, h_lmdt, h_cdt, h_cc, h_qxh, h_sha⟩ := hinert
  unfold updateMsFileInfo
  rw [if_pos (And.intro ht hs)]
  simp only [objSetSize, modifyObj]
  refine ⟨_, rfl, ?_, ?_, ?_, ?_, ?_, ?_, ?_⟩
  · simp [setObj_heap_self, setObj_heap_ne, hne, objSetName_name_self]
  · simp [setObj_heap_self, setObj_heap_ne, hne, h_size]
  · simp [setObj_heap_self, setObj_heap_ne, hne, h_lmdt]
  · simp [setObj_heap_self, setObj_heap_ne, hne, h_cdt]
  · simp [setObj_heap_self, setObj_heap_ne, hne, h_qxh]
  · simp [setObj_heap_self, setObj_heap_ne, hne, h_sha]
  · simp [setObj_registry, objSetName_registry]

/-- C2 amended: `add_or_get_update` behaves as claimed for folder and file
candidates — fresh ids are registered and the candidate itself is
returned; for a registered id with a matching-kind instance the existing
instance is returned with its mutable fields overwritten from the
candidate — but an `MsOtherInfo` candidate whose id is already registered
is NOT merged: the call only logs a warning and returns an absent (`None`)
result. -/
theorem c2_amended (s : St) (r : Ref) :
    (dictGet s ((s.heap r).ms_id) = none →
       addOrGetUpdate s r =
         some ({ s with registry := s.registry ++ [((s.heap r).ms_id, r)] }, some r)) ∧
    (∀ tgt, dictGet s ((s.heap r).ms_id) = some tgt → r ≠ tgt →
      ((s.heap r).kind = Kind.other → addOrGetUpdate s r = some (s, none)) ∧
      ((s.heap r).kind = Kind.folder → (s.heap tgt).kind = Kind.folder →
        ∃ s', addOrGetUpdate s r = some (s', some tgt) ∧
          (s'.heap tgt).name = (s.heap r).name ∧
          (s'.heap tgt).size = (s.heap r).size ∧
          (s'.heap tgt).lmdt = (s.heap r).lmdt ∧
          (s'.heap tgt).cdt = (s.heap r).cdt ∧
          (s'.heap tgt).child_count = (s.heap r).child_count ∧
          s'.registry = s.registry) ∧
      ((s.heap r).kind = Kind.file → (s.heap tgt).kind = Kind.file →
        ∃ s', addOrGetUpdate s r = some (s', some tgt) ∧
          (s'.heap tgt).name = (s.heap r).name ∧
          (s'.heap tgt).size = (s.heap r).size ∧
          (s'.heap tgt).lmdt = (s.heap r).lmdt ∧
          (s'.heap tgt).cdt = (s.heap r).cdt ∧
          (s'.heap tgt).qxh = (s.heap r).qxh ∧
          (s'.heap tgt).sha1hash = (s.heap r).sha1hash ∧
          s'.registry = s.registry)) := by
  constructor
  · intro h
    simp only [dictGet] at h
    unfold addOrGetUpdate
    simp only [h]
  · intro tgt hlook hne
    simp only [dictGet] at hlook
    refine ⟨?_, ?_, ?_⟩
    · intro hk
      unfold addOrGetUpdate
      simp only [hlook, hk]
    · intro hk hkt
      obtain ⟨s', hrun, h1, h2, h3, h4, h5, h6⟩ :=
        updateMsFolderInfo_spec s tgt r hne hkt hk
      refine ⟨s', ?_, h1, h2, h3, h4, h5, h6⟩
      unfold addOrGetUpdate
      simp only [hlook, hk, hrun]
      rfl
    · intro hk hkt
      obtain ⟨s', hrun, h1, h2, h3, h4, h5, h6, h7⟩ :=
        updateMsFileInfo_spec s tgt r hne hkt hk
      refine ⟨s', ?_, h1, h2, h3, h4, h5, h6, h7⟩
      unfold addOrGetUpdate
      simp only [hlook, hk, hrun]
      rfl

/-- Identity-map state for the C2 witness: a registered file instance
(ref 0) under id "y" and a fresh file candidate (ref 1) with the same id. -/
def c2wSt : St :=
  { heap := fun r =>
      if r = 0 then { blankObj with ms_id := "y", kind := Kind.file, name := "old" }
      else if r = 1 then { blankObj with ms_id := "y", kind := Kind.file, name := "new" }
      else blankObj,
    registry := [("y", 0)],
    nextRef := 2 }

/-- Witness for C2: merging a file candidate (ref 1) into the registered
file instance (ref 0) with the same id returns the existing instance with
the candidate's name. -/
theorem c2_amended_witness :
    ∃ s', addOrGetUpdate c2wSt 1 = some (s', some 0) ∧
      (s'.heap 0).name = "new" := by
  have h := (c2_amended c2wSt 1).2 0 (by decide) (by decide)
  obtain ⟨s', hrun, h1, _⟩ := h.2.2 (by decide) (by decide)
  refine ⟨s', hrun, ?_⟩
  rw [h1]
  rfl

/-- C10: `DictMsObject.remove(ms_id)` raises (`KeyError`) exactly when no
instance with that id is registered; equivalently, `remove` fails iff
`get` returns an absent result. -/
theorem c10_remove_raises_iff_absent (s : St) (i : MsId) :
    dictRemove s i = none ↔ dictGet s i = none := by
  unfold dictRemove dictGet
  cases h : s.registry.lookup i <;> simp [h]

/-! `MsFolderInfo.retrieve_children_info`, modelled folder-locally: the
folder's retrieval state is its status / server-reported child count /
per-kind retrieved child names / continuation link; the network is an
oracle list of pages.  The child objects built by the factories (identity
registration, recursive descent with `recursive=True`) are outside this
folder-local model; the claim-relevant status and count logic is kept in
full, for the default `recursive=False` call. -/

structure FolderRet where
  status : Option String
  child_count : Option Int
  files : List String
  folders : List String
  others : List String
  next_link : Option String
deriving DecidableEq, Repr

/-- One entry of a children-listing page, classified by its JSON keys. -/
structure PageItem where
  isFolder : Bool
  isFile : Bool
  isPackage : Bool
  pname : String
deriving DecidableEq, Repr

/-- `MsFolderInfo.get_nb_retrieved_children`. -/
def nbRetrieved (f : FolderRet) : Nat :=
  f.files.length + f.folders.length + f.others.length

/-- `MsFolderInfo.children_retrieval_has_started`. -/
def retStarted (f : FolderRet) : Bool :=
  f.status = some "all" || f.status = some "partial"

/-- The entry guard of `retrieve_children_info`:
`depth >= 0 and (not started or (nb < child_count and nb < max))`, with
Python's lazy evaluation — comparing `nb < None` raises `TypeError`. -/
def retrieveGuard (f : FolderRet) (depth maxr : Int) : Option Bool :=
  if depth < 0 then some false
  else if !(retStarted f) then some true
  else
    match f.child_count with
    | none => none
    | some cc =>
        some (decide ((nbRetrieved f : Int) < cc) && decide ((nbRetrieved f : Int) < maxr))

/-- The per-item classification of the response loop: folder entries are
added only when retrieval had not started at entry (`started` is fixed for
the whole loop because the status field is written after it), file and
package entries are added when their name is not already indexed (the
folder name index also holds the synthetic `"."`/`".."` keys). -/
def retAddItem (started : Bool) (f : FolderRet) (c : PageItem) : FolderRet :=
  if !started && c.isFolder then
    if c.pname ∈ f.folders ∨ c.pname = "." ∨ c.pname = ".." then f
    else { f with folders := f.folders ++ [c.pname] }
  else if c.isFile then
    if c.pname ∈ f.files then f else { f with files := f.files ++ [c.pname] }
  else if c.isPackage then
    if c.pname ∈ f.others then f else { f with others := f.others ++ [c.pname] }
  else f

/-- Outcome of one non-recursive pass of `retrieve_children_info`. -/
inductive RetOut where
  | err
  | done (f : FolderRet) (rest : List (List PageItem × Option String))
  | again (f : FolderRet) (rest : List (List PageItem × Option String))
deriving DecidableEq, Repr

/-- One pass of `retrieve_children_info(recursive=False, depth, max)`:
guard, fetch one page (an empty oracle models the caught
`MsGraphException`, which leaves the state unchanged), record the new
continuation link, add the page's entries, set the status to `"partial"`
iff a continuation link remains (else `"all"`), and report whether the
trailing self-recursion condition (a link remains, the counts allow more,
and the page made progress) holds. -/
def retrieveBody (pages : List (List PageItem × Option String))
    (f : FolderRet) (depth maxr : Int) : RetOut :=
  match retrieveGuard f depth maxr with
  | none => RetOut.err
  | some false => RetOut.done f pages
  | some true =>
      match pages with
      | [] => RetOut.done f []
      | (items, link) :: rest =>
          let started := retStarted f
          let nbStart := nbRetrieved f
          let f0 := { f with next_link := link }
          let f1 := items.foldl (retAddItem started) f0
          let f2 := { f1 with status := if link.isSome then some "partial" else some "all" }
          if link.isSome then
            match f2.child_count with
            | none => RetOut.err
            | some cc =>
                if ((nbRetrieved f2 : Int) < cc) && ((nbRetrieved f2 : Int) < maxr)
                    && (nbStart ≠ nbRetrieved f2 : Bool) then
                  RetOut.again f2 rest
                else RetOut.done f2 rest
          else RetOut.done f2 rest

/-- `MsFolderInfo.retrieve_children_info`: iterate `retrieveBody` through
the trailing self-recursion, with fuel (the Python recursion is unbounded
in depth only through fresh pages). -/
def retrieveChildrenInfo :
    Nat → List (List PageItem × Option String) → FolderRet → Int → Int →
      Option (FolderRet × List (List PageItem × Option String))
  | 0, _, _, _, _ => none
  | fuel + 1, pages, f, depth, maxr =>
      match retrieveBody pages f depth maxr with
      | RetOut.err => none
      | RetOut.done f' rest => some (f', rest)
      | RetOut.again f' rest => retrieveChildrenInfo fuel rest f' depth maxr

/-- The Complete folder of C6's counterexample: one retrieved file child,
but a child count that a delta merge has since raised to 2. -/
def c6Folder : FolderRet :=
  { status := some "all", child_count := some 2, files := ["f1"],
    folders := [], others := [], next_link := none }

/-- C6 counterexample: a folder whose retrieval status is Complete
(`"all"`) but whose delta-merged `child_count` (2) exceeds the locally
retrieved children (1) re-enters retrieval, and a page that arrives with a
continuation link resets the status to `"partial"` — Complete is not
terminal. -/
theorem c6_counterexample :
    Option.map (fun x => x.1.status)
      (retrieveChildrenInfo 2 [([⟨false, true, false, "f2"⟩], some "L2")]
        c6Folder 999 200) = some (some "partial") := by
  decide

/-- C6 amended: `retrieve_children_info` leaves a Complete folder Complete
(and its whole retrieval state untouched) as long as the locally retrieved
child count has reached `child_count` or `max_retrieved_children`; but if
a delta merge raises `child_count` above the number of locally retrieved
children while `max_retrieved_children` still allows more, the guard
re-opens retrieval and a page carrying a continuation link moves the
status back to Partial. -/
theorem c6_amended (fuel : Nat) (pages : List (List PageItem × Option String))
    (f : FolderRet) (depth maxr : Int) (cc : Int)
    (hfuel : 0 < fuel)
    (hst : f.status = some "all")
    (hcc : f.child_count = some cc)
    (hdone : cc ≤ (nbRetrieved f : Int) ∨ maxr ≤ (nbRetrieved f : Int)) :
    retrieveChildrenInfo fuel pages f depth maxr = some (f, pages) := by
  obtain ⟨fuel', rfl⟩ : ∃ k, fuel = k + 1 := ⟨fuel - 1, by omega⟩
  have hstarted : retStarted f = true := by
    simp [retStarted, hst]
  have hguard : retrieveGuard f depth maxr = some false := by
    unfold retrieveGuard
    by_cases hd : depth < 0
    · simp [hd]
    · simp only [hd, if_false, hstarted, Bool.not_true, Bool.false_eq_true, if_false, hcc]
      rcases hdone with h | h
      · simp [not_lt.mpr h]
      · simp [not_lt.mpr h]
  have hbody : retrieveBody pages f depth maxr = RetOut.done f pages := by
    unfold retrieveBody
    rw [hguard]
  unfold retrieveChildrenInfo
  rw [hbody]

/-- A Complete folder whose one retrieved child matches its child count. -/
def c6wFolder : FolderRet :=
  { status := some "all", child_count := some 1, files := ["f1"],
    folders := [], others := [], next_link := none }

/-- Witness for C6: a Complete folder with `child_count` equal to its one
retrieved child is left untouched by a further retrieval call. -/
theorem c6_amended_witness :
    retrieveChildrenInfo 3 [([⟨false, true, false, "g"⟩], some "L")]
      c6wFolder 999 200 =
      some (c6wFolder, [([⟨false, true, false, "g"⟩], some "L")]) := by
  exact c6_amended 3 _ _ 999 200 1 (by decide) rfl rfl (by left; decide)

/-! `MsObject.get_lastfolderinfo_path`: path resolution. -/

/-- Split a character list on `'/'` (the semantics of Python's
`p.split("/")`), by structural recursion so that concrete path
computations reduce in the kernel. -/
def splitOnSlashChars : List Char → List (List Char)
  | [] => [[]]
  | c :: cs =>
      let r := splitOnSlashChars cs
      if c = '/' then [] :: r
      else
        match r with
        | [] => [[c]]
        | h :: t => (c :: h) :: t

/-- Python's `p.split("/")` on a string. -/
def strSplitSlash (p : String) : List String :=
  (splitOnSlashChars p.data).map String.mk

def startsWithSlash (p : String) : Bool :=
  match p.data with
  | '/' :: _ => true
  | _ => false

def startsWithTwoSlashes (p : String) : Bool :=
  match p.data with
  | '/' :: '/' :: _ => true
  | _ => false

def startsWithThreeSlashes (p : String) : Bool :=
  match p.data with
  | '/' :: '/' :: '/' :: _ => true
  | _ => false

def endsWithSlash (p : String) : Bool :=
  p.data.getLast? = some '/'

/-- Python's `"/".join(l)`. -/
def joinWithSlash : List String → String
  | [] => ""
  | [x] => x
  | x :: xs => x ++ "/" ++ joinWithSlash xs

/-- `os.path.split(p)[1]` for POSIX paths: the text after the last
separator. -/
def splitLastComponent (p : String) : String :=
  (strSplitSlash p).getLastD p

/-- One component step of `posixpath.normpath`: skip empty and `"."`
components, append ordinary components (and `".."` when the path is
relative with nothing collected yet, or the last collected component is
already `".."`), otherwise resolve `".."` by dropping the last collected
component. -/
def normpathStep (initialSlashes : Nat) (acc : List String) (comp : String) :
    List String :=
  if comp = "" ∨ comp = "." then acc
  else if comp ≠ ".." ∨ (initialSlashes = 0 ∧ acc = []) ∨ acc.getLast? = some ".." then
    acc ++ [comp]
  else if acc ≠ [] then acc.dropLast
  else acc

/-- `posixpath.normpath` (as invoked by the source through
`os.path.normpath`): empty path becomes `"."`, exactly two leading slashes
are preserved, components are normalized, and an empty result becomes
`"."`. -/
def normpath (p : String) : String :=
  if p = "" then "."
  else
    let initialSlashes : Nat :=
      if startsWithSlash p then
        (if startsWithTwoSlashes p ∧ ¬(startsWithThreeSlashes p) then 2 else 1)
      else 0
    let comps := strSplitSlash p
    let newComps := comps.foldl (normpathStep initialSlashes) []
    let joined := joinWithSlash newComps
    let res :=
      (if initialSlashes = 2 then "//" else if initialSlashes = 1 then "/" else "") ++ joined
    if res = "" then "." else res

/-- Modelled from the spec: `StrPathUtil.split_path` lives in
`lib/strpathutil.py`, which is not among the provided sources.  The spec
says the resolver "walks the path one segment at a time", and the caller
removes the first returned item with the comment that it is the empty
string produced by the leading separator, so the split is on the `"/"`
separator. -/
def splitPath (p : String) : List String := strSplitSlash p

/-- `MsFolderInfo.is_direct_child_folder(name, force_children_retrieval=True)`:
a key lookup in the folder name index.  When retrieval has not started the
source first performs a network retrieval, which is outside this model
(`none`). -/
def isDirectChildFolder (s : St) (r : Ref) (n : String) : Option Bool :=
  if !(retrievalHasStarted (s.heap r)) then none
  else some (dictHasKey (s.heap r).dict_children_folder n)

/-- `MsFolderInfo.get_direct_child_folder(name, force_children_retrieval=True)`:
the indexed value if the key is present, else Python `None` (the synthetic
`".."` entry of the root also holds `None`). -/
def getDirectChildFolder (s : St) (r : Ref) (n : String) : Option (Option Ref) :=
  if !(retrievalHasStarted (s.heap r)) then none
  else some (((s.heap r).dict_children_folder.lookup n).join)

inductive WalkRes where
  | notFound
  | found (r : Option Ref)
deriving DecidableEq, Repr

/-- The search loop of `get_lastfolderinfo_path`: descend through known
child folders; the first unknown segment stops with `notFound`.  A `None`
dictionary value ends the walk as found-`None` when it is the last
segment, and raises (`AttributeError`) otherwise. -/
def lastfolderWalk (s : St) : List String → Ref → Option WalkRes
  | [], r => some (WalkRes.found (some r))
  | n :: rest, r =>
      match isDirectChildFolder s r n with
      | none => none
      | some false => some WalkRes.notFound
      | some true =>
          match getDirectChildFolder s r n with
          | none => none
          | some (some r') => lastfolderWalk s rest r'
          | some none =>
              match rest with
              | [] => some (WalkRes.found none)
              | _ :: _ => none

/-- `MsObject.get_lastfolderinfo_path(root_fi, input, current_fi)`: handle
the empty input, reject a relative input without a current folder, detect
a trailing `"."`/`".."` (normalized with a protective suffix), normalize,
absolutize against the current folder's path, split into segments, peel
off the completion prefix (`start_text`) unless the input ends with the
separator, then walk the remaining segments from the root.  Returns the
deepest resolved folder and the unresolved remainder, or `(None, None)`. -/
def getLastfolderinfoPath (s : St) (fuel : Nat) (rootFi : Ref) (input : String)
    (currentFi : Option Ref) : Option (Option Ref × Option String) :=
  if input = "" then
    match currentFi with
    | none => some (none, none)
    | some c => some (some c, some "")
  else if ¬(startsWithSlash input) ∧ currentFi = none then some (none, none)
  else
    let endDot := splitLastComponent input = "." ∨ splitLastComponent input = ".."
    let my0 := if endDot then normpath (input ++ "a") else normpath input
    let myFull? : Option String :=
      if ¬(startsWithSlash my0) then
        match currentFi with
        | none => none
        | some c => (pathOf s fuel c).map (fun cp => cp ++ "/" ++ my0)
      else some my0
    match myFull? with
    | none => none
    | some myFull =>
        let names0 := (splitPath myFull).drop 1
        let startRes : Option (String × List String) :=
          if endsWithSlash input then some ("", names0)
          else if endDot then some (splitLastComponent input, names0.dropLast)
          else
            match names0.getLast? with
            | none => none
            | some t => some (t, names0.dropLast)
        match startRes with
        | none => none
        | some (startText, folderNames) =>
            match lastfolderWalk s folderNames rootFi with
            | none => none
            | some WalkRes.notFound => some (none, none)
            | some (WalkRes.found r) => some (r, some startText)

/-- The cache of C7: root(0) ⊃ folder a(1) ⊃ folder b(2), all with
completed retrieval. -/
def c7Heap : Ref → MsObj
  | 0 => { blankObj with
           ms_id := "root", kind := Kind.folder, is_root := true,
           retrieval_status := some "all", children_folder := [1],
           dict_children_folder := [(".", some 0), ("..", none), ("a", some 1)] }
  | 1 => { blankObj with
           ms_id := "a", kind := Kind.folder, name := "a", parent := some 0,
           parent_path := some "", retrieval_status := some "all",
           children_folder := [2],
           dict_children_folder := [(".", some 1), ("..", some 0), ("b", some 2)] }
  | 2 => { blankObj with
           ms_id := "b", kind := Kind.folder, name := "b", parent := some 1,
           parent_path := some "/a", retrieval_status := some "all",
           dict_children_folder := [(".", some 2), ("..", some 1)] }
  | _ => blankObj

def c7St : St :=
  { heap := c7Heap, registry := [("root", 0), ("a", 1), ("b", 2)], nextRef := 3 }

/-- C7 counterexample: folder `a` (ref 1) is reachable from root with path
`"/a"`, but `resolve("/a", root)` returns `(root, "a")` — the deepest
resolved folder is a's parent and the remainder is a's name — not
`(a, "")` as the claim states. -/
theorem c7_counterexample :
    getLastfolderinfoPath c7St 5 0 "/a" none = some (some 0, some "a") ∧
      getLastfolderinfoPath c7St 5 0 "/a" none ≠ some (some 1, some "") := by
  constructor
  · decide
  · decide

/-- A plain path segment: nonempty, separator-free, and not one of the
special components `"."`/`".."`. -/
def plainSeg (n : String) : Prop :=
  n ≠ "" ∧ n ≠ "." ∧ n ≠ ".." ∧ ∀ c ∈ n.data, c ≠ '/'

instance (n : String) : Decidable (plainSeg n) := by
  unfold plainSeg
  infer_instance

theorem data_append (a b : String) : (a ++ b).data = a.data ++ b.data := rfl

theorem mk_data (s : String) : String.mk s.data = s := rfl

theorem ne_empty_of_data {s : String} {c : Char} {cs : List Char}
    (h : s.data = c :: cs) : s ≠ "" := by
  intro he
  rw [he] at h
  exact List.noConfusion h

theorem splitOnSlashChars_ne_nil : ∀ cs, splitOnSlashChars cs ≠ [] := by
  intro cs
  induction cs with
  | nil => simp [splitOnSlashChars]
  | cons c cs ih =>
      simp only [splitOnSlashChars]
      by_cases hc : c = '/'
      · rw [if_pos hc]
        simp
      · rw [if_neg hc]
        cases hr : splitOnSlashChars cs with
        | nil => exact absurd hr ih
        | cons h t => simp

theorem splitOnSlashChars_slash (cs : List Char) :
    splitOnSlashChars ('/' :: cs) = [] :: splitOnSlashChars cs := by
  simp [splitOnSlashChars]

theorem splitOnSlashChars_app {l : List Char} (hl : ∀ c ∈ l, c ≠ '/') :
    ∀ {cs h t}, splitOnSlashChars cs = h :: t →
      splitOnSlashChars (l ++ cs) = (l ++ h) :: t := by
  induction l with
  | nil =>
      intro cs h t hcs
      rw [List.nil_append, hcs, List.nil_append]
  | cons c l ih =>
      intro cs h t hcs
      have hc : c ≠ '/' := hl c (List.mem_cons_self c l)
      have hl' : ∀ c ∈ l, c ≠ '/' := fun x hx => hl x (List.mem_cons_of_mem c hx)
      rw [List.cons_append]
      simp only [splitOnSlashChars]
      rw [ih hl' hcs, if_neg hc]
      rfl

theorem joinWithSlash_cons (x : String) (l : List String) (h : l ≠ []) :
    joinWithSlash (x :: l) = x ++ "/" ++ joinWithSlash l := by
  cases l with
  | nil => exact absurd rfl h
  | cons y ys => rfl

theorem joinWithSlash_data_ne_nil :
    ∀ (pns : List String) (nL : String), nL ≠ "" →
      (joinWithSlash (pns ++ [nL])).data ≠ [] := by
  intro pns
  cases pns with
  | nil =>
      intro nL hnL h
      exact hnL (congrArg String.mk h)
  | cons x xs =>
      intro nL hnL h
      rw [List.cons_append, joinWithSlash_cons x (xs ++ [nL]) (by simp),
        data_append, data_append] at h
      simp at h

theorem splitOnSlashChars_join :
    ∀ (ns : List String) (n0 : String), (∀ n ∈ n0 :: ns, ∀ c ∈ n.data, c ≠ '/') →
      splitOnSlashChars ((joinWithSlash (n0 :: ns)).data)
        = (n0 :: ns).map String.data := by
  intro ns
  induction ns with
  | nil =>
      intro n0 hpl
      have h0 : ∀ c ∈ n0.data, c ≠ '/' := hpl n0 (by simp)
      rw [show joinWithSlash [n0] = n0 from rfl]
      have h2 := @splitOnSlashChars_app n0.data h0 [] [] [] rfl
      rw [List.append_nil] at h2
      rw [h2]
      rfl
  | cons y ys ih =>
      intro n0 hpl
      have h0 : ∀ c ∈ n0.data, c ≠ '/' := hpl n0 (by simp)
      have hrest : ∀ n ∈ y :: ys, ∀ c ∈ n.data, c ≠ '/' := by
        intro n hn
        exact hpl n (List.mem_cons_of_mem _ hn)
      rw [joinWithSlash_cons n0 (y :: ys) (by simp)]
      rw [show (n0 ++ "/" ++ joinWithSlash (y :: ys)).data
          = n0.data ++ ('/' :: (joinWithSlash (y :: ys)).data) from by
            rw [data_append, data_append, List.append_assoc]
            rfl]
      rw [splitOnSlashChars_app h0 (by rw [splitOnSlashChars_slash, ih y hrest])]
      rw [List.append_nil]
      rfl

theorem splitOnSlashChars_join_slash :
    ∀ (ns : List String) (n0 : String), (∀ n ∈ n0 :: ns, ∀ c ∈ n.data, c ≠ '/') →
      splitOnSlashChars ((joinWithSlash (n0 :: ns)).data ++ ['/'])
        = (n0 :: ns).map String.data ++ [[]] := by
  intro ns
  induction ns with
  | nil =>
      intro n0 hpl
      have h0 : ∀ c ∈ n0.data, c ≠ '/' := hpl n0 (by simp)
      rw [show joinWithSlash [n0] = n0 from rfl]
      rw [splitOnSlashChars_app h0
        (show splitOnSlashChars ['/'] = [] :: [[]] from rfl)]
      rw [List.append_nil]
      rfl
  | cons y ys ih =>
      intro n0 hpl
      have h0 : ∀ c ∈ n0.data, c ≠ '/' := hpl n0 (by simp)
      have hrest : ∀ n ∈ y :: ys, ∀ c ∈ n.data, c ≠ '/' := by
        intro n hn
        exact hpl n (List.mem_cons_of_mem _ hn)
      rw [joinWithSlash_cons n0 (y :: ys) (by simp)]
      rw [show (n0 ++ "/" ++ joinWithSlash (y :: ys)).data ++ ['/']
          = n0.data ++ ('/' :: ((joinWithSlash (y :: ys)).data ++ ['/'])) from by
            rw [data_append, data_append, List.append_assoc, List.append_assoc]
            rfl]
      rw [splitOnSlashChars_app h0 (by rw [splitOnSlashChars_slash, ih y hrest])]
      rw [List.append_nil]
      rfl

theorem strSplitSlash_abs (ns : List String) (hne : ns ≠ [])
    (hpl : ∀ n ∈ ns, ∀ c ∈ n.data, c ≠ '/') :
    strSplitSlash ("/" ++ joinWithSlash ns) = "" :: ns := by
  cases ns with
  | nil => exact absurd rfl hne
  | cons n0 rest =>
      rw [strSplitSlash, show ("/" ++ joinWithSlash (n0 :: rest)).data
          = '/' :: (joinWithSlash (n0 :: rest)).data from rfl,
        splitOnSlashChars_slash, splitOnSlashChars_join rest n0 hpl]
      rw [List.map_cons]
      rw [show String.mk [] = "" from rfl]
      congr 1
      rw [List.map_map]
      have hid : (String.mk ∘ String.data) = id := by
        funext s
        exact mk_data s
      rw [hid, List.map_id]

theorem strSplitSlash_abs_slash (ns : List String) (hne : ns ≠ [])
    (hpl : ∀ n ∈ ns, ∀ c ∈ n.data, c ≠ '/') :
    strSplitSlash ("/" ++ joinWithSlash ns ++ "/") = "" :: ns ++ [""] := by
  cases ns with
  | nil => exact absurd rfl hne
  | cons n0 rest =>
      rw [strSplitSlash, show ("/" ++ joinWithSlash (n0 :: rest) ++ "/").data
          = '/' :: ((joinWithSlash (n0 :: rest)).data ++ ['/']) from by
            rw [data_append, data_append]
            rfl,
        splitOnSlashChars_slash, splitOnSlashChars_join_slash rest n0 hpl]
      rw [List.map_cons, List.map_append, List.map_map]
      rw [show String.mk [] = "" from rfl]
      have hid : (String.mk ∘ String.data) = id := by
        funext s
        exact mk_data s
      rw [hid, List.map_id]
      rfl

theorem mem_of_getLast?_eq {α : Type} : ∀ {l : List α} {a : α},
    l.getLast? = some a → a ∈ l := by
  intro l
  induction l with
  | nil => intro a h; exact Option.noConfusion h
  | cons x t ih =>
      intro a h
      cases t with
      | nil =>
          rw [show ([x] : List α).getLast? = some x from rfl] at h
          rw [← Option.some_inj.mp h]
          simp
      | cons y u =>
          rw [List.getLast?_cons_cons] at h
          exact List.mem_cons_of_mem _ (ih h)

theorem getLast?_append_right {α : Type} :
    ∀ (l₁ l₂ : List α), l₂ ≠ [] → (l₁ ++ l₂).getLast? = l₂.getLast? := by
  intro l₁
  induction l₁ with
  | nil => intro l₂ _; rw [List.nil_append]
  | cons a t ih =>
      intro l₂ h2
      rw [List.cons_append]
      cases hm : t ++ l₂ with
      | nil =>
          rcases List.append_eq_nil.mp hm with ⟨_, h⟩
          exact absurd h h2
      | cons b m =>
          rw [List.getLast?_cons_cons, ← hm]
          exact ih l₂ h2

theorem join_data_getLast? :
    ∀ (pns : List String) (nL : String), nL ≠ "" →
      ((joinWithSlash (pns ++ [nL])).data).getLast? = nL.data.getLast? := by
  intro pns
  induction pns with
  | nil => intro nL _; rfl
  | cons x xs ih =>
      intro nL hnL
      rw [List.cons_append, joinWithSlash_cons x (xs ++ [nL]) (by simp),
        data_append, data_append]
      rw [List.append_assoc]
      rw [getLast?_append_right _ _ (by simp)]
      rw [show ("/" : String).data ++ (joinWithSlash (xs ++ [nL])).data
          = '/' :: (joinWithSlash (xs ++ [nL])).data from rfl]
      cases hj : (joinWithSlash (xs ++ [nL])).data with
      | nil => exact absurd hj (joinWithSlash_data_ne_nil xs nL hnL)
      | cons c cs =>
          rw [List.getLast?_cons_cons, ← hj]
          rw [← ih nL hnL, hj]

theorem endsWithSlash_abs (pns : List String) (nL : String)
    (hnL : nL ≠ "") (hpl : ∀ c ∈ nL.data, c ≠ '/') :
    endsWithSlash ("/" ++ joinWithSlash (pns ++ [nL])) = false := by
  rw [endsWithSlash]
  rw [show ("/" ++ joinWithSlash (pns ++ [nL])).data
      = '/' :: (joinWithSlash (pns ++ [nL])).data from rfl]
  cases hj : (joinWithSlash (pns ++ [nL])).data with
  | nil => exact absurd hj (joinWithSlash_data_ne_nil pns nL hnL)
  | cons c cs =>
      rw [List.getLast?_cons_cons, ← hj, join_data_getLast? pns nL hnL]
      cases hl : nL.data.getLast? with
      | none => rfl
      | some a =>
          have ha : a ≠ '/' := hpl a (mem_of_getLast?_eq hl)
          simp [ha]

theorem endsWithSlash_concat (t : String) :
    endsWithSlash (t ++ "/") = true := by
  rw [endsWithSlash, data_append]
  rw [show ("/" : String).data = ['/'] from rfl, List.getLast?_concat]
  rfl

theorem normpathStep_empty (isl : Nat) (acc : List String) :
    normpathStep isl acc "" = acc := by
  rw [normpathStep, if_pos (Or.inl rfl)]

theorem normpathStep_plain (isl : Nat) (acc : List String) (n : String)
    (h0 : n ≠ "") (h1 : n ≠ ".") (h2 : n ≠ "..") :
    normpathStep isl acc n = acc ++ [n] := by
  rw [normpathStep, if_neg (by simp [h0, h1]), if_pos (Or.inl h2)]

theorem foldl_normpathStep_plain (isl : Nat) :
    ∀ (ns : List String) (acc : List String),
      (∀ n ∈ ns, plainSeg n) →
      ns.foldl (normpathStep isl) acc = acc ++ ns := by
  intro ns
  induction ns with
  | nil => intro acc _; rw [List.foldl_nil, List.append_nil]
  | cons x xs ih =>
      intro acc h
      obtain ⟨h0, h1, h2, _⟩ := h x (List.mem_cons_self x xs)
      rw [List.foldl_cons, normpathStep_plain isl acc x h0 h1 h2,
        ih (acc ++ [x]) (fun n hn => h n (List.mem_cons_of_mem x hn)),
        List.append_assoc]
      rfl

theorem joinWithSlash_cons_data (n0 : String) (rest : List String) :
    ∃ suf, (joinWithSlash (n0 :: rest)).data = n0.data ++ suf := by
  cases rest with
  | nil => exact ⟨[], (List.append_nil _).symm⟩
  | cons y ys =>
      refine ⟨'/' :: (joinWithSlash (y :: ys)).data, ?_⟩
      rw [joinWithSlash_cons n0 (y :: ys) (by simp), data_append, data_append,
        List.append_assoc]
      rfl

theorem startsWithSlash_of_data {s : String} {l : List Char}
    (h : s.data = '/' :: l) : startsWithSlash s = true := by
  rw [startsWithSlash, h]
  rfl

theorem two_slashes_false {s : String} {c : Char} {l : List Char}
    (h : s.data = '/' :: c :: l) (hc : c ≠ '/') :
    startsWithTwoSlashes s = false := by
  rw [startsWithTwoSlashes, h]
  split
  · next heq =>
      injection heq with h1 h2
      injection h2 with h2a _
      exact absurd h2a hc
  · rfl

theorem abs_ne_empty (ns : List String) : ("/" ++ joinWithSlash ns) ≠ "" :=
  ne_empty_of_data
    (show ("/" ++ joinWithSlash ns).data = '/' :: (joinWithSlash ns).data from rfl)

theorem abs_slash_ne_empty (ns : List String) :
    ("/" ++ joinWithSlash ns ++ "/") ≠ "" :=
  ne_empty_of_data
    (show ("/" ++ joinWithSlash ns ++ "/").data
        = '/' :: ((joinWithSlash ns).data ++ ['/']) from rfl)

theorem abs_startsWithSlash (ns : List String) :
    startsWithSlash ("/" ++ joinWithSlash ns) = true :=
  startsWithSlash_of_data
    (show ("/" ++ joinWithSlash ns).data = '/' :: (joinWithSlash ns).data from rfl)

theorem abs_slash_startsWithSlash (ns : List String) :
    startsWithSlash ("/" ++ joinWithSlash ns ++ "/") = true :=
  startsWithSlash_of_data
    (show ("/" ++ joinWithSlash ns ++ "/").data
        = '/' :: ((joinWithSlash ns).data ++ ['/']) from rfl)

theorem abs_two_slashes_false (ns : List String) (hne : ns ≠ [])
    (hpl : ∀ n ∈ ns, plainSeg n) :
    startsWithTwoSlashes ("/" ++ joinWithSlash ns) = false ∧
    startsWithTwoSlashes ("/" ++ joinWithSlash ns ++ "/") = false := by
  cases ns with
  | nil => exact absurd rfl hne
  | cons n0 rest =>
      obtain ⟨suf, hsuf⟩ := joinWithSlash_cons_data n0 rest
      obtain ⟨h0, _, _, hch⟩ := hpl n0 (List.mem_cons_self n0 rest)
      cases hd : n0.data with
      | nil =>
          exact absurd (by rw [← mk_data n0, hd]) h0
      | cons c cs =>
          have hc : c ≠ '/' := hch c (by rw [hd]; exact List.mem_cons_self c cs)
          have h1 : ("/" ++ joinWithSlash (n0 :: rest)).data
              = '/' :: c :: (cs ++ suf) := by
            rw [data_append, hsuf, hd]
            rfl
          have h2 : ("/" ++ joinWithSlash (n0 :: rest) ++ "/").data
              = '/' :: c :: ((cs ++ suf) ++ ['/']) := by
            rw [data_append, h1]
            rfl
          exact ⟨two_slashes_false h1 hc, two_slashes_false h2 hc⟩

theorem normpath_abs (ns : List String) (hne : ns ≠ [])
    (hpl : ∀ n ∈ ns, plainSeg n) :
    normpath ("/" ++ joinWithSlash ns) = "/" ++ joinWithSlash ns := by
  have hS : startsWithSlash ("/" ++ joinWithSlash ns) = true := abs_startsWithSlash ns
  have hS2 : startsWithTwoSlashes ("/" ++ joinWithSlash ns) = false :=
    (abs_two_slashes_false ns hne hpl).1
  have hsplit : strSplitSlash ("/" ++ joinWithSlash ns) = "" :: ns :=
    strSplitSlash_abs ns hne (fun n hn => ((hpl n hn).2.2.2))
  have hfold : ("" :: ns).foldl (normpathStep 1) [] = ns := by
    rw [List.foldl_cons, normpathStep_empty]
    exact foldl_normpathStep_plain 1 ns [] hpl
  rw [normpath, if_neg (abs_ne_empty ns)]
  simp only [hS, hS2, hsplit, Bool.false_eq_true, false_and, if_false, if_true,
    reduceIte]
  rw [hfold]
  rw [show (if (1 : Nat) = 2 then "//" else "/") = "/" from by decide]
  rw [if_neg (abs_ne_empty ns)]

theorem normpath_abs_slash (ns : List String) (hne : ns ≠ [])
    (hpl : ∀ n ∈ ns, plainSeg n) :
    normpath ("/" ++ joinWithSlash ns ++ "/") = "/" ++ joinWithSlash ns := by
  have hS : startsWithSlash ("/" ++ joinWithSlash ns ++ "/") = true :=
    abs_slash_startsWithSlash ns
  have hS2 : startsWithTwoSlashes ("/" ++ joinWithSlash ns ++ "/") = false :=
    (abs_two_slashes_false ns hne hpl).2
  have hsplit : strSplitSlash ("/" ++ joinWithSlash ns ++ "/") = "" :: ns ++ [""] :=
    strSplitSlash_abs_slash ns hne (fun n hn => ((hpl n hn).2.2.2))
  have hfold : ("" :: ns ++ [""]).foldl (normpathStep 1) [] = ns := by
    rw [List.foldl_append, List.foldl_cons, normpathStep_empty, List.foldl_nil,
      List.foldl_cons, normpathStep_empty, foldl_normpathStep_plain 1 ns [] hpl]
    rfl
  rw [normpath, if_neg (abs_slash_ne_empty ns)]
  simp only [hS, hS2, hsplit, Bool.false_eq_true, false_and, if_false, if_true,
    reduceIte]
  rw [hfold]
  rw [show (if (1 : Nat) = 2 then "//" else "/") = "/" from by decide]
  rw [if_neg (abs_ne_empty ns)]

theorem splitLastComponent_abs (pns : List String) (nL : String)
    (hpl : ∀ n ∈ pns ++ [nL], ∀ c ∈ n.data, c ≠ '/') :
    splitLastComponent ("/" ++ joinWithSlash (pns ++ [nL])) = nL := by
  rw [splitLastComponent, strSplitSlash_abs (pns ++ [nL]) (by simp) hpl]
  rw [show ("" :: (pns ++ [nL])) = (("" :: pns) ++ [nL]) from rfl,
    List.getLastD_concat]

theorem splitLastComponent_abs_slash (ns : List String) (hne : ns ≠ [])
    (hpl : ∀ n ∈ ns, ∀ c ∈ n.data, c ≠ '/') :
    splitLastComponent ("/" ++ joinWithSlash ns ++ "/") = "" := by
  rw [splitLastComponent, strSplitSlash_abs_slash ns hne hpl]
  rw [show ("" :: ns ++ [""]) = (("" :: ns) ++ [""]) from rfl,
    List.getLastD_concat]

def folderChain (s : St) : Ref → List (String × Ref) → Bool
  | _, [] => true
  | rt, (n, r) :: rest =>
      retrievalHasStarted (s.heap rt) &&
        decide ((s.heap rt).dict_children_folder.lookup n = some (some r)) &&
        folderChain s r rest

theorem folderChain_append_left (s : St) :
    ∀ (l1 l2 : List (String × Ref)) (rt : Ref),
      folderChain s rt (l1 ++ l2) = true → folderChain s rt l1 = true := by
  intro l1
  induction l1 with
  | nil => intro l2 rt _; rfl
  | cons e t ih =>
      intro l2 rt h
      obtain ⟨n, r⟩ := e
      rw [List.cons_append] at h
      simp only [folderChain, Bool.and_eq_true] at h ⊢
      exact ⟨h.1, ih l2 r h.2⟩

theorem lastfolderWalk_chain (s : St) :
    ∀ (chain : List (String × Ref)) (rt : Ref),
      folderChain s rt chain = true →
      lastfolderWalk s (chain.map Prod.fst) rt
        = some (WalkRes.found (some ((chain.map Prod.snd).getLastD rt))) := by
  intro chain
  induction chain with
  | nil => intro rt _; rfl
  | cons e rest ih =>
      intro rt h
      obtain ⟨n, r⟩ := e
      simp only [folderChain, Bool.and_eq_true, decide_eq_true_eq] at h
      obtain ⟨⟨hret, hlk⟩, hch⟩ := h
      have h1 : isDirectChildFolder s rt n = some true := by
        rw [isDirectChildFolder, hret, if_neg (by simp), dictHasKey, hlk]
        rfl
      have h2 : getDirectChildFolder s rt n = some (some r) := by
        rw [getDirectChildFolder, hret, if_neg (by simp), hlk]
        rfl
      rw [List.map_cons, List.map_cons, List.getLastD_cons]
      simp only [lastfolderWalk, h1, h2]
      exact ih r hch

/-- C7 amended: in any cache state, for any object reachable from the root
through a chain of folders that have started child retrieval, along plain
path segments (nonempty, separator-free, not `"."`/`".."`), resolving the
object's own path returns the pair (the object's parent — the deepest
folder on the chain before the object — and the object's name): the final
path segment is returned as the unresolved completion prefix, never
resolved.  Appending the separator instead resolves the object itself and
returns `(object, "")`. -/
theorem c7_amended (s : St) (fuel fuel2 : Nat) (rt rL : Ref)
    (pre : List (String × Ref)) (nL : String) (pth : String)
    (hch : folderChain s rt (pre ++ [(nL, rL)]) = true)
    (hplain : ∀ n ∈ pre.map Prod.fst ++ [nL], plainSeg n)
    (hobj : pathOf s fuel2 rL = some pth)
    (hpth : pth = "/" ++ joinWithSlash (pre.map Prod.fst ++ [nL])) :
    getLastfolderinfoPath s fuel rt pth none
      = some (some ((pre.map Prod.snd).getLastD rt), some nL) ∧
    getLastfolderinfoPath s fuel rt (pth ++ "/") none
      = some (some rL, some "") := by
  subst hpth
  have hne : (pre.map Prod.fst ++ [nL]) ≠ [] := by simp
  obtain ⟨hnL0, hnL1, hnL2, hnLc⟩ := hplain nL (by simp)
  have hS1 := abs_startsWithSlash (pre.map Prod.fst ++ [nL])
  have hS1' := abs_slash_startsWithSlash (pre.map Prod.fst ++ [nL])
  have hlast := splitLastComponent_abs (pre.map Prod.fst) nL
    (fun n hn => (hplain n hn).2.2.2)
  have hlast' := splitLastComponent_abs_slash (pre.map Prod.fst ++ [nL]) hne
    (fun n hn => (hplain n hn).2.2.2)
  have hdot : ¬(nL = "." ∨ nL = "..") := fun h => h.elim hnL1 hnL2
  have hdot' : ¬(("" : String) = "." ∨ ("" : String) = "..") := by decide
  have hnorm := normpath_abs (pre.map Prod.fst ++ [nL]) hne hplain
  have hnorm' := normpath_abs_slash (pre.map Prod.fst ++ [nL]) hne hplain
  have hsplit := strSplitSlash_abs (pre.map Prod.fst ++ [nL]) hne
    (fun n hn => (hplain n hn).2.2.2)
  have hEnd := endsWithSlash_abs (pre.map Prod.fst) nL hnL0 hnLc
  have hEnd' := endsWithSlash_concat ("/" ++ joinWithSlash (pre.map Prod.fst ++ [nL]))
  have hwalk := lastfolderWalk_chain s pre rt
    (folderChain_append_left s pre [(nL, rL)] rt hch)
  have hwalk2 := lastfolderWalk_chain s (pre ++ [(nL, rL)]) rt hch
  simp only [List.map_append, List.map_cons, List.map_nil] at hwalk2
  rw [List.getLastD_concat] at hwalk2
  constructor
  · rw [getLastfolderinfoPath, if_neg (abs_ne_empty (pre.map Prod.fst ++ [nL])),
      if_neg (fun hq => hq.1 hS1)]
    simp only [hlast, hdot, hnorm, hS1, splitPath, hsplit, List.drop_succ_cons,
      List.drop_zero, hEnd, List.getLast?_concat, List.dropLast_concat, hwalk,
      Bool.false_eq_true, Bool.not_true, if_false, if_true, not_true,
      reduceIte]
  · rw [getLastfolderinfoPath,
      if_neg (abs_slash_ne_empty (pre.map Prod.fst ++ [nL])),
      if_neg (fun hq => hq.1 hS1')]
    simp only [hlast', hdot', hnorm', hS1, splitPath, hsplit,
      List.drop_succ_cons, List.drop_zero, hEnd', hwalk2,
      Bool.false_eq_true, Bool.not_true, if_false, if_true, not_true,
      reduceIte]

/-- Witness for `c7_amended` on the concrete cache `c7St`: folder `b`
(ref 2), reached from the root through `a` (ref 1), has path `"/a/b"`. -/
theorem c7_amended_witness :
    getLastfolderinfoPath c7St 5 0 "/a/b" none
      = some (some (([(("a" : String), (1 : Ref))].map Prod.snd).getLastD 0), some "b") ∧
    getLastfolderinfoPath c7St 5 0 ("/a/b" ++ "/") none
      = some (some 2, some "") :=
  c7_amended c7St 5 5 0 2 [("a", 1)] "b" "/a/b" (by decide) (by decide)
    (by decide) (by decide)

/-! Association-list lemmas used by the synchronization proofs. -/

theorem lookup_filter_self {α : Type} (l : List (MsId × α)) (i : MsId) :
    (l.filter (fun e => e.1 ≠ i)).lookup i = none := by
  induction l with
  | nil => rfl
  | cons e t ih =>
      obtain ⟨a, b⟩ := e
      by_cases h : a = i
      · rw [List.filter_cons_of_neg (by simp [h])]
        exact ih
      · rw [List.filter_cons_of_pos (by simp [h]), List.lookup_cons]
        have hne : (i == a) = false := beq_eq_false_iff_ne.mpr (Ne.symm h)
        rw [hne]
        exact ih

theorem lookup_filter_other {α : Type} (l : List (MsId × α)) (i j : MsId)
    (h : j ≠ i) : (l.filter (fun e => e.1 ≠ i)).lookup j = l.lookup j := by
  induction l with
  | nil => rfl
  | cons e t ih =>
      obtain ⟨a, b⟩ := e
      by_cases he : a = i
      · subst he
        rw [List.filter_cons_of_neg (by simp), List.lookup_cons]
        have hne : (j == a) = false := beq_eq_false_iff_ne.mpr h
        rw [hne]
        exact ih
      · rw [List.filter_cons_of_pos (by simp [he]), List.lookup_cons, List.lookup_cons]
        cases hja : (j == a)
        · exact ih
        · rfl

theorem lookup_append_self {α : Type} (l : List (MsId × α)) (i : MsId) (v : α)
    (h : l.lookup i = none) : (l ++ [(i, v)]).lookup i = some v := by
  induction l with
  | nil =>
      rw [List.nil_append, List.lookup_cons]
      rw [show (i == i) = true from beq_self_eq_true i]
  | cons e t ih =>
      obtain ⟨a, b⟩ := e
      rw [List.lookup_cons] at h
      rw [List.cons_append, List.lookup_cons]
      cases hia : (i == a)
      · rw [hia] at h
        exact ih h
      · rw [hia] at h
        simp at h

/-! Frame lemmas for the collection-mutating operations. -/

theorem addFileInfoIfNecessary_registry (s : St) (p f : Ref) :
    (addFileInfoIfNecessary s p f).registry = s.registry := by
  unfold addFileInfoIfNecessary
  by_cases h : dictHasKey (s.heap p).dict_children_file ((s.heap f).name) <;>
    simp [h, setObj]

theorem addFileInfoIfNecessary_nextRef (s : St) (p f : Ref) :
    (addFileInfoIfNecessary s p f).nextRef = s.nextRef := by
  unfold addFileInfoIfNecessary
  by_cases h : dictHasKey (s.heap p).dict_children_file ((s.heap f).name) <;>
    simp [h, setObj]

theorem addFileInfoIfNecessary_heap_ne (s : St) (p f x : Ref) (h : x ≠ p) :
    (addFileInfoIfNecessary s p f).heap x = s.heap x := by
  unfold addFileInfoIfNecessary
  by_cases hc : dictHasKey (s.heap p).dict_children_file ((s.heap f).name) <;>
    simp [hc, setObj, h]

theorem addFolderInfoIfNecessary_registry (s : St) (p f : Ref) :
    (addFolderInfoIfNecessary s p f).registry = s.registry := by
  unfold addFolderInfoIfNecessary
  by_cases h : dictHasKey (s.heap p).dict_children_folder ((s.heap f).name) <;>
    simp [h, setObj]

theorem addFolderInfoIfNecessary_nextRef (s : St) (p f : Ref) :
    (addFolderInfoIfNecessary s p f).nextRef = s.nextRef := by
  unfold addFolderInfoIfNecessary
  by_cases h : dictHasKey (s.heap p).dict_children_folder ((s.heap f).name) <;>
    simp [h, setObj]

theorem addFolderInfoIfNecessary_heap_ne (s : St) (p f x : Ref) (h : x ≠ p) :
    (addFolderInfoIfNecessary s p f).heap x = s.heap x := by
  unfold addFolderInfoIfNecessary
  by_cases hc : dictHasKey (s.heap p).dict_children_folder ((s.heap f).name) <;>
    simp [hc, setObj, h]

theorem addOtherInfoIfNecessary_registry (s : St) (p f : Ref) :
    (addOtherInfoIfNecessary s p f).registry = s.registry := by
  unfold addOtherInfoIfNecessary
  by_cases h : dictHasKey (s.heap p).dict_children_other ((s.heap f).name) <;>
    simp [h, setObj]

theorem addOtherInfoIfNecessary_nextRef (s : St) (p f : Ref) :
    (addOtherInfoIfNecessary s p f).nextRef = s.nextRef := by
  unfold addOtherInfoIfNecessary
  by_cases h : dictHasKey (s.heap p).dict_children_other ((s.heap f).name) <;>
    simp [h, setObj]

theorem addOtherInfoIfNecessary_heap_ne (s : St) (p f x : Ref) (h : x ≠ p) :
    (addOtherInfoIfNecessary s p f).heap x = s.heap x := by
  unfold addOtherInfoIfNecessary
  by_cases hc : dictHasKey (s.heap p).dict_children_other ((s.heap f).name) <;>
    simp [hc, setObj, h]

theorem addObjectInfo_registry (s : St) (p f : Ref) :
    (addObjectInfo s p f).registry = s.registry := by
  unfold addObjectInfo
  rcases hk : (s.heap f).kind <;>
    simp only [hk, addFolderInfoIfNecessary_registry, addFileInfoIfNecessary_registry,
      addOtherInfoIfNecessary_registry]

theorem addObjectInfo_nextRef (s : St) (p f : Ref) :
    (addObjectInfo s p f).nextRef = s.nextRef := by
  unfold addObjectInfo
  rcases hk : (s.heap f).kind <;>
    simp only [hk, addFolderInfoIfNecessary_nextRef, addFileInfoIfNecessary_nextRef,
      addOtherInfoIfNecessary_nextRef]

theorem addObjectInfo_heap_ne (s : St) (p f x : Ref) (h : x ≠ p) :
    (addObjectInfo s p f).heap x = s.heap x := by
  unfold addObjectInfo
  rcases hk : (s.heap f).kind <;>
    simp only [hk, addFolderInfoIfNecessary_heap_ne _ _ _ _ h,
      addFileInfoIfNecessary_heap_ne _ _ _ _ h, addOtherInfoIfNecessary_heap_ne _ _ _ _ h]

theorem modifyObj_heap_self (s : St) (r : Ref) (f : MsObj → MsObj) :
    (modifyObj s r f).heap r = f (s.heap r) := setObj_heap_self _ _ _

theorem modifyObj_heap_ne (s : St) (r x : Ref) (f : MsObj → MsObj) (h : x ≠ r) :
    (modifyObj s r f).heap x = s.heap x := setObj_heap_ne _ _ _ _ h

theorem modifyObj_registry (s : St) (r : Ref) (f : MsObj → MsObj) :
    (modifyObj s r f).registry = s.registry := rfl

/-- Unfolding `path` one step when the cached `parent_path` is present. -/
theorem pathOf_parent_path_some (s : St) (fuel : Nat) (r : Ref) (pp : String)
    (h : (s.heap r).parent_path = some pp) :
    pathOf s (fuel + 1) r =
      some (if (s.heap r).is_root then "" else pp ++ "/" ++ (s.heap r).name) := by
  unfold pathOf
  simp only [h]

/-- Effect of `__process_diff_delete` on a locally known file whose delete
item names a locally known parent: the id leaves the identity map and the
object leaves the parent's file collection; nothing else changes. -/
theorem processDiffDelete_spec (s : St) (d : DiffItem) (rX pd : Ref)
    (hreg : s.registry.lookup d.id = some rX)
    (hdp : (s.registry.filter (fun e => e.1 ≠ d.id)).lookup d.parentId = some pd)
    (hkX : (s.heap rX).kind = Kind.file)
    (hmem : (s.heap pd).children_file.contains rX = true)
    (hdict : ((s.heap pd).dict_children_file.lookup ((s.heap rX).name)).isSome = true) :
    ∃ s2, processDiffDelete s d = some s2 ∧
      s2.registry = s.registry.filter (fun e => e.1 ≠ d.id) ∧
      s2.nextRef = s.nextRef ∧
      (∀ x, x ≠ pd → s2.heap x = s.heap x) ∧
      (s2.heap pd).parent_path = (s.heap pd).parent_path := by
  have h2 : dictRemove s d.id =
      some { s with registry := s.registry.filter (fun e => e.1 ≠ d.id) } := by
    unfold dictRemove
    rw [hreg]
    rfl
  have hpop : dictPop (s.heap pd).dict_children_file ((s.heap rX).name) =
      some ((s.heap pd).dict_children_file.filter (fun e => e.1 ≠ (s.heap rX).name)) := by
    unfold dictPop
    rw [if_pos hdict]
  have hric : removeInfoForChild { s with registry := s.registry.filter (fun e => e.1 ≠ d.id) } pd rX =
      some (setObj { s with registry := s.registry.filter (fun e => e.1 ≠ d.id) } pd
        { s.heap pd with
          children_file := (s.heap pd).children_file.erase rX,
          dict_children_file := (s.heap pd).dict_children_file.filter
            (fun e => e.1 ≠ (s.heap rX).name) }) := by
    unfold removeInfoForChild
    simp only [hkX, hmem, eq_self_iff_true, if_true, hpop]
  refine ⟨setObj { s with registry := s.registry.filter (fun e => e.1 ≠ d.id) } pd
      { s.heap pd with
        children_file := (s.heap pd).children_file.erase rX,
        dict_children_file := (s.heap pd).dict_children_file.filter
          (fun e => e.1 ≠ (s.heap rX).name) }, ?_, rfl, rfl, ?_, ?_⟩
  · unfold processDiffDelete
    simp only [dictGet, hreg, h2, hdp, hric]
  · intro x hx
    exact setObj_heap_ne _ _ _ _ hx
  · rw [setObj_heap_self]

/-- `add_or_get_update` on an unregistered id registers the candidate and
returns it. -/
theorem addOrGetUpdate_fresh (s : St) (r : Ref)
    (h : s.registry.lookup ((s.heap r).ms_id) = none) :
    addOrGetUpdate s r =
      some ({ s with registry := s.registry ++ [((s.heap r).ms_id, r)] }, some r) := by
  unfold addOrGetUpdate
  simp only [h]

/-- The state right after `MsFileInfoFromMgcResponse` allocates the
detached file object (no parent, no registration yet). -/
def allocFileSt (t : St) (u : DiffItem) (ppu : String) : St :=
  { heap := fun x => if x = t.nextRef then detachedFileObj u ppu else t.heap x,
    registry := t.registry, nextRef := t.nextRef + 1 }

/-- Effect of `__process_diff_file` for an unknown id with a known declared
parent: the detached file object is allocated and registered, and a
pending reparenting pair is recorded. -/
theorem processDiffFile_fresh_spec (t : St) (u : DiffItem) (pRef : Ref) (ppu : String)
    (hup : u.parentPath = some ppu)
    (hnone : t.registry.lookup u.id = none)
    (hpreg : t.registry.lookup u.parentId = some pRef) :
    ∃ t', processDiffFile t [] u = some (t', [(t.nextRef, some pRef)]) ∧
      t'.registry = t.registry ++ [(u.id, t.nextRef)] ∧
      t'.nextRef = t.nextRef + 1 ∧
      t'.heap t.nextRef = detachedFileObj u ppu ∧
      (∀ x, x ≠ t.nextRef → t'.heap x = t.heap x) := by
  have hfact : msFileInfoFromMgcResponse t u none true =
      some (allocFileSt t u ppu, t.nextRef) := by
    unfold msFileInfoFromMgcResponse allocFileSt
    rw [hup]
    rfl
  have hms : ((allocFileSt t u ppu).heap t.nextRef).ms_id = u.id := by
    show (if t.nextRef = t.nextRef then detachedFileObj u ppu else t.heap t.nextRef).ms_id = u.id
    rw [if_pos rfl]
    rfl
  have hnone0 : (allocFileSt t u ppu).registry.lookup
      (((allocFileSt t u ppu).heap t.nextRef).ms_id) = none := by
    rw [hms]
    exact hnone
  have hagu0 := addOrGetUpdate_fresh (allocFileSt t u ppu) t.nextRef hnone0
  rw [hms] at hagu0
  have hagu : addOrGetUpdate (allocFileSt t u ppu) t.nextRef =
      some ({ allocFileSt t u ppu with registry := t.registry ++ [(u.id, t.nextRef)] },
        some t.nextRef) := hagu0
  have hpreg1 : (allocFileSt t u ppu).registry.lookup u.parentId = some pRef := hpreg
  refine ⟨{ allocFileSt t u ppu with registry := t.registry ++ [(u.id, t.nextRef)] },
    ?_, rfl, rfl, ?_, ?_⟩
  · unfold processDiffFile
    simp only [dictGet, hnone, hfact, hpreg1, hagu, List.nil_append]
  · show (if t.nextRef = t.nextRef then detachedFileObj u ppu else t.heap t.nextRef) =
      detachedFileObj u ppu
    rw [if_pos rfl]
  · intro x hx
    show (if x = t.nextRef then detachedFileObj u ppu else t.heap x) = t.heap x
    rw [if_neg hx]

/-- The refreshed `parent_path` value computed by `update_parent`. -/
def attachPathVal (t : St) (c np : Ref) (pp : String) : String :=
  if ((modifyObj t c (fun o => { o with parent := some np })).heap np).is_root then ""
  else pp ++ "/" ++ ((modifyObj t c (fun o => { o with parent := some np })).heap np).name

/-- `update_parent` on a file whose new parent has a cached path: the
parent pointer is repointed and the cached `parent_path` refreshed. -/
theorem objUpdateParent_spec_file (t : St) (c np : Ref) (k : Nat) (pp : String)
    (hne : np ≠ c)
    (hppq : (t.heap np).parent_path = some pp)
    (hkc : (t.heap c).kind = Kind.file) :
    objUpdateParent (k + 1) t c np =
      some (modifyObj (modifyObj t c (fun o => { o with parent := some np })) c
        (fun o => { o with parent_path := some (attachPathVal t c np pp) })) := by
  have hpath := pathOf_parent_path_some
    (modifyObj t c (fun o => { o with parent := some np })) k np pp
    (by rw [modifyObj_heap_ne _ _ _ _ hne]; exact hppq)
  unfold objUpdateParent
  simp only [hpath, modifyObj_heap_self, hkc]
  rw [if_neg (by decide)]
  rfl

/-- Effect of `__process_parentship` on a pending pair whose object has no
current parent and whose declared parent is known: attach only — the
parent pointer and cached path are set and the object joins the parent's
collections; no other field of the object changes and the identity map is
untouched. -/
theorem processParentship_attach_spec (t : St) (c pRef : Ref) (k : Nat) (ppq : String)
    (hpar : (t.heap c).parent = none)
    (hkc : (t.heap c).kind = Kind.file)
    (hppq : (t.heap pRef).parent_path = some ppq)
    (hne : pRef ≠ c) :
    ∃ t', processParentship (k + 1) t (c, some pRef) = some t' ∧
      t'.registry = t.registry ∧
      (t'.heap c).parent = some pRef ∧
      (t'.heap c).name = (t.heap c).name ∧
      (t'.heap c).size = (t.heap c).size ∧
      (t'.heap c).qxh = (t.heap c).qxh ∧
      (t'.heap c).sha1hash = (t.heap c).sha1hash ∧
      (t'.heap c).cdt = (t.heap c).cdt ∧
      (t'.heap c).lmdt = (t.heap c).lmdt := by
  have hupd := objUpdateParent_spec_file t c pRef k ppq hne hppq hkc
  refine ⟨addObjectInfo (modifyObj (modifyObj t c (fun o => { o with parent := some pRef })) c
      (fun o => { o with parent_path := some (attachPathVal t c pRef ppq) })) pRef c,
    ?_, ?_, ?_, ?_, ?_, ?_, ?_, ?_, ?_⟩
  · unfold processParentship
    simp only [hpar, hupd]
  · rw [addObjectInfo_registry, modifyObj_registry, modifyObj_registry]
  all_goals
    rw [addObjectInfo_heap_ne _ _ _ _ (Ne.symm hne), modifyObj_heap_self, modifyObj_heap_self]

/-- C3: if one synchronization batch contains both a deletion for a
locally known id and a file upsert recycling the same id under a locally
known declared parent, then after `process_diffs` the cache contains an
object registered under that id carrying the upsert's attributes (name,
size, hashes, timestamps) and attached under the declared parent — not
absent — because all deletions are applied strictly before any upserts. -/
theorem c3_delete_then_recreate
    (s : St) (d u : DiffItem) (fuel : Nat) (fetch : MsId → Option DiffItem)
    (rX pd pRef : Ref) (ppu ppq : String)
    (hfuel : 0 < fuel)
    (hd1 : d.isDeleted = true) (hd2 : d.id = u.id)
    (hu1 : u.isFile = true) (hu2 : u.isDeleted = false) (hu3 : u.isFolder = false)
    (hup : u.parentPath = some ppu)
    (hreg : s.registry.lookup u.id = some rX)
    (hkX : (s.heap rX).kind = Kind.file)
    (hdpr : s.registry.lookup d.parentId = some pd)
    (hdpne : d.parentId ≠ u.id)
    (hmem : (s.heap pd).children_file.contains rX = true)
    (hdict : ((s.heap pd).dict_children_file.lookup ((s.heap rX).name)).isSome = true)
    (hpreg : s.registry.lookup u.parentId = some pRef)
    (hpne : u.parentId ≠ u.id)
    (hppq : (s.heap pRef).parent_path = some ppq)
    (hpfresh : pRef ≠ s.nextRef) :
    ∃ s', processDiffs fuel fetch s [d, u] = some s' ∧
      s'.registry.lookup u.id = some s.nextRef ∧
      (s'.heap s.nextRef).name = u.name ∧
      (s'.heap s.nextRef).size = u.size ∧
      (s'.heap s.nextRef).qxh = u.qxh ∧
      (s'.heap s.nextRef).sha1hash = u.sha1 ∧
      (s'.heap s.nextRef).cdt = u.cdt ∧
      (s'.heap s.nextRef).lmdt = u.lmdt ∧
      (s'.heap s.nextRef).parent = some pRef := by
  obtain ⟨k, rfl⟩ : ∃ k, fuel = k + 1 := ⟨fuel - 1, by omega⟩
  have hregd : s.registry.lookup d.id = some rX := by rw [hd2]; exact hreg
  have hdp2 : (s.registry.filter (fun e => e.1 ≠ d.id)).lookup d.parentId = some pd := by
    rw [lookup_filter_other _ _ _ (by rw [hd2]; exact hdpne)]
    exact hdpr
  obtain ⟨s2, hdel, hreg2, hnext2, hheap2, hpp2⟩ :=
    processDiffDelete_spec s d rX pd hregd hdp2 hkX hmem hdict
  have hnone2 : s2.registry.lookup u.id = none := by
    rw [hreg2, hd2]
    exact lookup_filter_self _ _
  have hpreg2 : s2.registry.lookup u.parentId = some pRef := by
    rw [hreg2, lookup_filter_other _ _ _ (by rw [hd2]; exact hpne)]
    exact hpreg
  obtain ⟨s4, hfile, hreg4, hnext4, hheapNew4, hheap4⟩ :=
    processDiffFile_fresh_spec s2 u pRef ppu hup hnone2 hpreg2
  have hc : s2.nextRef = s.nextRef := hnext2
  have hparNone : (s4.heap s2.nextRef).parent = none := by
    rw [hheapNew4]
    rfl
  have hkc4 : (s4.heap s2.nextRef).kind = Kind.file := by
    rw [hheapNew4]
    rfl
  have hppq4 : (s4.heap pRef).parent_path = some ppq := by
    rw [hheap4 pRef (by rw [hc]; exact hpfresh)]
    by_cases hpd : pRef = pd
    · subst hpd
      rw [hpp2]
      exact hppq
    · rw [hheap2 pRef hpd]
      exact hppq
  obtain ⟨s7, hpar, hreg7, hparent7, hname7, hsize7, hqxh7, hsha7, hcdt7, hlmdt7⟩ :=
    processParentship_attach_spec s4 s2.nextRef pRef k ppq hparNone hkc4 hppq4
      (by rw [hc]; exact hpfresh)
  have hfd : [d, u].filter (fun x => x.isDeleted) = [d] := by
    simp [List.filter, hd1, hu2]
  have hff : [d, u].filter (fun x => x.isFile && !x.isDeleted) = [u] := by
    simp [List.filter, hd1, hu1, hu2]
  have hfo : [d, u].filter (fun x => x.isFolder && !x.isDeleted) = [] := by
    simp [List.filter, hd1, hu3]
  refine ⟨s7, ?_, ?_, ?_, ?_, ?_, ?_, ?_, ?_, ?_⟩
  · unfold processDiffs
    simp only [hfd, hff, hfo, List.foldlM_cons, List.foldlM_nil, hdel, hfile, hpar,
      Option.pure_def, Option.bind_eq_bind, Option.some_bind]
  · rw [hreg7, hreg4, ← hc]
    exact lookup_append_self _ _ _ hnone2
  · rw [← hc, hname7, hheapNew4]
    rfl
  · rw [← hc, hsize7, hheapNew4]
    rfl
  · rw [← hc, hqxh7, hheapNew4]
    rfl
  · rw [← hc, hsha7, hheapNew4]
    rfl
  · rw [← hc, hcdt7, hheapNew4]
    rfl
  · rw [← hc, hlmdt7, hheapNew4]
    rfl
  · rw [← hc]
    exact hparent7

/-- Cache of the C3 witness: root(0) holding file X(1) named "x". -/
def c3wSt : St :=
  { heap := fun r =>
      if r = 0 then
        { blankObj with
          ms_id := "root", kind := Kind.folder, is_root := true,
          parent_path := some "", size := 5, child_count := some 1,
          retrieval_status := some "all", children_file := [1],
          dict_children_file := [("x", 1)],
          dict_children_folder := [(".", some 0), ("..", none)] }
      else if r = 1 then
        { blankObj with
          ms_id := "X", kind := Kind.file, name := "x", parent := some 0,
          parent_path := some "", size := 5, lmdt := PyDatetime.dt 1 }
      else blankObj,
    registry := [("root", 0), ("X", 1)],
    nextRef := 2 }

/-- The deletion item of the C3 witness. -/
def c3wD : DiffItem :=
  { id := "X", name := "x", size := 5, isDeleted := true, isFolder := false,
    isFile := true, isPackage := false, isRoot := false, parentId := "root",
    parentPath := some "", childCount := none, qxh := none, sha1 := none,
    packageType := none, cdt := PyDatetime.dt 0, lmdt := PyDatetime.dt 1 }

/-- The recreating file upsert of the C3 witness (same id "X"). -/
def c3wU : DiffItem :=
  { id := "X", name := "x2", size := 7, isDeleted := false, isFolder := false,
    isFile := true, isPackage := false, isRoot := false, parentId := "root",
    parentPath := some "/drive/root:", childCount := none, qxh := some "QX",
    sha1 := some "SH", packageType := none, cdt := PyDatetime.dt 11,
    lmdt := PyDatetime.dt 12 }

/-- Witness for C3: a batch deleting id "X" and recreating it as file "x2"
leaves the cache with a registered object for "X" carrying the upsert's
attributes and attached under the declared parent. -/
theorem c3_witness :
    ∃ s', processDiffs 1 (fun _ => none) c3wSt [c3wD, c3wU] = some s' ∧
      s'.registry.lookup "X" = some 2 ∧
      (s'.heap 2).name = "x2" ∧
      (s'.heap 2).size = 7 ∧
      (s'.heap 2).parent = some 0 := by
  obtain ⟨s', h1, h2, h3, h4, _, _, _, _, h9⟩ :=
    c3_delete_then_recreate c3wSt c3wD c3wU 1 (fun _ => none) 1 0 0 "/drive/root:" ""
      (by decide) (by decide) rfl (by decide) (by decide) (by decide) rfl
      (by decide) (by decide) (by decide) (by decide) (by decide) (by decide)
      (by decide) (by decide) (by decide) (by decide)
  exact ⟨s', h1, h2, h3, h4, h9⟩

/-! ### C5: bidirectional parent/children consistency under the shell's
cache-updating operations (`put`, `rm`, `mv` with and without renaming). -/

/-- The per-kind ordered child collection of a folder object
(`children_files` / `children_folder` / `children_other` in the source,
selected by the child's dynamic kind as the per-kind methods do). -/
def chList (o : MsObj) : Kind → List Ref
  | Kind.folder => o.children_folder
  | Kind.file => o.children_file
  | Kind.other => o.children_other

/-- Lift a name index over plain refs to the folder name index's value
type, so the three per-kind indexes can be spoken about uniformly. -/
def liftD (d : List (String × Ref)) : List (String × Option Ref) :=
  d.map (fun e => (e.1, some e.2))

/-- The per-kind name index (`dict_children_*`) of a folder object. -/
def dictKind (o : MsObj) : Kind → List (String × Option Ref)
  | Kind.folder => o.dict_children_folder
  | Kind.file => liftD o.dict_children_file
  | Kind.other => liftD o.dict_children_other

/-- The refs registered in the identity map (`DictMsObject`). -/
def regRefs (s : St) : List Ref := s.registry.map Prod.snd

/-- The cache-known folders: every registered ref together with the parent
of every registered ref. -/
def domF (s : St) : List Ref :=
  regRefs s ++ (regRefs s).filterMap (fun r => (s.heap r).parent)

/-- Equality of the tree-structural fields of two objects (identity, kind,
name, parent back-reference, child collections and name indexes); the
ancestor size/timestamp walks change objects only outside these fields. -/
def SameStruct (o o' : MsObj) : Prop :=
  o'.ms_id = o.ms_id ∧ o'.kind = o.kind ∧ o'.name = o.name ∧
  o'.parent = o.parent ∧
  o'.children_file = o.children_file ∧
  o'.children_folder = o.children_folder ∧
  o'.children_other = o.children_other ∧
  o'.dict_children_file = o.dict_children_file ∧
  o'.dict_children_folder = o.dict_children_folder ∧
  o'.dict_children_other = o.dict_children_other

/-- Two states with the same registry, allocation counter, and
tree-structural content of every object. -/
def StructEq (s t : St) : Prop :=
  t.registry = s.registry ∧ t.nextRef = s.nextRef ∧
  ∀ r, SameStruct (s.heap r) (t.heap r)

/-- The record update performed by `remove_info_for_child` on the parent
object, per the child's kind `k` and name `nm`. -/
def eraseChild (po : MsObj) (k : Kind) (c : Ref) (nm : String) : MsObj :=
  match k with
  | Kind.folder =>
      { po with children_folder := po.children_folder.erase c,
                dict_children_folder := po.dict_children_folder.filter (fun e => e.1 ≠ nm) }
  | Kind.file =>
      { po with children_file := po.children_file.erase c,
                dict_children_file := po.dict_children_file.filter (fun e => e.1 ≠ nm) }
  | Kind.other =>
      { po with children_other := po.children_other.erase c,
                dict_children_other := po.dict_children_other.filter (fun e => e.1 ≠ nm) }

/-- The record update performed by `__add_*_info_if_necessary` on the
parent object when the name `nm` is not yet indexed. -/
def appendChild (po : MsObj) (k : Kind) (c : Ref) (nm : String) : MsObj :=
  match k with
  | Kind.folder =>
      { po with children_folder := po.children_folder ++ [c],
                dict_children_folder := dictSet po.dict_children_folder nm (some c) }
  | Kind.file =>
      { po with children_file := po.children_file ++ [c],
                dict_children_file := dictSet po.dict_children_file nm c }
  | Kind.other =>
      { po with children_other := po.children_other ++ [c],
                dict_children_other := dictSet po.dict_children_other nm c }

/-- The cache-consistency invariant: parent back-references and the child
collections/name indexes of every cache-known folder agree, collections
are duplicate-free with well-formed names, the identity map is coherent,
and every ref in play is below the allocation counter. -/
structure Inv (s : St) : Prop where
  fwd : ∀ c ∈ regRefs s, ∀ p, (s.heap c).parent = some p →
      c ∈ chList (s.heap p) (s.heap c).kind
  back : ∀ q ∈ domF s, ∀ k, ∀ c ∈ chList (s.heap q) k,
      (s.heap c).parent = some q ∧ (s.heap c).kind = k
  nodupL : ∀ q ∈ domF s, ∀ k, (chList (s.heap q) k).Nodup
  nameOk : ∀ q ∈ domF s, ∀ k, ∀ c ∈ chList (s.heap q) k,
      (s.heap c).name ≠ "." ∧ (s.heap c).name ≠ ".."
  dictCoh : ∀ q ∈ domF s, ∀ k, ∀ c ∈ chList (s.heap q) k,
      (dictKind (s.heap q) k).lookup (s.heap c).name = some (some c)
  keyNodup : ∀ q ∈ domF s, ∀ k, ((dictKind (s.heap q) k).map Prod.fst).Nodup
  regId : ∀ e ∈ s.registry, (s.heap e.2).ms_id = e.1
  regKeys : (s.registry.map Prod.fst).Nodup
  boundDom : ∀ q ∈ domF s, q < s.nextRef
  boundCh : ∀ q ∈ domF s, ∀ k, ∀ c ∈ chList (s.heap q) k, c < s.nextRef

theorem sameStruct_refl (o : MsObj) : SameStruct o o :=
  ⟨rfl, rfl, rfl, rfl, rfl, rfl, rfl, rfl, rfl, rfl⟩

theorem sameStruct_trans {a b c : MsObj} (h1 : SameStruct a b)
    (h2 : SameStruct b c) : SameStruct a c := by
  obtain ⟨e1, e2, e3, e4, e5, e6, e7, e8, e9, e10⟩ := h1
  obtain ⟨f1, f2, f3, f4, f5, f6, f7, f8, f9, f10⟩ := h2
  exact ⟨f1.trans e1, f2.trans e2, f3.trans e3, f4.trans e4, f5.trans e5,
    f6.trans e6, f7.trans e7, f8.trans e8, f9.trans e9, f10.trans e10⟩

theorem structEq_refl (s : St) : StructEq s s :=
  ⟨rfl, rfl, fun r => sameStruct_refl (s.heap r)⟩

theorem structEq_trans {s t u : St} (h1 : StructEq s t) (h2 : StructEq t u) :
    StructEq s u :=
  ⟨h2.1.trans h1.1, h2.2.1.trans h1.2.1,
   fun r => sameStruct_trans (h1.2.2 r) (h2.2.2 r)⟩

theorem chList_congr {o o' : MsObj} (h : SameStruct o o') (k : Kind) :
    chList o' k = chList o k := by
  obtain ⟨_, _, _, _, e5, e6, e7, _, _, _⟩ := h
  cases k <;> simp [chList, e5, e6, e7]

theorem dictKind_congr {o o' : MsObj} (h : SameStruct o o') (k : Kind) :
    dictKind o' k = dictKind o k := by
  obtain ⟨_, _, _, _, _, _, _, e8, e9, e10⟩ := h
  cases k <;> simp [dictKind, e8, e9, e10]

theorem liftD_lookup (d : List (String × Ref)) (n : String) :
    (liftD d).lookup n = (d.lookup n).map some := by
  induction d with
  | nil => rfl
  | cons e t ih =>
      obtain ⟨a, b⟩ := e
      rw [liftD, List.map_cons, List.lookup_cons, List.lookup_cons]
      cases hna : (n == a)
      · exact ih
      · rfl

theorem liftD_cons (a : String) (b : Ref) (t : List (String × Ref)) :
    liftD ((a, b) :: t) = (a, some b) :: liftD t := rfl

theorem liftD_filter (d : List (String × Ref)) (nm : String) :
    liftD (d.filter (fun e => e.1 ≠ nm)) = (liftD d).filter (fun e => e.1 ≠ nm) := by
  induction d with
  | nil => rfl
  | cons e t ih =>
      obtain ⟨a, b⟩ := e
      rw [liftD_cons]
      by_cases h : a = nm
      · rw [List.filter_cons_of_neg (by simp [h]), List.filter_cons_of_neg (by simp [h])]
        exact ih
      · rw [List.filter_cons_of_pos (by simp [h]), List.filter_cons_of_pos (by simp [h]),
          liftD_cons]
        exact congrArg (List.cons (a, some b)) ih

theorem liftD_append (d e : List (String × Ref)) :
    liftD (d ++ e) = liftD d ++ liftD e :=
  List.map_append _ d e

theorem liftD_keys (d : List (String × Ref)) :
    (liftD d).map Prod.fst = d.map Prod.fst := by
  induction d with
  | nil => rfl
  | cons e t ih =>
      obtain ⟨a, b⟩ := e
      rw [liftD, List.map_cons, List.map_cons, List.map_cons]
      exact congrArg (List.cons a) ih

theorem lookup_none_not_mem {α : Type} {d : List (String × α)} {k : String}
    (h : d.lookup k = none) : k ∉ d.map Prod.fst := by
  induction d with
  | nil => simp
  | cons e t ih =>
      obtain ⟨a, b⟩ := e
      rw [List.lookup_cons] at h
      cases hka : (k == a)
      · rw [hka] at h
        rw [List.map_cons]
        intro hm
        rcases List.mem_cons.mp hm with hm | hm
        · exact absurd (beq_eq_false_iff_ne.mp hka) (by simp [hm])
        · exact ih h hm
      · rw [hka] at h
        simp at h

theorem lookup_append_some {α : Type} {d : List (String × α)}
    (e : List (String × α)) {k : String} {v : α}
    (h : d.lookup k = some v) : (d ++ e).lookup k = some v := by
  induction d with
  | nil => simp [List.lookup_nil] at h
  | cons x t ih =>
      obtain ⟨a, b⟩ := x
      rw [List.lookup_cons] at h
      rw [List.cons_append, List.lookup_cons]
      cases hka : (k == a)
      · rw [hka] at h
        exact ih h
      · rw [hka] at h
        exact h

theorem lookup_append_none {α : Type} {d : List (String × α)}
    (e : List (String × α)) {k : String}
    (h : d.lookup k = none) : (d ++ e).lookup k = e.lookup k := by
  induction d with
  | nil => rw [List.nil_append]
  | cons x t ih =>
      obtain ⟨a, b⟩ := x
      rw [List.lookup_cons] at h
      rw [List.cons_append, List.lookup_cons]
      cases hka : (k == a)
      · rw [hka] at h
        exact ih h
      · rw [hka] at h
        simp at h

theorem lookup_replace_ne {α : Type} (d : List (String × α)) (k0 n : String)
    (v : α) (h : n ≠ k0) :
    (d.map (fun e => if e.1 = k0 then (k0, v) else e)).lookup n = d.lookup n := by
  induction d with
  | nil => rfl
  | cons e t ih =>
      obtain ⟨a, b⟩ := e
      by_cases ha : a = k0
      · simp only [List.map_cons, if_pos (show (a, b).1 = k0 from ha)]
        show (match n == k0 with
          | true => some v
          | false => (t.map (fun e => if e.1 = k0 then (k0, v) else e)).lookup n)
          = (match n == a with | true => some b | false => t.lookup n)
        rw [beq_eq_false_iff_ne.mpr h, beq_eq_false_iff_ne.mpr (ha ▸ h)]
        exact ih
      · simp only [List.map_cons, if_neg (show ¬ (a, b).1 = k0 from ha)]
        show (match n == a with
          | true => some b
          | false => (t.map (fun e => if e.1 = k0 then (k0, v) else e)).lookup n)
          = (match n == a with | true => some b | false => t.lookup n)
        cases hna : (n == a)
        · exact ih
        · rfl

theorem lookup_dictSet_ne {α : Type} (d : List (String × α)) (k0 n : String)
    (v : α) (h : n ≠ k0) : (dictSet d k0 v).lookup n = d.lookup n := by
  rw [dictSet]
  by_cases hk : (d.lookup k0).isSome
  · rw [if_pos hk]
    exact lookup_replace_ne d k0 n v h
  · rw [if_neg hk]
    cases hn : d.lookup n with
    | some w => rw [lookup_append_some _ hn]
    | none =>
        rw [lookup_append_none _ hn, List.lookup_cons]
        rw [beq_eq_false_iff_ne.mpr h, List.lookup_nil]

theorem keys_replace_eq {α : Type} (d : List (String × α)) (k0 : String)
    (v : α) :
    ((d.map (fun e => if e.1 = k0 then (k0, v) else e)).map Prod.fst)
      = d.map Prod.fst := by
  induction d with
  | nil => rfl
  | cons e t ih =>
      obtain ⟨a, b⟩ := e
      rw [List.map_cons, List.map_cons, List.map_cons]
      by_cases ha : a = k0
      · rw [if_pos (by simp [ha])]
        rw [ha]
        exact congrArg (List.cons k0) ih
      · rw [if_neg (by simp [ha])]
        exact congrArg (List.cons a) ih

theorem keys_dictSet_nodup {α : Type} (d : List (String × α)) (k0 : String)
    (v : α) (h : (d.map Prod.fst).Nodup) :
    ((dictSet d k0 v).map Prod.fst).Nodup := by
  rw [dictSet]
  by_cases hk : (d.lookup k0).isSome
  · rw [if_pos hk]
    rw [keys_replace_eq]
    exact h
  · rw [if_neg hk]
    rw [Option.not_isSome_iff_eq_none] at hk
    rw [List.map_append]
    rw [List.nodup_append]
    refine ⟨h, by simp, ?_⟩
    intro a ha hb
    simp at hb
    subst hb
    exact lookup_none_not_mem hk ha

theorem dictSet_fresh {α : Type} (d : List (String × α)) (k0 : String) (v : α)
    (h : d.lookup k0 = none) : dictSet d k0 v = d ++ [(k0, v)] := by
  rw [dictSet, if_neg (by rw [h]; simp)]

theorem eraseChild_fields (po : MsObj) (k0 : Kind) (c : Ref) (nm : String) :
    (eraseChild po k0 c nm).ms_id = po.ms_id ∧
    (eraseChild po k0 c nm).kind = po.kind ∧
    (eraseChild po k0 c nm).name = po.name ∧
    (eraseChild po k0 c nm).parent = po.parent := by
  cases k0 <;> exact ⟨rfl, rfl, rfl, rfl⟩

theorem appendChild_fields (po : MsObj) (k0 : Kind) (c : Ref) (nm : String) :
    (appendChild po k0 c nm).ms_id = po.ms_id ∧
    (appendChild po k0 c nm).kind = po.kind ∧
    (appendChild po k0 c nm).name = po.name ∧
    (appendChild po k0 c nm).parent = po.parent := by
  cases k0 <;> exact ⟨rfl, rfl, rfl, rfl⟩

theorem chList_eraseChild (po : MsObj) (k0 : Kind) (c : Ref) (nm : String)
    (k : Kind) :
    chList (eraseChild po k0 c nm) k =
      if k = k0 then (chList po k).erase c else chList po k := by
  cases k0 <;> cases k <;> simp [eraseChild, chList]

theorem dictKind_eraseChild (po : MsObj) (k0 : Kind) (c : Ref) (nm : String)
    (k : Kind) :
    dictKind (eraseChild po k0 c nm) k =
      if k = k0 then (dictKind po k).filter (fun e => e.1 ≠ nm)
      else dictKind po k := by
  have hfile := liftD_filter po.dict_children_file nm
  have hother := liftD_filter po.dict_children_other nm
  simp only [ne_eq, decide_not] at hfile hother
  cases k0 <;> cases k <;> simp [eraseChild, dictKind, hfile, hother]

theorem chList_appendChild (po : MsObj) (k0 : Kind) (c : Ref) (nm : String)
    (k : Kind) :
    chList (appendChild po k0 c nm) k =
      if k = k0 then chList po k ++ [c] else chList po k := by
  cases k0 <;> cases k <;> simp [appendChild, chList]

theorem dictKind_appendChild (po : MsObj) (k0 : Kind) (c : Ref) (nm : String)
    (hf : (dictKind po k0).lookup nm = none) (k : Kind) :
    dictKind (appendChild po k0 c nm) k =
      if k = k0 then dictKind po k ++ [(nm, some c)] else dictKind po k := by
  have hraw : ∀ (d : List (String × Ref)), (liftD d).lookup nm = none →
      d.lookup nm = none := by
    intro d hd
    rw [liftD_lookup] at hd
    cases hx : d.lookup nm with
    | none => rfl
    | some w => rw [hx] at hd; simp at hd
  cases k0 with
  | folder =>
      have h1 : dictSet po.dict_children_folder nm (some c)
          = po.dict_children_folder ++ [(nm, some c)] := dictSet_fresh _ _ _ hf
      cases k <;> simp [appendChild, dictKind, h1]
  | file =>
      have h0 : po.dict_children_file.lookup nm = none := hraw _ hf
      have h1 : dictSet po.dict_children_file nm c
          = po.dict_children_file ++ [(nm, c)] := dictSet_fresh _ _ _ h0
      cases k <;> simp [appendChild, dictKind, h1, liftD_append, liftD]
  | other =>
      have h0 : po.dict_children_other.lookup nm = none := hraw _ hf
      have h1 : dictSet po.dict_children_other nm c
          = po.dict_children_other ++ [(nm, c)] := dictSet_fresh _ _ _ h0
      cases k <;> simp [appendChild, dictKind, h1, liftD_append, liftD]

theorem eraseChild_congr {po po' : MsObj} (h : SameStruct po po') (k : Kind)
    (c : Ref) (nm : String) :
    SameStruct (eraseChild po k c nm) (eraseChild po' k c nm) := by
  obtain ⟨e1, e2, e3, e4, e5, e6, e7, e8, e9, e10⟩ := h
  cases k <;>
    simp [SameStruct, eraseChild, e1, e2, e3, e4, e5, e6, e7, e8, e9, e10]

theorem appendChild_congr {po po' : MsObj} (h : SameStruct po po') (k : Kind)
    (c : Ref) (nm : String) :
    SameStruct (appendChild po k c nm) (appendChild po' k c nm) := by
  obtain ⟨e1, e2, e3, e4, e5, e6, e7, e8, e9, e10⟩ := h
  cases k <;>
    simp [SameStruct, appendChild, e1, e2, e3, e4, e5, e6, e7, e8, e9, e10]

theorem structEq_setObj_size (s : St) (r : Ref) (sz : Int) (l : PyDatetime) :
    StructEq s (setObj s r { s.heap r with size := sz, lmdt := l }) := by
  refine ⟨rfl, rfl, fun x => ?_⟩
  by_cases hx : x = r
  · subst hx
    simp [setObj, SameStruct]
  · simp [setObj, hx, sameStruct_refl]

theorem structEq_setObj_cc (s : St) (r : Ref) (v : Option Int) :
    StructEq s (setObj s r { s.heap r with child_count := v }) := by
  refine ⟨rfl, rfl, fun x => ?_⟩
  by_cases hx : x = r
  · subst hx
    simp [setObj, SameStruct]
  · simp [setObj, hx, sameStruct_refl]

theorem structEq_modify_pp (s : St) (r : Ref) (pp : Option String) :
    StructEq s (modifyObj s r (fun o => { o with parent_path := pp })) := by
  refine ⟨rfl, rfl, fun x => ?_⟩
  by_cases hx : x = r
  · subst hx
    simp [modifyObj, setObj, SameStruct]
  · simp [modifyObj, setObj, hx, sameStruct_refl]

theorem propagate_structEq (sign : Int) (cR : Ref) (l : PyDatetime) :
    ∀ (fuel : Nat) (s s' : St) (cur : Option Ref),
      propagateSize sign cR l fuel s cur = some s' → StructEq s s' := by
  intro fuel
  induction fuel with
  | zero =>
      intro s s' cur h
      cases cur with
      | none =>
          simp only [propagateSize, Option.some.injEq] at h
          subst h
          exact structEq_refl s
      | some r => simp [propagateSize] at h
  | succ n ih =>
      intro s s' cur h
      cases cur with
      | none =>
          simp only [propagateSize, Option.some.injEq] at h
          subst h
          exact structEq_refl s
      | some r =>
          simp only [propagateSize] at h
          exact structEq_trans (structEq_setObj_size s r _ l) (ih _ _ _ h)

theorem propagate_self_loop (sign : Int) (cR : Ref) (l : PyDatetime) :
    ∀ (fuel : Nat) (s : St) (r : Ref), (s.heap r).parent = some r →
      propagateSize sign cR l fuel s (some r) = none := by
  intro fuel
  induction fuel with
  | zero => intro s r h; rfl
  | succ n ih =>
      intro s r h
      simp only [propagateSize]
      rw [h]
      apply ih
      simp [setObj, h]

theorem liftD_lookup_none {d : List (String × Ref)} {n : String}
    (h : (liftD d).lookup n = none) : d.lookup n = none := by
  rw [liftD_lookup] at h
  cases hx : d.lookup n with
  | none => rfl
  | some w => rw [hx] at h; simp at h

theorem liftD_lookup_isSome (d : List (String × Ref)) (n : String) :
    ((liftD d).lookup n).isSome = (d.lookup n).isSome := by
  rw [liftD_lookup]
  cases d.lookup n <;> rfl

theorem dictPop_some {α : Type} {d d' : List (String × α)} {k : String}
    (h : dictPop d k = some d') : d' = d.filter (fun e => e.1 ≠ k) := by
  rw [dictPop] at h
  by_cases hk : (d.lookup k).isSome
  · rw [if_pos hk] at h
    exact (Option.some_inj.mp h).symm
  · rw [if_neg hk] at h
    exact Option.noConfusion h

theorem removeInfoForChild_run {s s' : St} {p c : Ref}
    (h : removeInfoForChild s p c = some s') :
    s' = setObj s p (eraseChild (s.heap p) (s.heap c).kind c ((s.heap c).name)) := by
  cases hk : (s.heap c).kind with
  | folder =>
      simp only [removeInfoForChild, hk] at h
      by_cases hc1 : (s.heap p).children_folder.contains c = true
      · rw [if_pos hc1] at h
        by_cases hlk : ((s.heap p).dict_children_folder.lookup ((s.heap c).name)).isSome
        · rw [dictPop, if_pos hlk] at h
          simp only [Option.some.injEq] at h
          rw [← h]
          rfl
        · rw [dictPop, if_neg hlk] at h
          exact Option.noConfusion h
      · rw [if_neg hc1] at h
        exact Option.noConfusion h
  | file =>
      simp only [removeInfoForChild, hk] at h
      by_cases hc1 : (s.heap p).children_file.contains c = true
      · rw [if_pos hc1] at h
        by_cases hlk : ((s.heap p).dict_children_file.lookup ((s.heap c).name)).isSome
        · rw [dictPop, if_pos hlk] at h
          simp only [Option.some.injEq] at h
          rw [← h]
          rfl
        · rw [dictPop, if_neg hlk] at h
          exact Option.noConfusion h
      · rw [if_neg hc1] at h
        exact Option.noConfusion h
  | other =>
      simp only [removeInfoForChild, hk] at h
      by_cases hc1 : (s.heap p).children_other.contains c = true
      · rw [if_pos hc1] at h
        by_cases hlk : ((s.heap p).dict_children_other.lookup ((s.heap c).name)).isSome
        · rw [dictPop, if_pos hlk] at h
          simp only [Option.some.injEq] at h
          rw [← h]
          rfl
        · rw [dictPop, if_neg hlk] at h
          exact Option.noConfusion h
      · rw [if_neg hc1] at h
        exact Option.noConfusion h

theorem addObjectInfo_append (s : St) (p c : Ref)
    (hf : (dictKind (s.heap p) ((s.heap c).kind)).lookup ((s.heap c).name) = none) :
    addObjectInfo s p c
      = setObj s p (appendChild (s.heap p) ((s.heap c).kind) c ((s.heap c).name)) := by
  cases hk : (s.heap c).kind with
  | folder =>
      rw [hk] at hf
      simp only [dictKind] at hf
      simp only [addObjectInfo, hk, addFolderInfoIfNecessary, dictHasKey]
      rw [if_neg (by rw [hf]; simp)]
      rfl
  | file =>
      rw [hk] at hf
      simp only [dictKind] at hf
      have hf0 : (s.heap p).dict_children_file.lookup ((s.heap c).name) = none :=
        liftD_lookup_none hf
      simp only [addObjectInfo, hk, addFileInfoIfNecessary, dictHasKey]
      rw [if_neg (by rw [hf0]; simp)]
      rfl
  | other =>
      rw [hk] at hf
      simp only [dictKind] at hf
      have hf0 : (s.heap p).dict_children_other.lookup ((s.heap c).name) = none :=
        liftD_lookup_none hf
      simp only [addObjectInfo, hk, addOtherInfoIfNecessary, dictHasKey]
      rw [if_neg (by rw [hf0]; simp)]
      rfl

theorem addObjectInfo_skip (s : St) (p c : Ref)
    (hf : ((dictKind (s.heap p) ((s.heap c).kind)).lookup ((s.heap c).name)).isSome) :
    addObjectInfo s p c = s := by
  cases hk : (s.heap c).kind with
  | folder =>
      rw [hk] at hf
      simp only [dictKind] at hf
      simp only [addObjectInfo, hk, addFolderInfoIfNecessary, dictHasKey]
      rw [if_pos hf]
  | file =>
      rw [hk] at hf
      simp only [dictKind] at hf
      rw [liftD_lookup_isSome] at hf
      simp only [addObjectInfo, hk, addFileInfoIfNecessary, dictHasKey]
      rw [if_pos hf]
  | other =>
      rw [hk] at hf
      simp only [dictKind] at hf
      rw [liftD_lookup_isSome] at hf
      simp only [addObjectInfo, hk, addOtherInfoIfNecessary, dictHasKey]
      rw [if_pos hf]

theorem beforeRemoval_run {fuel : Nat} {now : Int} {s s' : St} {c : Ref}
    {l : PyDatetime}
    (h : updateParentBeforeRemoval fuel now s c l = some s') :
    ((s.heap c).parent = none ∧ s' = s) ∨
    (∃ p sm, (s.heap c).parent = some p ∧ p ≠ c ∧ StructEq s sm ∧
       removeInfoForChild sm p c = some s') := by
  simp only [updateParentBeforeRemoval] at h
  cases hp : (s.heap c).parent with
  | none =>
      simp only [hp] at h
      exact Or.inl ⟨rfl, (Option.some_inj.mp h).symm⟩
  | some p =>
      simp only [hp] at h
      cases hcc : (s.heap p).child_count with
      | none =>
          simp only [hcc] at h
          exact Option.noConfusion h
      | some cc =>
          simp only [hcc] at h
          cases hw : propagateSize (-1) c
              (if l = PyDatetime.pyNone then PyDatetime.dt now else l) fuel
              (setObj s p { s.heap p with child_count := some (cc - 1) })
              (some p) with
          | none =>
              rw [hw] at h
              exact Option.noConfusion h
          | some s2 =>
              rw [hw] at h
              have hpc : p ≠ c := by
                intro he
                rw [he] at hp
                have hself : ((setObj s p
                    { s.heap p with child_count := some (cc - 1) }).heap p).parent
                    = some p := by
                  simp [setObj]
                  rw [he]
                  exact hp
                rw [propagate_self_loop _ _ _ _ _ _ hself] at hw
                exact Option.noConfusion hw
              exact Or.inr ⟨p, s2, rfl, hpc,
                structEq_trans (structEq_setObj_cc s p (some (cc - 1)))
                  (propagate_structEq _ _ _ _ _ _ _ hw), h⟩

theorem afterArrival_run {fuel : Nat} {now : Int} {s s' : St} {c np : Ref}
    {l : PyDatetime}
    (h : updateParentAfterArrival fuel now s c (some np) l = some s') :
    (s.heap np).kind = Kind.folder ∧ (s.heap np).parent ≠ some np ∧
    ∃ sm, StructEq s sm ∧ s' = addObjectInfo sm np c := by
  simp only [updateParentAfterArrival] at h
  by_cases hk : (s.heap np).kind = Kind.folder
  · rw [if_pos hk] at h
    cases hcc : (s.heap np).child_count with
    | none =>
        simp only [hcc] at h
        exact Option.noConfusion h
    | some cc =>
        simp only [hcc] at h
        cases hw : propagateSize 1 c
            (if l = PyDatetime.pyNone then PyDatetime.dt now else l) fuel
            (setObj s np { s.heap np with child_count := some (cc + 1) })
            (some np) with
        | none =>
            rw [hw] at h
            exact Option.noConfusion h
        | some s2 =>
            rw [hw] at h
            have hnpp : (s.heap np).parent ≠ some np := by
              intro he
              have hself : ((setObj s np
                  { s.heap np with child_count := some (cc + 1) }).heap np).parent
                  = some np := by
                simp [setObj]
                exact he
              rw [propagate_self_loop _ _ _ _ _ _ hself] at hw
              exact Option.noConfusion hw
            exact ⟨hk, hnpp, s2,
              structEq_trans (structEq_setObj_cc s np (some (cc + 1)))
                (propagate_structEq _ _ _ _ _ _ _ hw),
              (Option.some_inj.mp h).symm⟩
  · rw [if_neg hk] at h
    exact Option.noConfusion h

theorem objUpdateParent_run {fuel : Nat} {s s' : St} {c np : Ref}
    (h : objUpdateParent fuel s c np = some s') :
    s'.registry = s.registry ∧ s'.nextRef = s.nextRef ∧
    (∀ x, x ≠ c → s'.heap x = s.heap x) ∧
    (s'.heap c).ms_id = (s.heap c).ms_id ∧
    (s'.heap c).kind = (s.heap c).kind ∧
    (s'.heap c).name = (s.heap c).name ∧
    (s'.heap c).parent = some np ∧
    (s'.heap c).children_file = (s.heap c).children_file ∧
    (s'.heap c).children_folder = (s.heap c).children_folder ∧
    (s'.heap c).children_other = (s.heap c).children_other ∧
    (s'.heap c).dict_children_file = (s.heap c).dict_children_file ∧
    (s'.heap c).dict_children_other = (s.heap c).dict_children_other ∧
    ((s'.heap c).dict_children_folder = (s.heap c).dict_children_folder ∨
     (s'.heap c).dict_children_folder
       = dictSet ((s.heap c).dict_children_folder) ".." (some np)) := by
  simp only [objUpdateParent] at h
  cases hpp : pathOf (modifyObj s c (fun o => { o with parent := some np })) fuel np with
  | none =>
      rw [hpp] at h
      exact Option.noConfusion h
  | some pp =>
      simp only [hpp] at h
      split at h
      · have hs := (Option.some_inj.mp h).symm
        subst hs
        refine ⟨by simp [modifyObj, setObj], by simp [modifyObj, setObj],
          fun x hx => by simp [modifyObj, setObj, hx], ?_, ?_, ?_, ?_, ?_, ?_, ?_,
          ?_, ?_, Or.inr ?_⟩ <;>
          simp [modifyObj, setObj]
      · have hs := (Option.some_inj.mp h).symm
        subst hs
        refine ⟨by simp [modifyObj, setObj], by simp [modifyObj, setObj],
          fun x hx => by simp [modifyObj, setObj, hx], ?_, ?_, ?_, ?_, ?_, ?_, ?_,
          ?_, ?_, Or.inl ?_⟩ <;>
          simp [modifyObj, setObj]

theorem regRefs_mem_domF {s : St} {r : Ref} (h : r ∈ regRefs s) : r ∈ domF s :=
  List.mem_append_left _ h

theorem parent_mem_domF {s : St} {c p : Ref} (hc : c ∈ regRefs s)
    (hp : (s.heap c).parent = some p) : p ∈ domF s :=
  List.mem_append_right _ (List.mem_filterMap.mpr ⟨c, hc, hp⟩)

/-- Preservation of the consistency invariant by a detach/reattach edit:
child `c` leaves the collections of its old parent `p` and enters those of
the target folder `q` under the (collision-free) name `n'`, while every
other object keeps its tree structure.  This is the common shape of the
cache updates done by `move_object` and `rename`. -/
theorem Inv_reattach (s f : St) (c p q : Ref) (n' : String)
    (hInv : Inv s)
    (hc : c ∈ regRefs s)
    (hq : q ∈ domF s)
    (hpar : (s.heap c).parent = some p)
    (hdot1 : n' ≠ ".") (hdot2 : n' ≠ "..")
    (hfresh : (dictKind (s.heap q) ((s.heap c).kind)).lookup n' = none ∨
              (q = p ∧ n' = (s.heap c).name))
    (hreg : f.registry = s.registry)
    (hnxt : f.nextRef = s.nextRef)
    (hother : ∀ x, x ≠ p → x ≠ q → x ≠ c → SameStruct (s.heap x) (f.heap x))
    (hcMs : (f.heap c).ms_id = (s.heap c).ms_id)
    (hcKind : (f.heap c).kind = (s.heap c).kind)
    (hcName : (f.heap c).name = n')
    (hcPar : (f.heap c).parent = some q)
    (hcLists : ∀ k, chList (f.heap c) k = chList (s.heap c) k)
    (hcDictF : (f.heap c).dict_children_file = (s.heap c).dict_children_file)
    (hcDictO : (f.heap c).dict_children_other = (s.heap c).dict_children_other)
    (hcDictFo : (f.heap c).dict_children_folder = (s.heap c).dict_children_folder ∨
       (f.heap c).dict_children_folder
         = dictSet ((s.heap c).dict_children_folder) ".." (some q))
    (hPQ : (q = p ∧
         SameStruct (appendChild (eraseChild (s.heap p) ((s.heap c).kind) c
           ((s.heap c).name)) ((s.heap c).kind) c n') (f.heap p)) ∨
        (q ≠ p ∧
         SameStruct (eraseChild (s.heap p) ((s.heap c).kind) c ((s.heap c).name))
           (f.heap p) ∧
         SameStruct (appendChild (s.heap q) ((s.heap c).kind) c n') (f.heap q))) :
    Inv f := by
  have hpd : p ∈ domF s := parent_mem_domF hc hpar
  have hcmem : c ∈ chList (s.heap p) ((s.heap c).kind) := hInv.fwd c hc p hpar
  have hrr : regRefs f = regRefs s := by
    simp [regRefs, hreg]
  have hfrP : q = p → ((dictKind (s.heap p) ((s.heap c).kind)).filter
      (fun e => e.1 ≠ (s.heap c).name)).lookup n' = none := by
    intro hqp
    rcases hfresh with hf | ⟨_, hf⟩
    · by_cases hnn : n' = (s.heap c).name
      · rw [hnn]
        exact lookup_filter_self _ _
      · rw [lookup_filter_other _ _ _ hnn]
        rw [hqp] at hf
        exact hf
    · rw [hf]
      exact lookup_filter_self _ _
  have hflQ : q ≠ p → (dictKind (s.heap q) ((s.heap c).kind)).lookup n' = none := by
    intro hqp
    rcases hfresh with hf | ⟨hf, _⟩
    · exact hf
    · exact absurd hf hqp
  have parent_eq : ∀ x, x ≠ c → (f.heap x).parent = (s.heap x).parent := by
    intro x hx
    by_cases hxp : x = p
    · rw [hxp]
      rcases hPQ with ⟨hqp, hS⟩ | ⟨hqp, hSp, hSq⟩
      · rw [hS.2.2.2.1, (appendChild_fields _ _ _ _).2.2.2,
          (eraseChild_fields _ _ _ _).2.2.2]
      · rw [hSp.2.2.2.1, (eraseChild_fields _ _ _ _).2.2.2]
    · by_cases hxq : x = q
      · rw [hxq]
        rcases hPQ with ⟨hqp, hS⟩ | ⟨hqp, hSp, hSq⟩
        · exact absurd (hxq.trans hqp) hxp
        · rw [hSq.2.2.2.1, (appendChild_fields _ _ _ _).2.2.2]
      · exact (hother x hxp hxq hx).2.2.2.1
  have kind_eq : ∀ x, (f.heap x).kind = (s.heap x).kind := by
    intro x
    by_cases hx : x = c
    · rw [hx]
      exact hcKind
    · by_cases hxp : x = p
      · rw [hxp]
        rcases hPQ with ⟨hqp, hS⟩ | ⟨hqp, hSp, hSq⟩
        · rw [hS.2.1, (appendChild_fields _ _ _ _).2.1,
            (eraseChild_fields _ _ _ _).2.1]
        · rw [hSp.2.1, (eraseChild_fields _ _ _ _).2.1]
      · by_cases hxq : x = q
        · rw [hxq]
          rcases hPQ with ⟨hqp, hS⟩ | ⟨hqp, hSp, hSq⟩
          · exact absurd (hxq.trans hqp) hxp
          · rw [hSq.2.1, (appendChild_fields _ _ _ _).2.1]
        · exact (hother x hxp hxq hx).2.1
  have name_eq : ∀ x, x ≠ c → (f.heap x).name = (s.heap x).name := by
    intro x hx
    by_cases hxp : x = p
    · rw [hxp]
      rcases hPQ with ⟨hqp, hS⟩ | ⟨hqp, hSp, hSq⟩
      · rw [hS.2.2.1, (appendChild_fields _ _ _ _).2.2.1,
          (eraseChild_fields _ _ _ _).2.2.1]
      · rw [hSp.2.2.1, (eraseChild_fields _ _ _ _).2.2.1]
    · by_cases hxq : x = q
      · rw [hxq]
        rcases hPQ with ⟨hqp, hS⟩ | ⟨hqp, hSp, hSq⟩
        · exact absurd (hxq.trans hqp) hxp
        · rw [hSq.2.2.1, (appendChild_fields _ _ _ _).2.2.1]
      · exact (hother x hxp hxq hx).2.2.1
  have msid_eq : ∀ x, (f.heap x).ms_id = (s.heap x).ms_id := by
    intro x
    by_cases hx : x = c
    · rw [hx]
      exact hcMs
    · by_cases hxp : x = p
      · rw [hxp]
        rcases hPQ with ⟨hqp, hS⟩ | ⟨hqp, hSp, hSq⟩
        · rw [hS.1, (appendChild_fields _ _ _ _).1, (eraseChild_fields _ _ _ _).1]
        · rw [hSp.1, (eraseChild_fields _ _ _ _).1]
      · by_cases hxq : x = q
        · rw [hxq]
          rcases hPQ with ⟨hqp, hS⟩ | ⟨hqp, hSp, hSq⟩
          · exact absurd (hxq.trans hqp) hxp
          · rw [hSq.1, (appendChild_fields _ _ _ _).1]
        · exact (hother x hxp hxq hx).1
  have chAll : ∀ x, x ≠ p → x ≠ q → ∀ k, chList (f.heap x) k = chList (s.heap x) k := by
    intro x hxp hxq k
    by_cases hxc : x = c
    · rw [hxc]
      exact hcLists k
    · exact chList_congr (hother x hxp hxq hxc) k
  have dictAll : ∀ x, x ≠ p → x ≠ q → x ≠ c → ∀ k,
      dictKind (f.heap x) k = dictKind (s.heap x) k := by
    intro x hxp hxq hxc k
    exact dictKind_congr (hother x hxp hxq hxc) k
  have hdom : ∀ x, x ∈ domF f → x ∈ domF s := by
    intro x hx
    rcases List.mem_append.mp hx with hx | hx
    · rw [hrr] at hx
      exact regRefs_mem_domF hx
    · rcases List.mem_filterMap.mp hx with ⟨r, hr, hrp⟩
      rw [hrr] at hr
      by_cases hrc : r = c
      · rw [hrc, hcPar] at hrp
        rw [← Option.some_inj.mp hrp]
        exact hq
      · rw [parent_eq r hrc] at hrp
        exact parent_mem_domF hr hrp
  have memF : ∀ x, x ∈ domF s → ∀ k, ∀ c0, c0 ∈ chList (f.heap x) k →
      (c0 = c ∧ x = q ∧ k = (s.heap c).kind) ∨
      (c0 ≠ c ∧ c0 ∈ chList (s.heap x) k) := by
    intro x hx k c0 hm
    by_cases hxp : x = p
    · rw [hxp] at hm ⊢
      rcases hPQ with ⟨hqp, hS⟩ | ⟨hqp, hSp, hSq⟩
      · rw [chList_congr hS k, chList_appendChild, chList_eraseChild] at hm
        by_cases hkk : k = (s.heap c).kind
        · rw [if_pos hkk, if_pos hkk] at hm
          rcases List.mem_append.mp hm with hm | hm
          · have hm2 := (List.Nodup.mem_erase_iff (hInv.nodupL p hpd k)).mp hm
            exact Or.inr ⟨hm2.1, hm2.2⟩
          · exact Or.inl ⟨List.mem_singleton.mp hm, hqp.symm, hkk⟩
        · rw [if_neg hkk, if_neg hkk] at hm
          refine Or.inr ⟨?_, hm⟩
          intro he
          rw [he] at hm
          exact hkk ((hInv.back p hpd k c hm).2.symm)
      · rw [chList_congr hSp k, chList_eraseChild] at hm
        by_cases hkk : k = (s.heap c).kind
        · rw [if_pos hkk] at hm
          have hm2 := (List.Nodup.mem_erase_iff (hInv.nodupL p hpd k)).mp hm
          exact Or.inr ⟨hm2.1, hm2.2⟩
        · rw [if_neg hkk] at hm
          refine Or.inr ⟨?_, hm⟩
          intro he
          rw [he] at hm
          exact hkk ((hInv.back p hpd k c hm).2.symm)
    · by_cases hxq : x = q
      · rw [hxq] at hm ⊢
        rcases hPQ with ⟨hqp, hS⟩ | ⟨hqp, hSp, hSq⟩
        · exact absurd (hxq.trans hqp) hxp
        · rw [chList_congr hSq k, chList_appendChild] at hm
          by_cases hkk : k = (s.heap c).kind
          · rw [if_pos hkk] at hm
            rcases List.mem_append.mp hm with hm | hm
            · refine Or.inr ⟨?_, hm⟩
              intro he
              rw [he] at hm
              have hb := (hInv.back q hq k c hm).1
              rw [hpar] at hb
              exact hqp (Option.some_inj.mp hb).symm
            · exact Or.inl ⟨List.mem_singleton.mp hm, rfl, hkk⟩
          · rw [if_neg hkk] at hm
            refine Or.inr ⟨?_, hm⟩
            intro he
            rw [he] at hm
            exact hkk ((hInv.back q hq k c hm).2.symm)
      · rw [chAll x hxp hxq k] at hm
        refine Or.inr ⟨?_, hm⟩
        intro he
        rw [he] at hm
        have hb := (hInv.back x hx k c hm).1
        rw [hpar] at hb
        exact hxp (Option.some_inj.mp hb).symm
  have hcinsert : c ∈ chList (f.heap q) ((s.heap c).kind) := by
    rcases hPQ with ⟨hqp, hS⟩ | ⟨hqp, hSp, hSq⟩
    · rw [hqp, chList_congr hS, chList_appendChild, if_pos rfl]
      exact List.mem_append_right _ (List.mem_singleton.mpr rfl)
    · rw [chList_congr hSq, chList_appendChild, if_pos rfl]
      exact List.mem_append_right _ (List.mem_singleton.mpr rfl)
  have hnm_ne : ∀ c0, c0 ∈ chList (s.heap p) ((s.heap c).kind) → c0 ≠ c →
      (s.heap c0).name ≠ (s.heap c).name := by
    intro c0 hm hne heq
    have h1 := hInv.dictCoh p hpd _ c0 hm
    have h2 := hInv.dictCoh p hpd _ c hcmem
    rw [heq] at h1
    rw [h1] at h2
    exact hne (Option.some_inj.mp (Option.some_inj.mp h2))
  constructor
  -- fwd
  · intro c0 hc0 p0 hp0
    rw [hrr] at hc0
    by_cases hc0c : c0 = c
    · rw [hc0c] at hp0 ⊢
      rw [hcPar] at hp0
      rw [← Option.some_inj.mp hp0]
      rw [kind_eq]
      exact hcinsert
    · rw [parent_eq c0 hc0c] at hp0
      have hm := hInv.fwd c0 hc0 p0 hp0
      rw [kind_eq c0]
      by_cases hxp : p0 = p
      · rw [hxp] at hm ⊢
        rcases hPQ with ⟨hqp, hS⟩ | ⟨hqp, hSp, hSq⟩
        · rw [chList_congr hS, chList_appendChild, chList_eraseChild]
          by_cases hkk : (s.heap c0).kind = (s.heap c).kind
          · rw [if_pos hkk, if_pos hkk]
            exact List.mem_append_left _ ((List.mem_erase_of_ne hc0c).mpr hm)
          · rw [if_neg hkk, if_neg hkk]
            exact hm
        · rw [chList_congr hSp, chList_eraseChild]
          by_cases hkk : (s.heap c0).kind = (s.heap c).kind
          · rw [if_pos hkk]
            exact (List.mem_erase_of_ne hc0c).mpr hm
          · rw [if_neg hkk]
            exact hm
      · by_cases hxq : p0 = q
        · rw [hxq] at hm ⊢
          rcases hPQ with ⟨hqp, hS⟩ | ⟨hqp, hSp, hSq⟩
          · exact absurd (hxq.trans hqp) hxp
          · rw [chList_congr hSq, chList_appendChild]
            by_cases hkk : (s.heap c0).kind = (s.heap c).kind
            · rw [if_pos hkk]
              exact List.mem_append_left _ hm
            · rw [if_neg hkk]
              exact hm
        · rw [chAll p0 hxp hxq]
          exact hm
  -- back
  · intro q0 hq0 k c0 hm
    have hq0s := hdom q0 hq0
    rcases memF q0 hq0s k c0 hm with ⟨h1, h2, h3⟩ | ⟨h1, h2⟩
    · rw [h1, h2, h3]
      exact ⟨hcPar, hcKind⟩
    · have hb := hInv.back q0 hq0s k c0 h2
      rw [← parent_eq c0 h1, ← kind_eq c0] at hb
      exact hb
  -- nodupL
  · intro q0 hq0 k
    have hq0s := hdom q0 hq0
    by_cases hxp : q0 = p
    · rw [hxp]
      rcases hPQ with ⟨hqp, hS⟩ | ⟨hqp, hSp, hSq⟩
      · rw [chList_congr hS, chList_appendChild, chList_eraseChild]
        by_cases hkk : k = (s.heap c).kind
        · rw [if_pos hkk, if_pos hkk]
          simp only [List.nodup_append]
          refine ⟨List.Nodup.erase c (hInv.nodupL p hpd k), List.nodup_singleton c, ?_⟩
          intro a ha hb
          rw [List.mem_singleton.mp hb] at ha
          exact ((List.Nodup.mem_erase_iff (hInv.nodupL p hpd k)).mp ha).1 rfl
        · rw [if_neg hkk, if_neg hkk]
          exact hInv.nodupL p hpd k
      · rw [chList_congr hSp, chList_eraseChild]
        by_cases hkk : k = (s.heap c).kind
        · rw [if_pos hkk]
          exact List.Nodup.erase c (hInv.nodupL p hpd k)
        · rw [if_neg hkk]
          exact hInv.nodupL p hpd k
    · by_cases hxq : q0 = q
      · rw [hxq]
        rcases hPQ with ⟨hqp, hS⟩ | ⟨hqp, hSp, hSq⟩
        · exact absurd (hxq.trans hqp) hxp
        · rw [chList_congr hSq, chList_appendChild]
          by_cases hkk : k = (s.heap c).kind
          · rw [if_pos hkk]
            simp only [List.nodup_append]
            refine ⟨hInv.nodupL q hq k, List.nodup_singleton c, ?_⟩
            intro a ha hb
            rw [List.mem_singleton.mp hb] at ha
            have hbk := (hInv.back q hq k c ha).1
            rw [hpar] at hbk
            exact hqp (Option.some_inj.mp hbk).symm
          · rw [if_neg hkk]
            exact hInv.nodupL q hq k
      · rw [chAll q0 hxp hxq]
        exact hInv.nodupL q0 hq0s k
  -- nameOk
  · intro q0 hq0 k c0 hm
    have hq0s := hdom q0 hq0
    rcases memF q0 hq0s k c0 hm with ⟨h1, h2, h3⟩ | ⟨h1, h2⟩
    · rw [h1, hcName]
      exact ⟨hdot1, hdot2⟩
    · rw [name_eq c0 h1]
      exact hInv.nameOk q0 hq0s k c0 h2
  -- dictCoh
  · intro q0 hq0 k c0 hm
    have hq0s := hdom q0 hq0
    by_cases hxp : q0 = p
    · rw [hxp] at hm ⊢
      rcases hPQ with ⟨hqp, hS⟩ | ⟨hqp, hSp, hSq⟩
      · have hdP := dictKind_congr hS k
        rw [dictKind_appendChild _ _ _ _
          (by rw [dictKind_eraseChild, if_pos rfl]; exact hfrP hqp) k] at hdP
        rw [chList_congr hS, chList_appendChild, chList_eraseChild] at hm
        by_cases hkk : k = (s.heap c).kind
        · rw [if_pos hkk] at hdP
          rw [if_pos hkk, if_pos hkk] at hm
          rw [hdP, dictKind_eraseChild, if_pos hkk]
          rcases List.mem_append.mp hm with hm | hm
          · have hm2 := (List.Nodup.mem_erase_iff (hInv.nodupL p hpd k)).mp hm
            have hm3 : c0 ∈ chList (s.heap p) ((s.heap c).kind) := by
              rw [← hkk]
              exact hm2.2
            have hnn := hnm_ne c0 hm3 hm2.1
            rw [name_eq c0 hm2.1]
            apply lookup_append_some
            rw [lookup_filter_other _ _ _ hnn]
            exact hInv.dictCoh p hpd k c0 hm2.2
          · rw [List.mem_singleton.mp hm, hcName]
            apply lookup_append_self
            rw [hkk]
            exact hfrP hqp
        · rw [if_neg hkk] at hdP
          rw [if_neg hkk, if_neg hkk] at hm
          have h1 : c0 ≠ c := by
            intro he
            rw [he] at hm
            exact hkk ((hInv.back p hpd k c hm).2.symm)
          rw [hdP, dictKind_eraseChild, if_neg hkk, name_eq c0 h1]
          exact hInv.dictCoh p hpd k c0 hm
      · have hdP := dictKind_congr hSp k
        rw [dictKind_eraseChild] at hdP
        rw [chList_congr hSp, chList_eraseChild] at hm
        by_cases hkk : k = (s.heap c).kind
        · rw [if_pos hkk] at hdP hm
          have hm2 := (List.Nodup.mem_erase_iff (hInv.nodupL p hpd k)).mp hm
          have hm3 : c0 ∈ chList (s.heap p) ((s.heap c).kind) := by
            rw [← hkk]
            exact hm2.2
          have hnn := hnm_ne c0 hm3 hm2.1
          rw [hdP, name_eq c0 hm2.1, lookup_filter_other _ _ _ hnn]
          exact hInv.dictCoh p hpd k c0 hm2.2
        · rw [if_neg hkk] at hdP hm
          have h1 : c0 ≠ c := by
            intro he
            rw [he] at hm
            exact hkk ((hInv.back p hpd k c hm).2.symm)
          rw [hdP, name_eq c0 h1]
          exact hInv.dictCoh p hpd k c0 hm
    · by_cases hxq : q0 = q
      · rw [hxq] at hm ⊢
        rcases hPQ with ⟨hqp, hS⟩ | ⟨hqp, hSp, hSq⟩
        · exact absurd (hxq.trans hqp) hxp
        · have hdQ := dictKind_congr hSq k
          rw [dictKind_appendChild _ _ _ _ (hflQ hqp) k] at hdQ
          rw [chList_congr hSq, chList_appendChild] at hm
          by_cases hkk : k = (s.heap c).kind
          · rw [if_pos hkk] at hdQ hm
            rw [hdQ]
            rcases List.mem_append.mp hm with hm | hm
            · have h1 : c0 ≠ c := by
                intro he
                rw [he] at hm
                have hb := (hInv.back q hq k c hm).1
                rw [hpar] at hb
                exact hqp (Option.some_inj.mp hb).symm
              rw [name_eq c0 h1]
              exact lookup_append_some _ (hInv.dictCoh q hq k c0 hm)
            · rw [List.mem_singleton.mp hm, hcName]
              apply lookup_append_self
              rw [hkk]
              exact hflQ hqp
          · rw [if_neg hkk] at hdQ hm
            have h1 : c0 ≠ c := by
              intro he
              rw [he] at hm
              exact hkk ((hInv.back q hq k c hm).2.symm)
            rw [hdQ, name_eq c0 h1]
            exact hInv.dictCoh q hq k c0 hm
      · rcases memF q0 hq0s k c0 hm with ⟨h1, h2, h3⟩ | ⟨h1, h2⟩
        · exact absurd h2 hxq
        · rw [name_eq c0 h1]
          by_cases hxc : q0 = c
          · rw [hxc] at h2 ⊢
            have hq0c : c ∈ domF s := regRefs_mem_domF hc
            have hcoh := hInv.dictCoh c hq0c k c0 h2
            have hndd : (s.heap c0).name ≠ ".." := (hInv.nameOk c hq0c k c0 h2).2
            cases k with
            | folder =>
                rcases hcDictFo with hd | hd
                · rw [show dictKind (f.heap c) Kind.folder
                      = (f.heap c).dict_children_folder from rfl, hd]
                  exact hcoh
                · rw [show dictKind (f.heap c) Kind.folder
                      = (f.heap c).dict_children_folder from rfl, hd,
                    lookup_dictSet_ne _ _ _ _ hndd]
                  exact hcoh
            | file =>
                rw [show dictKind (f.heap c) Kind.file
                    = liftD (f.heap c).dict_children_file from rfl, hcDictF]
                exact hcoh
            | other =>
                rw [show dictKind (f.heap c) Kind.other
                    = liftD (f.heap c).dict_children_other from rfl, hcDictO]
                exact hcoh
          · rw [dictAll q0 hxp hxq hxc k]
            exact hInv.dictCoh q0 hq0s k c0 h2
  -- keyNodup
  · intro q0 hq0 k
    have hq0s := hdom q0 hq0
    by_cases hxp : q0 = p
    · rw [hxp]
      rcases hPQ with ⟨hqp, hS⟩ | ⟨hqp, hSp, hSq⟩
      · have hdP := dictKind_congr hS k
        rw [dictKind_appendChild _ _ _ _
          (by rw [dictKind_eraseChild, if_pos rfl]; exact hfrP hqp) k] at hdP
        rw [hdP]
        by_cases hkk : k = (s.heap c).kind
        · rw [if_pos hkk, dictKind_eraseChild, if_pos hkk]
          rw [List.map_append]
          simp only [List.nodup_append]
          refine ⟨?_, by simp, ?_⟩
          · exact List.Nodup.sublist
              (List.Sublist.map _ (List.filter_sublist _))
              (hInv.keyNodup p hpd k)
          · intro a ha hb
            simp only [List.map_cons, List.map_nil, List.mem_singleton] at hb
            rw [hb] at ha
            rw [hkk] at ha
            exact lookup_none_not_mem (hfrP hqp) ha
        · rw [if_neg hkk, dictKind_eraseChild, if_neg hkk]
          exact hInv.keyNodup p hpd k
      · have hdP := dictKind_congr hSp k
        rw [dictKind_eraseChild] at hdP
        rw [hdP]
        by_cases hkk : k = (s.heap c).kind
        · rw [if_pos hkk]
          exact List.Nodup.sublist
            (List.Sublist.map _ (List.filter_sublist _))
            (hInv.keyNodup p hpd k)
        · rw [if_neg hkk]
          exact hInv.keyNodup p hpd k
    · by_cases hxq : q0 = q
      · rw [hxq]
        rcases hPQ with ⟨hqp, hS⟩ | ⟨hqp, hSp, hSq⟩
        · exact absurd (hxq.trans hqp) hxp
        · have hdQ := dictKind_congr hSq k
          rw [dictKind_appendChild _ _ _ _ (hflQ hqp) k] at hdQ
          rw [hdQ]
          by_cases hkk : k = (s.heap c).kind
          · rw [if_pos hkk, List.map_append]
            simp only [List.nodup_append]
            refine ⟨hInv.keyNodup q hq k, by simp, ?_⟩
            intro a ha hb
            simp only [List.map_cons, List.map_nil, List.mem_singleton] at hb
            rw [hb] at ha
            exact lookup_none_not_mem (hflQ hqp) (by rw [← hkk]; exact ha)
          · rw [if_neg hkk]
            exact hInv.keyNodup q hq k
      · by_cases hxc : q0 = c
        · rw [hxc]
          have hq0c : c ∈ domF s := regRefs_mem_domF hc
          cases k with
          | folder =>
              rcases hcDictFo with hd | hd
              · rw [show dictKind (f.heap c) Kind.folder
                    = (f.heap c).dict_children_folder from rfl, hd]
                exact hInv.keyNodup c hq0c Kind.folder
              · rw [show dictKind (f.heap c) Kind.folder
                    = (f.heap c).dict_children_folder from rfl, hd]
                exact keys_dictSet_nodup _ _ _ (hInv.keyNodup c hq0c Kind.folder)
          | file =>
              rw [show dictKind (f.heap c) Kind.file
                  = liftD (f.heap c).dict_children_file from rfl, hcDictF]
              exact hInv.keyNodup c hq0c Kind.file
          | other =>
              rw [show dictKind (f.heap c) Kind.other
                  = liftD (f.heap c).dict_children_other from rfl, hcDictO]
              exact hInv.keyNodup c hq0c Kind.other
        · rw [dictAll q0 hxp hxq hxc k]
          exact hInv.keyNodup q0 hq0s k
  -- regId
  · intro e he
    rw [hreg] at he
    rw [msid_eq e.2]
    exact hInv.regId e he
  -- regKeys
  · rw [hreg]
    exact hInv.regKeys
  -- boundDom
  · intro q0 hq0
    rw [hnxt]
    exact hInv.boundDom q0 (hdom q0 hq0)
  -- boundCh
  · intro q0 hq0 k c0 hm
    have hq0s := hdom q0 hq0
    rw [hnxt]
    rcases memF q0 hq0s k c0 hm with ⟨h1, _, _⟩ | ⟨_, h2⟩
    · rw [h1]
      exact hInv.boundDom c (regRefs_mem_domF hc)
    · exact hInv.boundCh q0 hq0s k c0 h2

/-- Preservation of the consistency invariant when a freshly allocated file
object (ref `nr`, id `uid`, name `n'`) is attached under a registered
folder `p` and registered: the shape of the cache update done by the `put`
command (file factory plus `update_parent_after_arrival`). -/
theorem Inv_attachNew (s f : St) (p nr : Ref) (uid : MsId) (n' : String)
    (hInv : Inv s)
    (hp : p ∈ regRefs s)
    (hnr : nr = s.nextRef)
    (hfreshId : s.registry.lookup uid = none)
    (hfreshName : (dictKind (s.heap p) Kind.file).lookup n' = none)
    (hdot1 : n' ≠ ".") (hdot2 : n' ≠ "..")
    (hreg : f.registry = s.registry ++ [(uid, nr)])
    (hnxt : f.nextRef = s.nextRef + 1)
    (hother : ∀ x, x ≠ p → x ≠ nr → SameStruct (s.heap x) (f.heap x))
    (hnMs : (f.heap nr).ms_id = uid)
    (hnKind : (f.heap nr).kind = Kind.file)
    (hnName : (f.heap nr).name = n')
    (hnPar : (f.heap nr).parent = some p)
    (hnLists : ∀ k, chList (f.heap nr) k = [])
    (hnDicts : ∀ k, dictKind (f.heap nr) k = [])
    (hPs : SameStruct (appendChild (s.heap p) Kind.file nr n') (f.heap p)) :
    Inv f := by
  have hpd : p ∈ domF s := regRefs_mem_domF hp
  have hbound : ∀ r, r ∈ regRefs s → r ≠ nr := by
    intro r hr he
    rw [he, hnr] at hr
    exact absurd (hInv.boundDom s.nextRef (regRefs_mem_domF hr)) (by simp)
  have hbdom : ∀ r, r ∈ domF s → r ≠ nr := by
    intro r hr he
    rw [he, hnr] at hr
    exact absurd (hInv.boundDom s.nextRef hr) (by simp)
  have hpnr : p ≠ nr := hbound p hp
  have hrr : regRefs f = regRefs s ++ [nr] := by
    simp [regRefs, hreg]
  have parent_eq : ∀ x, x ≠ nr → (f.heap x).parent = (s.heap x).parent := by
    intro x hx
    by_cases hxp : x = p
    · rw [hxp, hPs.2.2.2.1, (appendChild_fields _ _ _ _).2.2.2]
    · exact (hother x hxp hx).2.2.2.1
  have kind_eq : ∀ x, x ≠ nr → (f.heap x).kind = (s.heap x).kind := by
    intro x hx
    by_cases hxp : x = p
    · rw [hxp, hPs.2.1, (appendChild_fields _ _ _ _).2.1]
    · exact (hother x hxp hx).2.1
  have name_eq : ∀ x, x ≠ nr → (f.heap x).name = (s.heap x).name := by
    intro x hx
    by_cases hxp : x = p
    · rw [hxp, hPs.2.2.1, (appendChild_fields _ _ _ _).2.2.1]
    · exact (hother x hxp hx).2.2.1
  have msid_eq : ∀ x, x ≠ nr → (f.heap x).ms_id = (s.heap x).ms_id := by
    intro x hx
    by_cases hxp : x = p
    · rw [hxp, hPs.1, (appendChild_fields _ _ _ _).1]
    · exact (hother x hxp hx).1
  have chP : ∀ k, chList (f.heap p) k =
      if k = Kind.file then chList (s.heap p) k ++ [nr] else chList (s.heap p) k := by
    intro k
    rw [chList_congr hPs, chList_appendChild]
  have dictP : ∀ k, dictKind (f.heap p) k =
      if k = Kind.file then dictKind (s.heap p) k ++ [(n', some nr)]
      else dictKind (s.heap p) k := by
    intro k
    rw [dictKind_congr hPs, dictKind_appendChild _ _ _ _ hfreshName]
  have chAll : ∀ x, x ≠ p → x ≠ nr → ∀ k,
      chList (f.heap x) k = chList (s.heap x) k := by
    intro x hxp hx k
    exact chList_congr (hother x hxp hx) k
  have dictAll : ∀ x, x ≠ p → x ≠ nr → ∀ k,
      dictKind (f.heap x) k = dictKind (s.heap x) k := by
    intro x hxp hx k
    exact dictKind_congr (hother x hxp hx) k
  have hdom : ∀ x, x ∈ domF f → x ∈ domF s ∨ x = nr := by
    intro x hx
    rcases List.mem_append.mp hx with hx | hx
    · rw [hrr] at hx
      rcases List.mem_append.mp hx with hx | hx
      · exact Or.inl (regRefs_mem_domF hx)
      · exact Or.inr (List.mem_singleton.mp hx)
    · rcases List.mem_filterMap.mp hx with ⟨r, hr, hrp⟩
      rw [hrr] at hr
      rcases List.mem_append.mp hr with hr | hr
      · rw [parent_eq r (hbound r hr)] at hrp
        exact Or.inl (parent_mem_domF hr hrp)
      · rw [List.mem_singleton.mp hr, hnPar] at hrp
        rw [← Option.some_inj.mp hrp]
        exact Or.inl hpd
  have memF : ∀ x, x ∈ domF s → ∀ k, ∀ c0, c0 ∈ chList (f.heap x) k →
      (c0 = nr ∧ x = p ∧ k = Kind.file) ∨
      (c0 ∈ chList (s.heap x) k ∧ c0 ≠ nr) := by
    intro x hx k c0 hm
    by_cases hxp : x = p
    · rw [hxp] at hm ⊢
      rw [chP] at hm
      by_cases hkk : k = Kind.file
      · rw [if_pos hkk] at hm
        rcases List.mem_append.mp hm with hm | hm
        · refine Or.inr ⟨hm, ?_⟩
          intro he
          rw [he, hnr] at hm
          exact absurd (hInv.boundCh p hpd k s.nextRef hm) (by simp)
        · exact Or.inl ⟨List.mem_singleton.mp hm, rfl, hkk⟩
      · rw [if_neg hkk] at hm
        refine Or.inr ⟨hm, ?_⟩
        intro he
        rw [he, hnr] at hm
        exact absurd (hInv.boundCh p hpd k s.nextRef hm) (by simp)
    · rw [chAll x hxp (hbdom x hx) k] at hm
      refine Or.inr ⟨hm, ?_⟩
      intro he
      rw [he, hnr] at hm
      exact absurd (hInv.boundCh x hx k s.nextRef hm) (by simp)
  constructor
  -- fwd
  · intro c0 hc0 p0 hp0
    rw [hrr] at hc0
    rcases List.mem_append.mp hc0 with hc0 | hc0
    · have hc0nr := hbound c0 hc0
      rw [parent_eq c0 hc0nr] at hp0
      have hm := hInv.fwd c0 hc0 p0 hp0
      rw [kind_eq c0 hc0nr]
      have hp0d : p0 ∈ domF s := parent_mem_domF hc0 hp0
      by_cases hxp : p0 = p
      · rw [hxp] at hm ⊢
        rw [chP]
        by_cases hkk : (s.heap c0).kind = Kind.file
        · rw [if_pos hkk]
          exact List.mem_append_left _ hm
        · rw [if_neg hkk]
          exact hm
      · rw [chAll p0 hxp (hbdom p0 hp0d)]
        exact hm
    · rw [List.mem_singleton.mp hc0] at hp0 ⊢
      rw [hnPar] at hp0
      rw [← Option.some_inj.mp hp0, hnKind, chP, if_pos rfl]
      exact List.mem_append_right _ (List.mem_singleton.mpr rfl)
  -- back
  · intro q0 hq0 k c0 hm
    rcases hdom q0 hq0 with hq0s | hq0nr
    · rcases memF q0 hq0s k c0 hm with ⟨h1, h2, h3⟩ | ⟨h1, h2⟩
      · rw [h1, h2, h3]
        exact ⟨hnPar, hnKind⟩
      · have hb := hInv.back q0 hq0s k c0 h1
        rw [← parent_eq c0 h2, ← kind_eq c0 h2] at hb
        exact hb
    · rw [hq0nr, hnLists k] at hm
      exact absurd hm (List.not_mem_nil c0)
  -- nodupL
  · intro q0 hq0 k
    rcases hdom q0 hq0 with hq0s | hq0nr
    · by_cases hxp : q0 = p
      · rw [hxp, chP]
        by_cases hkk : k = Kind.file
        · rw [if_pos hkk]
          simp only [List.nodup_append]
          refine ⟨hInv.nodupL p hpd k, List.nodup_singleton nr, ?_⟩
          intro a ha hb
          rw [List.mem_singleton.mp hb, hnr] at ha
          exact absurd (hInv.boundCh p hpd k s.nextRef ha) (by simp)
        · rw [if_neg hkk]
          exact hInv.nodupL p hpd k
      · rw [chAll q0 hxp (hbdom q0 hq0s)]
        exact hInv.nodupL q0 hq0s k
    · rw [hq0nr, hnLists k]
      exact List.nodup_nil
  -- nameOk
  · intro q0 hq0 k c0 hm
    rcases hdom q0 hq0 with hq0s | hq0nr
    · rcases memF q0 hq0s k c0 hm with ⟨h1, h2, h3⟩ | ⟨h1, h2⟩
      · rw [h1, hnName]
        exact ⟨hdot1, hdot2⟩
      · rw [name_eq c0 h2]
        exact hInv.nameOk q0 hq0s k c0 h1
    · rw [hq0nr, hnLists k] at hm
      exact absurd hm (List.not_mem_nil c0)
  -- dictCoh
  · intro q0 hq0 k c0 hm
    rcases hdom q0 hq0 with hq0s | hq0nr
    · by_cases hxp : q0 = p
      · rw [hxp] at hm ⊢
        rw [chP] at hm
        rw [dictP]
        by_cases hkk : k = Kind.file
        · rw [if_pos hkk] at hm
          rw [if_pos hkk]
          rcases List.mem_append.mp hm with hm | hm
          · have hc0nr : c0 ≠ nr := by
              intro he
              rw [he, hnr] at hm
              exact absurd (hInv.boundCh p hpd k s.nextRef hm) (by simp)
            rw [name_eq c0 hc0nr]
            exact lookup_append_some _ (hInv.dictCoh p hpd k c0 hm)
          · rw [List.mem_singleton.mp hm, hnName]
            apply lookup_append_self
            rw [hkk]
            exact hfreshName
        · rw [if_neg hkk] at hm
          rw [if_neg hkk]
          have hc0nr : c0 ≠ nr := by
            intro he
            rw [he, hnr] at hm
            exact absurd (hInv.boundCh p hpd k s.nextRef hm) (by simp)
          rw [name_eq c0 hc0nr]
          exact hInv.dictCoh p hpd k c0 hm
      · rcases memF q0 hq0s k c0 hm with ⟨h1, h2, h3⟩ | ⟨h1, h2⟩
        · exact absurd h2 hxp
        · rw [dictAll q0 hxp (hbdom q0 hq0s) k, name_eq c0 h2]
          exact hInv.dictCoh q0 hq0s k c0 h1
    · rw [hq0nr, hnLists k] at hm
      exact absurd hm (List.not_mem_nil c0)
  -- keyNodup
  · intro q0 hq0 k
    rcases hdom q0 hq0 with hq0s | hq0nr
    · by_cases hxp : q0 = p
      · rw [hxp, dictP]
        by_cases hkk : k = Kind.file
        · rw [if_pos hkk, List.map_append]
          simp only [List.nodup_append]
          refine ⟨hInv.keyNodup p hpd k, by simp, ?_⟩
          intro a ha hb
          simp only [List.map_cons, List.map_nil, List.mem_singleton] at hb
          rw [hb, hkk] at ha
          exact lookup_none_not_mem hfreshName ha
        · rw [if_neg hkk]
          exact hInv.keyNodup p hpd k
      · rw [dictAll q0 hxp (hbdom q0 hq0s) k]
        exact hInv.keyNodup q0 hq0s k
    · rw [hq0nr, hnDicts k]
      exact List.nodup_nil
  -- regId
  · intro e he
    rw [hreg] at he
    rcases List.mem_append.mp he with he | he
    · have : e.2 ∈ regRefs s := List.mem_map_of_mem _ he
      rw [msid_eq e.2 (hbound e.2 this)]
      exact hInv.regId e he
    · rw [List.mem_singleton.mp he]
      exact hnMs
  -- regKeys
  · rw [hreg, List.map_append]
    simp only [List.nodup_append]
    refine ⟨hInv.regKeys, by simp, ?_⟩
    intro a ha hb
    simp only [List.map_cons, List.map_nil, List.mem_singleton] at hb
    rw [hb] at ha
    exact lookup_none_not_mem hfreshId ha
  -- boundDom
  · intro q0 hq0
    rw [hnxt]
    rcases hdom q0 hq0 with hq0s | hq0nr
    · exact Nat.lt_succ_of_lt (hInv.boundDom q0 hq0s)
    · rw [hq0nr, hnr]
      exact Nat.lt_succ_self _
  -- boundCh
  · intro q0 hq0 k c0 hm
    rw [hnxt]
    rcases hdom q0 hq0 with hq0s | hq0nr
    · rcases memF q0 hq0s k c0 hm with ⟨h1, _, _⟩ | ⟨h1, _⟩
      · rw [h1, hnr]
        exact Nat.lt_succ_self _
      · exact Nat.lt_succ_of_lt (hInv.boundCh q0 hq0s k c0 h1)
    · rw [hq0nr, hnLists k] at hm
      exact absurd hm (List.not_mem_nil c0)

/-- Preservation of the consistency invariant when a registered object `c`
is detached from its parent (if any) and dropped from the identity map:
the shape of the cache update done by the `rm` command
(`update_parent_before_removal` plus `DictMsObject.remove`). -/
theorem Inv_remove (s f : St) (c : Ref)
    (hInv : Inv s) (hc : c ∈ regRefs s)
    (hreg : f.registry = s.registry.filter (fun e => e.1 ≠ (s.heap c).ms_id))
    (hnxt : f.nextRef = s.nextRef)
    (hcase : ((s.heap c).parent = none ∧ ∀ x, SameStruct (s.heap x) (f.heap x)) ∨
             (∃ p, (s.heap c).parent = some p ∧
               (∀ x, x ≠ p → SameStruct (s.heap x) (f.heap x)) ∧
               SameStruct (eraseChild (s.heap p) ((s.heap c).kind) c ((s.heap c).name))
                 (f.heap p))) :
    Inv f := by
  have hsub : ∀ r, r ∈ regRefs f → r ∈ regRefs s := by
    intro r hr
    rcases List.mem_map.mp hr with ⟨e, he, hev⟩
    rw [hreg] at he
    rw [← hev]
    exact List.mem_map_of_mem _ (List.mem_of_mem_filter he)
  have hcnot : c ∉ regRefs f := by
    intro hm
    rcases List.mem_map.mp hm with ⟨e, he, hev⟩
    rw [hreg] at he
    have h1 := List.mem_of_mem_filter he
    have h2 := List.of_mem_filter he
    simp only [ne_eq, decide_not, Bool.not_eq_true', decide_eq_false_iff_not] at h2
    apply h2
    rw [← hInv.regId e h1, hev]
  have parent_eq : ∀ x, (f.heap x).parent = (s.heap x).parent := by
    intro x
    rcases hcase with ⟨hpar, hSS⟩ | ⟨p, hpar, hSS, hSp⟩
    · exact (hSS x).2.2.2.1
    · by_cases hxp : x = p
      · rw [hxp, hSp.2.2.2.1, (eraseChild_fields _ _ _ _).2.2.2]
      · exact (hSS x hxp).2.2.2.1
  have kind_eq : ∀ x, (f.heap x).kind = (s.heap x).kind := by
    intro x
    rcases hcase with ⟨hpar, hSS⟩ | ⟨p, hpar, hSS, hSp⟩
    · exact (hSS x).2.1
    · by_cases hxp : x = p
      · rw [hxp, hSp.2.1, (eraseChild_fields _ _ _ _).2.1]
      · exact (hSS x hxp).2.1
  have name_eq : ∀ x, (f.heap x).name = (s.heap x).name := by
    intro x
    rcases hcase with ⟨hpar, hSS⟩ | ⟨p, hpar, hSS, hSp⟩
    · exact (hSS x).2.2.1
    · by_cases hxp : x = p
      · rw [hxp, hSp.2.2.1, (eraseChild_fields _ _ _ _).2.2.1]
      · exact (hSS x hxp).2.2.1
  have msid_eq : ∀ x, (f.heap x).ms_id = (s.heap x).ms_id := by
    intro x
    rcases hcase with ⟨hpar, hSS⟩ | ⟨p, hpar, hSS, hSp⟩
    · exact (hSS x).1
    · by_cases hxp : x = p
      · rw [hxp, hSp.1, (eraseChild_fields _ _ _ _).1]
      · exact (hSS x hxp).1
  have hdom : ∀ x, x ∈ domF f → x ∈ domF s := by
    intro x hx
    rcases List.mem_append.mp hx with hx | hx
    · exact regRefs_mem_domF (hsub x hx)
    · rcases List.mem_filterMap.mp hx with ⟨r, hr, hrp⟩
      rw [parent_eq r] at hrp
      exact parent_mem_domF (hsub r hr) hrp
  have memF : ∀ x, x ∈ domF s → ∀ k, ∀ c0, c0 ∈ chList (f.heap x) k →
      c0 ∈ chList (s.heap x) k ∧ c0 ≠ c := by
    intro x hx k c0 hm
    rcases hcase with ⟨hpar, hSS⟩ | ⟨p, hpar, hSS, hSp⟩
    · rw [chList_congr (hSS x) k] at hm
      refine ⟨hm, ?_⟩
      intro he
      rw [he] at hm
      have hb := (hInv.back x hx k c hm).1
      rw [hpar] at hb
      exact Option.noConfusion hb
    · by_cases hxp : x = p
      · rw [hxp] at hm ⊢
        have hpd : p ∈ domF s := parent_mem_domF hc hpar
        rw [chList_congr hSp k, chList_eraseChild] at hm
        by_cases hkk : k = (s.heap c).kind
        · rw [if_pos hkk] at hm
          have hm2 := (List.Nodup.mem_erase_iff (hInv.nodupL p hpd k)).mp hm
          exact ⟨hm2.2, hm2.1⟩
        · rw [if_neg hkk] at hm
          refine ⟨hm, ?_⟩
          intro he
          rw [he] at hm
          exact hkk ((hInv.back p hpd k c hm).2.symm)
      · rw [chList_congr (hSS x hxp) k] at hm
        refine ⟨hm, ?_⟩
        intro he
        rw [he] at hm
        have hb := (hInv.back x hx k c hm).1
        rw [hpar] at hb
        exact hxp (Option.some_inj.mp hb).symm
  constructor
  -- fwd
  · intro c0 hc0 p0 hp0
    have hc0s := hsub c0 hc0
    have hc0c : c0 ≠ c := fun he => hcnot (he ▸ hc0)
    rw [parent_eq c0] at hp0
    have hm := hInv.fwd c0 hc0s p0 hp0
    rw [kind_eq c0]
    rcases hcase with ⟨hpar, hSS⟩ | ⟨p, hpar, hSS, hSp⟩
    · rw [chList_congr (hSS p0)]
      exact hm
    · by_cases hxp : p0 = p
      · rw [hxp] at hm ⊢
        rw [chList_congr hSp, chList_eraseChild]
        by_cases hkk : (s.heap c0).kind = (s.heap c).kind
        · rw [if_pos hkk]
          exact (List.mem_erase_of_ne hc0c).mpr hm
        · rw [if_neg hkk]
          exact hm
      · rw [chList_congr (hSS p0 hxp)]
        exact hm
  -- back
  · intro q0 hq0 k c0 hm
    have hq0s := hdom q0 hq0
    obtain ⟨h1, _⟩ := memF q0 hq0s k c0 hm
    have hb := hInv.back q0 hq0s k c0 h1
    rw [← parent_eq c0, ← kind_eq c0] at hb
    exact hb
  -- nodupL
  · intro q0 hq0 k
    have hq0s := hdom q0 hq0
    rcases hcase with ⟨hpar, hSS⟩ | ⟨p, hpar, hSS, hSp⟩
    · rw [chList_congr (hSS q0)]
      exact hInv.nodupL q0 hq0s k
    · by_cases hxp : q0 = p
      · rw [hxp]
        have hpd : p ∈ domF s := parent_mem_domF hc hpar
        rw [chList_congr hSp, chList_eraseChild]
        by_cases hkk : k = (s.heap c).kind
        · rw [if_pos hkk]
          exact List.Nodup.erase c (hInv.nodupL p hpd k)
        · rw [if_neg hkk]
          exact hInv.nodupL p hpd k
      · rw [chList_congr (hSS q0 hxp)]
        exact hInv.nodupL q0 hq0s k
  -- nameOk
  · intro q0 hq0 k c0 hm
    have hq0s := hdom q0 hq0
    obtain ⟨h1, _⟩ := memF q0 hq0s k c0 hm
    rw [name_eq c0]
    exact hInv.nameOk q0 hq0s k c0 h1
  -- dictCoh
  · intro q0 hq0 k c0 hm
    have hq0s := hdom q0 hq0
    obtain ⟨h1, h2⟩ := memF q0 hq0s k c0 hm
    rw [name_eq c0]
    rcases hcase with ⟨hpar, hSS⟩ | ⟨p, hpar, hSS, hSp⟩
    · rw [dictKind_congr (hSS q0)]
      exact hInv.dictCoh q0 hq0s k c0 h1
    · by_cases hxp : q0 = p
      · rw [hxp] at h1 ⊢
        have hpd : p ∈ domF s := parent_mem_domF hc hpar
        have hcmem : c ∈ chList (s.heap p) ((s.heap c).kind) := hInv.fwd c hc p hpar
        rw [dictKind_congr hSp, dictKind_eraseChild]
        by_cases hkk : k = (s.heap c).kind
        · rw [if_pos hkk]
          have hnn : (s.heap c0).name ≠ (s.heap c).name := by
            intro heq
            have hl1 := hInv.dictCoh p hpd k c0 h1
            have hl2 := hInv.dictCoh p hpd _ c hcmem
            rw [heq] at hl1
            rw [← hkk] at hl2
            rw [hl1] at hl2
            exact h2 (Option.some_inj.mp (Option.some_inj.mp hl2))
          rw [lookup_filter_other _ _ _ hnn]
          exact hInv.dictCoh p hpd k c0 h1
        · rw [if_neg hkk]
          exact hInv.dictCoh p hpd k c0 h1
      · rw [dictKind_congr (hSS q0 hxp)]
        exact hInv.dictCoh q0 hq0s k c0 h1
  -- keyNodup
  · intro q0 hq0 k
    have hq0s := hdom q0 hq0
    rcases hcase with ⟨hpar, hSS⟩ | ⟨p, hpar, hSS, hSp⟩
    · rw [dictKind_congr (hSS q0)]
      exact hInv.keyNodup q0 hq0s k
    · by_cases hxp : q0 = p
      · rw [hxp]
        have hpd : p ∈ domF s := parent_mem_domF hc hpar
        rw [dictKind_congr hSp, dictKind_eraseChild]
        by_cases hkk : k = (s.heap c).kind
        · rw [if_pos hkk]
          exact List.Nodup.sublist
            (List.Sublist.map _ (List.filter_sublist _))
            (hInv.keyNodup p hpd k)
        · rw [if_neg hkk]
          exact hInv.keyNodup p hpd k
      · rw [dictKind_congr (hSS q0 hxp)]
        exact hInv.keyNodup q0 hq0s k
  -- regId
  · intro e he
    rw [hreg] at he
    have h1 := List.mem_of_mem_filter he
    rw [msid_eq e.2]
    exact hInv.regId e h1
  -- regKeys
  · rw [hreg]
    exact List.Nodup.sublist
      (List.Sublist.map _ (List.filter_sublist _)) hInv.regKeys
  -- boundDom
  · intro q0 hq0
    rw [hnxt]
    exact hInv.boundDom q0 (hdom q0 hq0)
  -- boundCh
  · intro q0 hq0 k c0 hm
    have hq0s := hdom q0 hq0
    obtain ⟨h1, _⟩ := memF q0 hq0s k c0 hm
    rw [hnxt]
    exact hInv.boundCh q0 hq0s k c0 h1

/-- The state right after the file factory allocates the parented file
object for the `put` flow. -/
def allocPutSt (s : St) (u : DiffItem) (ppu : String) (p : Ref) : St :=
  { heap := fun x => if x = s.nextRef then { detachedFileObj u ppu with parent := some p }
      else s.heap x,
    registry := s.registry, nextRef := s.nextRef + 1 }

theorem msFileFac_spec (s : St) (u : DiffItem) (p : Ref) (ppu : String)
    (hpp : u.parentPath = some ppu)
    (hkp : (s.heap p).kind = Kind.folder)
    (hid : s.registry.lookup u.id = none)
    (hname : (s.heap p).dict_children_file.lookup u.name = none)
    (hpnr : p ≠ s.nextRef) :
    ∃ t, msFileInfoFromMgcResponse s u (some p) false = some (t, s.nextRef) ∧
      t.registry = s.registry ++ [(u.id, s.nextRef)] ∧
      t.nextRef = s.nextRef + 1 ∧
      (∀ x, x ≠ p → x ≠ s.nextRef → t.heap x = s.heap x) ∧
      t.heap s.nextRef = { detachedFileObj u ppu with parent := some p } ∧
      t.heap p = appendChild (s.heap p) Kind.file s.nextRef u.name := by
  have hkOk : parentKindOk s (some p) = true := by
    simp [parentKindOk, hkp]
  have halloc : alloc s ({ detachedFileObj u ppu with parent := some p })
      = (allocPutSt s u ppu p, s.nextRef) := rfl
  have h1 : (allocPutSt s u ppu p).heap p = s.heap p := by
    simp [allocPutSt, hpnr]
  have h2 : ((allocPutSt s u ppu p).heap s.nextRef).name = u.name := by
    simp [allocPutSt, detachedFileObj]
  have hadd : addFileInfoIfNecessary (allocPutSt s u ppu p) p s.nextRef
      = setObj (allocPutSt s u ppu p) p
          (appendChild (s.heap p) Kind.file s.nextRef u.name) := by
    simp only [addFileInfoIfNecessary, h1, h2, dictHasKey, hname]
    rw [if_neg (by simp)]
    rfl
  have hms : ((setObj (allocPutSt s u ppu p) p
      (appendChild (s.heap p) Kind.file s.nextRef u.name)).heap s.nextRef).ms_id
      = u.id := by
    simp [setObj, allocPutSt, detachedFileObj, Ne.symm hpnr]
  have hlk : (setObj (allocPutSt s u ppu p) p
      (appendChild (s.heap p) Kind.file s.nextRef u.name)).registry.lookup
      (((setObj (allocPutSt s u ppu p) p
        (appendChild (s.heap p) Kind.file s.nextRef u.name)).heap s.nextRef).ms_id)
      = none := by
    rw [hms]
    simp only [setObj]
    exact hid
  simp only [msFileInfoFromMgcResponse, hpp, hkOk, if_true, halloc, hadd,
    addOrGetUpdate_fresh _ _ hlk, hms]
  refine ⟨_, by rw [if_neg (by simp)], ?_, ?_, ?_, ?_, ?_⟩
  · simp [setObj, allocPutSt]
  · simp [setObj, allocPutSt]
  · intro x hx1 hx2
    simp [setObj, allocPutSt, hx1, hx2]
  · simp [setObj, allocPutSt, Ne.symm hpnr]
  · simp [setObj, allocPutSt]

/-- Cache effect of the shell `put` command: fetch the new file's info with
the destination folder as parent (`get_object_info_from_path` ending in
`MsFileInfoFromMgcResponse`), then `update_parent_after_arrival` with the
new file's own modification time. -/
def putFlow (fuel : Nat) (now : Int) (s : St) (p : Ref) (u : DiffItem) : Option St :=
  match msFileInfoFromMgcResponse s u (some p) false with
  | none => none
  | some (s1, r) => updateParentAfterArrival fuel now s1 r (some p) ((s1.heap r).lmdt)

theorem put_preserves {fuel : Nat} {now : Int} {s s' : St} {p : Ref} {u : DiffItem}
    (hInv : Inv s)
    (hp : p ∈ regRefs s)
    (hid : s.registry.lookup u.id = none)
    (hname : (s.heap p).dict_children_file.lookup u.name = none)
    (hdot1 : u.name ≠ ".") (hdot2 : u.name ≠ "..")
    (h : putFlow fuel now s p u = some s') : Inv s' := by
  have hpnr : p ≠ s.nextRef := by
    intro he
    have hb := hInv.boundDom p (regRefs_mem_domF hp)
    rw [he] at hb
    exact absurd hb (by simp)
  cases hpp : u.parentPath with
  | none =>
      have hfn : msFileInfoFromMgcResponse s u (some p) false = none := by
        simp [msFileInfoFromMgcResponse, hpp]
      simp only [putFlow, hfn] at h
      exact Option.noConfusion h
  | some ppu =>
      by_cases hkp : (s.heap p).kind = Kind.folder
      · obtain ⟨t, hfac, hreg, hnxt, hoth, hnr, hp2⟩ :=
          msFileFac_spec s u p ppu hpp hkp hid hname hpnr
        simp only [putFlow, hfac] at h
        obtain ⟨hkfold2, hnp2, sm, hSE, hs'⟩ := afterArrival_run h
        have hkind_nr : (sm.heap s.nextRef).kind = Kind.file := by
          rw [(hSE.2.2 s.nextRef).2.1, hnr]
          rfl
        have hname_nr : (sm.heap s.nextRef).name = u.name := by
          rw [(hSE.2.2 s.nextRef).2.2.1, hnr]
          rfl
        have hdict_p : (sm.heap p).dict_children_file
            = dictSet (s.heap p).dict_children_file u.name s.nextRef := by
          rw [(hSE.2.2 p).2.2.2.2.2.2.2.1, hp2]
          rfl
        have hskip : addObjectInfo sm p s.nextRef = sm := by
          apply addObjectInfo_skip
          rw [hkind_nr, hname_nr]
          show ((liftD (sm.heap p).dict_children_file).lookup u.name).isSome = true
          rw [liftD_lookup_isSome, hdict_p, dictSet_fresh _ _ _ hname,
            lookup_append_self _ _ _ hname]
          rfl
        rw [hs', hskip]
        apply Inv_attachNew s sm p s.nextRef u.id u.name hInv hp rfl hid
        · show (liftD (s.heap p).dict_children_file).lookup u.name = none
          rw [liftD_lookup, hname]
          rfl
        · exact hdot1
        · exact hdot2
        · rw [hSE.1, hreg]
        · rw [hSE.2.1, hnxt]
        · intro x hx1 hx2
          have hss := hSE.2.2 x
          rw [hoth x hx1 hx2] at hss
          exact hss
        · rw [(hSE.2.2 s.nextRef).1, hnr]
          rfl
        · exact hkind_nr
        · exact hname_nr
        · rw [(hSE.2.2 s.nextRef).2.2.2.1, hnr]
        · intro k
          rw [chList_congr (hSE.2.2 s.nextRef) k, hnr]
          cases k <;> rfl
        · intro k
          rw [dictKind_congr (hSE.2.2 s.nextRef) k, hnr]
          cases k <;> rfl
        · have hss := hSE.2.2 p
          rw [hp2] at hss
          exact hss
      · have hfn : msFileInfoFromMgcResponse s u (some p) false = none := by
          have hkOk : parentKindOk s (some p) = false := by
            simp [parentKindOk, hkp]
          simp [msFileInfoFromMgcResponse, hpp, hkOk]
        simp only [putFlow, hfn] at h
        exact Option.noConfusion h

/-- Cache effect of the shell `rm` command: `update_parent_before_removal`
(default timestamp) followed by `DictMsObject.remove`. -/
def rmFlow (fuel : Nat) (now : Int) (s : St) (c : Ref) : Option St :=
  match updateParentBeforeRemoval fuel now s c PyDatetime.pyNone with
  | none => none
  | some s1 => dictRemove s1 ((s1.heap c).ms_id)

theorem rm_preserves {fuel : Nat} {now : Int} {s s' : St} {c : Ref}
    (hInv : Inv s) (hc : c ∈ regRefs s)
    (h : rmFlow fuel now s c = some s') : Inv s' := by
  cases hbr : updateParentBeforeRemoval fuel now s c PyDatetime.pyNone with
  | none =>
      simp only [rmFlow, hbr] at h
      exact Option.noConfusion h
  | some s1 =>
      simp only [rmFlow, hbr] at h
      rcases beforeRemoval_run hbr with ⟨hpar, hs1⟩ | ⟨p, sm, hpar, hpc, hSE, hrm⟩
      · rw [hs1, dictRemove] at h
        by_cases hlk : ((s.registry.lookup ((s.heap c).ms_id)).isSome)
        · rw [if_pos hlk] at h
          have hs' := (Option.some_inj.mp h).symm
          subst hs'
          refine Inv_remove s _ c hInv hc rfl rfl ?_
          exact Or.inl ⟨hpar, fun x => sameStruct_refl _⟩
        · rw [if_neg hlk] at h
          exact Option.noConfusion h
      · have hcp : c ≠ p := Ne.symm hpc
        have hs1 := removeInfoForChild_run hrm
        have hs1c : s1.heap c = sm.heap c := by
          rw [hs1]
          exact setObj_heap_ne _ _ _ _ hcp
        have hmsc : (s1.heap c).ms_id = (s.heap c).ms_id := by
          rw [hs1c]
          exact (hSE.2.2 c).1
        rw [hmsc, dictRemove] at h
        by_cases hlk : ((s1.registry.lookup ((s.heap c).ms_id)).isSome)
        · rw [if_pos hlk] at h
          have hs' := (Option.some_inj.mp h).symm
          subst hs'
          refine Inv_remove s _ c hInv hc ?_ ?_ ?_
          · show s1.registry.filter _ = s.registry.filter _
            rw [hs1, setObj_registry, hSE.1]
          · show s1.nextRef = s.nextRef
            rw [hs1]
            show sm.nextRef = s.nextRef
            exact hSE.2.1
          · refine Or.inr ⟨p, hpar, ?_, ?_⟩
            · intro x hxp
              show SameStruct (s.heap x) (s1.heap x)
              rw [hs1, setObj_heap_ne _ _ _ _ hxp]
              exact hSE.2.2 x
            · show SameStruct (eraseChild (s.heap p) ((s.heap c).kind) c ((s.heap c).name))
                (s1.heap p)
              rw [hs1, setObj_heap_self, (hSE.2.2 c).2.1, (hSE.2.2 c).2.2.1]
              exact eraseChild_congr (hSE.2.2 p) _ _ _
        · rw [if_neg hlk] at h
          exact Option.noConfusion h

theorem setObj_nextRef (s : St) (r : Ref) (o : MsObj) :
    (setObj s r o).nextRef = s.nextRef := rfl

theorem modifyObj_nextRef (s : St) (r : Ref) (f : MsObj → MsObj) :
    (modifyObj s r f).nextRef = s.nextRef := rfl

theorem ren_preserves {fuel : Nat} {now : Int} {s s' : St} {c p : Ref} {n' : String}
    (hInv : Inv s) (hc : c ∈ regRefs s)
    (hpar : (s.heap c).parent = some p)
    (hdot1 : n' ≠ ".") (hdot2 : n' ≠ "..")
    (hfr : (dictKind (s.heap p) ((s.heap c).kind)).lookup n' = none ∨
           n' = (s.heap c).name)
    (h : objRename fuel now s c n' = some s') : Inv s' := by
  cases hbr : updateParentBeforeRemoval fuel now s c PyDatetime.pyNone with
  | none =>
      simp only [objRename, hbr] at h
      exact Option.noConfusion h
  | some s1 =>
      simp only [objRename, hbr] at h
      rcases beforeRemoval_run hbr with ⟨hpn, _⟩ | ⟨p0, sm, hp0, hpc, hSE, hrm⟩
      · rw [hpar] at hpn
        exact Option.noConfusion hpn
      · have hpp0 : p0 = p := Option.some_inj.mp (hp0.symm.trans hpar)
        subst hpp0
        have hcp : c ≠ p0 := Ne.symm hpc
        have hs1 := removeInfoForChild_run hrm
        have hs1c : s1.heap c = sm.heap c := by
          rw [hs1]
          exact setObj_heap_ne _ _ _ _ hcp
        have hpar2 : ((modifyObj s1 c (fun o => { o with name := n' })).heap c).parent
            = some p0 := by
          rw [modifyObj_heap_self]
          show (s1.heap c).parent = some p0
          rw [hs1c, (hSE.2.2 c).2.2.2.1, hpar]
        rw [hpar2] at h
        obtain ⟨hkf, hnself, sw, hSE2, hs'⟩ := afterArrival_run h
        have hswc_kind : (sw.heap c).kind = (s.heap c).kind := by
          rw [(hSE2.2.2 c).2.1, modifyObj_heap_self]
          show (s1.heap c).kind = (s.heap c).kind
          rw [hs1c, (hSE.2.2 c).2.1]
        have hswc_name : (sw.heap c).name = n' := by
          rw [(hSE2.2.2 c).2.2.1, modifyObj_heap_self]
        have hfr2 : (dictKind (sw.heap p0) ((sw.heap c).kind)).lookup ((sw.heap c).name)
            = none := by
          rw [hswc_kind, hswc_name, dictKind_congr (hSE2.2.2 p0),
            modifyObj_heap_ne _ _ _ _ hpc, hs1, setObj_heap_self, (hSE.2.2 c).2.1,
            (hSE.2.2 c).2.2.1, dictKind_eraseChild, if_pos rfl,
            dictKind_congr (hSE.2.2 p0)]
          rcases hfr with hf | hf
          · by_cases hnn : n' = (s.heap c).name
            · rw [hnn]
              exact lookup_filter_self _ _
            · rw [lookup_filter_other _ _ _ hnn]
              exact hf
          · rw [hf]
            exact lookup_filter_self _ _
        have hadd := addObjectInfo_append sw p0 c hfr2
        rw [hs', hadd, hswc_kind, hswc_name]
        refine Inv_reattach s _ c p0 p0 n' hInv hc (parent_mem_domF hc hpar) hpar
          hdot1 hdot2 ?_ ?_ ?_ ?_ ?_ ?_ ?_ ?_ ?_ ?_ ?_ ?_ ?_
        · rcases hfr with hf | hf
          · exact Or.inl hf
          · exact Or.inr ⟨rfl, hf⟩
        · rw [setObj_registry, hSE2.1, modifyObj_registry, hs1, setObj_registry, hSE.1]
        · rw [setObj_nextRef, hSE2.2.1, modifyObj_nextRef, hs1, setObj_nextRef, hSE.2.1]
        · intro x hxp hxq hxc
          rw [setObj_heap_ne _ _ _ _ hxp]
          have B := hSE2.2.2 x
          rw [modifyObj_heap_ne _ _ _ _ hxc, hs1, setObj_heap_ne _ _ _ _ hxp] at B
          exact sameStruct_trans (hSE.2.2 x) B
        · rw [setObj_heap_ne _ _ _ _ hcp, (hSE2.2.2 c).1, modifyObj_heap_self]
          show (s1.heap c).ms_id = (s.heap c).ms_id
          rw [hs1c, (hSE.2.2 c).1]
        · rw [setObj_heap_ne _ _ _ _ hcp]
          exact hswc_kind
        · rw [setObj_heap_ne _ _ _ _ hcp]
          exact hswc_name
        · rw [setObj_heap_ne _ _ _ _ hcp, (hSE2.2.2 c).2.2.2.1, modifyObj_heap_self]
          show (s1.heap c).parent = some p0
          rw [hs1c, (hSE.2.2 c).2.2.2.1, hpar]
        · intro k
          rw [setObj_heap_ne _ _ _ _ hcp, chList_congr (hSE2.2.2 c), modifyObj_heap_self]
          have hch : chList ({ s1.heap c with name := n' } : MsObj) k
              = chList (s1.heap c) k := by
            cases k <;> rfl
          rw [hch, hs1c, chList_congr (hSE.2.2 c)]
        · rw [setObj_heap_ne _ _ _ _ hcp, (hSE2.2.2 c).2.2.2.2.2.2.2.1, modifyObj_heap_self]
          show (s1.heap c).dict_children_file = (s.heap c).dict_children_file
          rw [hs1c, (hSE.2.2 c).2.2.2.2.2.2.2.1]
        · rw [setObj_heap_ne _ _ _ _ hcp, (hSE2.2.2 c).2.2.2.2.2.2.2.2.2, modifyObj_heap_self]
          show (s1.heap c).dict_children_other = (s.heap c).dict_children_other
          rw [hs1c, (hSE.2.2 c).2.2.2.2.2.2.2.2.2]
        · refine Or.inl ?_
          rw [setObj_heap_ne _ _ _ _ hcp, (hSE2.2.2 c).2.2.2.2.2.2.2.2.1, modifyObj_heap_self]
          show (s1.heap c).dict_children_folder = (s.heap c).dict_children_folder
          rw [hs1c, (hSE.2.2 c).2.2.2.2.2.2.2.2.1]
        · refine Or.inl ⟨rfl, ?_⟩
          rw [setObj_heap_self]
          have hS0 : SameStruct
              (eraseChild (s.heap p0) ((s.heap c).kind) c ((s.heap c).name))
              (sw.heap p0) := by
            have B := hSE2.2.2 p0
            rw [modifyObj_heap_ne _ _ _ _ hpc, hs1, setObj_heap_self,
              (hSE.2.2 c).2.1, (hSE.2.2 c).2.2.1] at B
            exact sameStruct_trans (eraseChild_congr (hSE.2.2 p0) _ _ _) B
          exact appendChild_congr hS0 _ _ _

theorem mv_preserves {fuel : Nat} {now : Int} {s s' : St} {c np p : Ref}
    (hInv : Inv s) (hc : c ∈ regRefs s)
    (hnp : np ∈ domF s)
    (hpar : (s.heap c).parent = some p)
    (hfr : (dictKind (s.heap np) ((s.heap c).kind)).lookup ((s.heap c).name) = none ∨
           p = np)
    (h : moveObject fuel now s c np PyDatetime.pyNone = some s') : Inv s' := by
  simp only [moveObject] at h
  by_cases hkf : (s.heap np).kind = Kind.folder
  case neg =>
    rw [if_neg hkf] at h
    exact Option.noConfusion h
  rw [if_pos hkf] at h
  cases hbr : updateParentBeforeRemoval fuel now s c PyDatetime.pyNone with
  | none =>
      simp only [hbr] at h
      exact Option.noConfusion h
  | some s1 =>
      simp only [hbr] at h
      rcases beforeRemoval_run hbr with ⟨hpn, _⟩ | ⟨p0, sm, hp0, hpc, hSE, hrm⟩
      · rw [hpar] at hpn
        exact Option.noConfusion hpn
      · have hpp0 : p0 = p := Option.some_inj.mp (hp0.symm.trans hpar)
        subst hpp0
        have hcp : c ≠ p0 := Ne.symm hpc
        have hs1 := removeInfoForChild_run hrm
        have hs1c : s1.heap c = sm.heap c := by
          rw [hs1]
          exact setObj_heap_ne _ _ _ _ hcp
        have hdots := hInv.nameOk p0 (parent_mem_domF hc hpar) ((s.heap c).kind) c
          (hInv.fwd c hc p0 hpar)
        cases hup : objUpdateParent fuel s1 c np with
        | none =>
            simp only [hup] at h
            exact Option.noConfusion h
        | some s2 =>
            simp only [hup] at h
            obtain ⟨hreg2, hnxt2, hfrm2, hms2, hkd2, hnm2, hpar2, hcf2, hcfo2,
              hco2, hdcf2, hdco2, hdfo2⟩ := objUpdateParent_run hup
            cases hpw : pathOf s2 fuel np with
            | none =>
                simp only [hpw] at h
                exact Option.noConfusion h
            | some pp =>
                simp only [hpw] at h
                obtain ⟨hkf3, hnself, sw, hSE3, hs'⟩ := afterArrival_run h
                have hSE23 : StructEq s2 sw :=
                  structEq_trans (structEq_modify_pp s2 c (some pp)) hSE3
                have hcnp : c ≠ np := by
                  intro he
                  apply hnself
                  have hx : (modifyObj s2 c
                        (fun o => { o with parent_path := some pp })).heap np
                      = { s2.heap c with parent_path := some pp } := by
                    rw [← he]
                    exact modifyObj_heap_self _ _ _
                  rw [hx]
                  show (s2.heap c).parent = some np
                  exact hpar2
                have hnpc : np ≠ c := Ne.symm hcnp
                have hswck : (sw.heap c).kind = (s.heap c).kind := by
                  rw [(hSE23.2.2 c).2.1, hkd2, hs1c, (hSE.2.2 c).2.1]
                have hswcn : (sw.heap c).name = (s.heap c).name := by
                  rw [(hSE23.2.2 c).2.2.1, hnm2, hs1c, (hSE.2.2 c).2.2.1]
                have hfradd : (dictKind (sw.heap np) ((sw.heap c).kind)).lookup
                    ((sw.heap c).name) = none := by
                  rw [hswck, hswcn, dictKind_congr (hSE23.2.2 np), hfrm2 np hnpc]
                  by_cases hnpp : np = p0
                  · rw [hnpp, hs1, setObj_heap_self, (hSE.2.2 c).2.1,
                      (hSE.2.2 c).2.2.1, dictKind_eraseChild, if_pos rfl]
                    exact lookup_filter_self _ _
                  · rw [hs1, setObj_heap_ne _ _ _ _ hnpp,
                      dictKind_congr (hSE.2.2 np)]
                    rcases hfr with hf | hf
                    · exact hf
                    · exact absurd hf.symm hnpp
                have hadd := addObjectInfo_append sw np c hfradd
                rw [hs', hadd, hswck, hswcn]
                refine Inv_reattach s _ c p0 np ((s.heap c).name) hInv hc hnp hpar
                  hdots.1 hdots.2 ?_ ?_ ?_ ?_ ?_ ?_ ?_ ?_ ?_ ?_ ?_ ?_ ?_
                · rcases hfr with hf | hf
                  · exact Or.inl hf
                  · exact Or.inr ⟨hf.symm, rfl⟩
                · rw [setObj_registry, hSE23.1, hreg2, hs1, setObj_registry, hSE.1]
                · rw [setObj_nextRef, hSE23.2.1, hnxt2, hs1, setObj_nextRef, hSE.2.1]
                · intro x hxp hxq hxc
                  rw [setObj_heap_ne _ _ _ _ hxq]
                  have B := hSE23.2.2 x
                  rw [hfrm2 x hxc, hs1, setObj_heap_ne _ _ _ _ hxp] at B
                  exact sameStruct_trans (hSE.2.2 x) B
                · rw [setObj_heap_ne _ _ _ _ hcnp, (hSE23.2.2 c).1, hms2, hs1c,
                    (hSE.2.2 c).1]
                · rw [setObj_heap_ne _ _ _ _ hcnp]
                  exact hswck
                · rw [setObj_heap_ne _ _ _ _ hcnp]
                  exact hswcn
                · rw [setObj_heap_ne _ _ _ _ hcnp, (hSE23.2.2 c).2.2.2.1, hpar2]
                · intro k
                  rw [setObj_heap_ne _ _ _ _ hcnp, chList_congr (hSE23.2.2 c)]
                  have hch : chList (s2.heap c) k = chList (s1.heap c) k := by
                    cases k <;> simp [chList, hcf2, hcfo2, hco2]
                  rw [hch, hs1c, chList_congr (hSE.2.2 c)]
                · rw [setObj_heap_ne _ _ _ _ hcnp, (hSE23.2.2 c).2.2.2.2.2.2.2.1,
                    hdcf2, hs1c, (hSE.2.2 c).2.2.2.2.2.2.2.1]
                · rw [setObj_heap_ne _ _ _ _ hcnp, (hSE23.2.2 c).2.2.2.2.2.2.2.2.2,
                    hdco2, hs1c, (hSE.2.2 c).2.2.2.2.2.2.2.2.2]
                · rcases hdfo2 with hd | hd
                  · refine Or.inl ?_
                    rw [setObj_heap_ne _ _ _ _ hcnp, (hSE23.2.2 c).2.2.2.2.2.2.2.2.1,
                      hd, hs1c, (hSE.2.2 c).2.2.2.2.2.2.2.2.1]
                  · refine Or.inr ?_
                    rw [setObj_heap_ne _ _ _ _ hcnp, (hSE23.2.2 c).2.2.2.2.2.2.2.2.1,
                      hd, hs1c, (hSE.2.2 c).2.2.2.2.2.2.2.2.1]
                · by_cases hnpp : np = p0
                  · refine Or.inl ⟨hnpp, ?_⟩
                    have hheap : (setObj sw np (appendChild (sw.heap np)
                        ((s.heap c).kind) c ((s.heap c).name))).heap p0
                        = appendChild (sw.heap p0) ((s.heap c).kind) c ((s.heap c).name) := by
                      rw [hnpp, setObj_heap_self]
                    rw [hheap]
                    have hS0 : SameStruct
                        (eraseChild (s.heap p0) ((s.heap c).kind) c ((s.heap c).name))
                        (sw.heap p0) := by
                      have B := hSE23.2.2 p0
                      rw [hfrm2 p0 hpc, hs1, setObj_heap_self,
                        (hSE.2.2 c).2.1, (hSE.2.2 c).2.2.1] at B
                      exact sameStruct_trans (eraseChild_congr (hSE.2.2 p0) _ _ _) B
                    exact appendChild_congr hS0 _ _ _
                  · refine Or.inr ⟨hnpp, ?_, ?_⟩
                    · rw [setObj_heap_ne _ _ _ _ (fun he => hnpp he.symm)]
                      have B := hSE23.2.2 p0
                      rw [hfrm2 p0 hpc, hs1, setObj_heap_self,
                        (hSE.2.2 c).2.1, (hSE.2.2 c).2.2.1] at B
                      exact sameStruct_trans (eraseChild_congr (hSE.2.2 p0) _ _ _) B
                    · rw [setObj_heap_self]
                      have B := hSE23.2.2 np
                      rw [hfrm2 np hnpc, hs1, setObj_heap_ne _ _ _ _ hnpp] at B
                      exact appendChild_congr (sameStruct_trans (hSE.2.2 np) B) _ _ _

/-- One cache-updating shell operation, with the success of the underlying
Graph call and the shell's own pre-checks recorded as premises: `put`
uploads a new file under a known folder (fresh id, fresh destination name
per the shell's pre-upload existence check), `rm` removes a known object,
`mv` moves a known attached object to a cache-known folder whose name
index does not already hold the moved name (or back under its own
parent), and `ren` renames a known attached object to a non-colliding (or
identical) name. -/
inductive Step : St → St → Prop where
  | put (s s' : St) (fuel : Nat) (now : Int) (p : Ref) (u : DiffItem)
      (hp : p ∈ regRefs s)
      (hid : s.registry.lookup u.id = none)
      (hname : (s.heap p).dict_children_file.lookup u.name = none)
      (hdot1 : u.name ≠ ".") (hdot2 : u.name ≠ "..")
      (hrun : putFlow fuel now s p u = some s') : Step s s'
  | rm (s s' : St) (fuel : Nat) (now : Int) (c : Ref)
      (hc : c ∈ regRefs s)
      (hrun : rmFlow fuel now s c = some s') : Step s s'
  | mv (s s' : St) (fuel : Nat) (now : Int) (c np p : Ref)
      (hc : c ∈ regRefs s)
      (hnp : np ∈ domF s)
      (hpar : (s.heap c).parent = some p)
      (hname : (dictKind (s.heap np) ((s.heap c).kind)).lookup ((s.heap c).name)
          = none ∨ p = np)
      (hrun : moveObject fuel now s c np PyDatetime.pyNone = some s') : Step s s'
  | ren (s s' : St) (fuel : Nat) (now : Int) (c p : Ref) (n' : String)
      (hc : c ∈ regRefs s)
      (hpar : (s.heap c).parent = some p)
      (hdot1 : n' ≠ ".") (hdot2 : n' ≠ "..")
      (hname : (dictKind (s.heap p) ((s.heap c).kind)).lookup n' = none ∨
          n' = (s.heap c).name)
      (hrun : objRename fuel now s c n' = some s') : Step s s'

theorem step_preserves_inv {s s' : St} (hInv : Inv s) (h : Step s s') : Inv s' := by
  cases h with
  | put fuel now p u hp hid hname hdot1 hdot2 hrun =>
      exact put_preserves hInv hp hid hname hdot1 hdot2 hrun
  | rm fuel now c hc hrun =>
      exact rm_preserves hInv hc hrun
  | mv fuel now c np p hc hnp hpar hname hrun =>
      exact mv_preserves hInv hc hnp hpar hname hrun
  | ren fuel now c p n' hc hpar hdot1 hdot2 hname hrun =>
      exact ren_preserves hInv hc hpar hdot1 hdot2 hname hrun

theorem reach_preserves_inv {s0 s : St} (hInv0 : Inv s0)
    (h : Relation.ReflTransGen Step s0 s) : Inv s := by
  induction h with
  | refl => exact hInv0
  | tail _ hstep ih => exact step_preserves_inv ih hstep

/-- The concrete C5 heap: a root folder `R` (ref 0) with two file children
`a` (ref 1) and `b` (ref 2), all collections and name indexes coherent. -/
def c5Heap : Ref → MsObj
  | 0 =>
    { ms_id := "R", kind := Kind.folder, name := "root", size := 30,
      parent := none, parent_path := some "", lmdt := PyDatetime.dt 0,
      cdt := PyDatetime.dt 0, is_root := true, children_file := [1, 2],
      children_folder := [], children_other := [],
      dict_children_file := [("a", 1), ("b", 2)],
      dict_children_folder := [(".", some 0)], dict_children_other := [],
      child_count := some 2, retrieval_status := some "all", next_link := none,
      qxh := none, sha1hash := none, type_other := "unknown" }
  | 1 =>
    { blankObj with ms_id := "A", kind := Kind.file, name := "a", size := 20,
                    parent := some 0, parent_path := some "/drive/root:",
                    lmdt := PyDatetime.dt 1, cdt := PyDatetime.dt 1 }
  | 2 =>
    { blankObj with ms_id := "B", kind := Kind.file, name := "b", size := 10,
                    parent := some 0, parent_path := some "/drive/root:",
                    lmdt := PyDatetime.dt 2, cdt := PyDatetime.dt 2 }
  | _ => blankObj

/-- The concrete C5 state. -/
def c5St : St :=
  { heap := c5Heap, registry := [("R", 0), ("A", 1), ("B", 2)], nextRef := 3 }

theorem c5Inv : Inv c5St := by
  constructor
  · intro c hc p hp
    rw [show regRefs c5St = [0, 1, 2] from rfl] at hc
    fin_cases hc
    · exact Option.noConfusion hp
    · rw [← Option.some_inj.mp hp]
      decide
    · rw [← Option.some_inj.mp hp]
      decide
  · decide
  · decide
  · decide
  · decide
  · decide
  · decide
  · decide
  · decide
  · decide

/-- C5 (counterexample): renaming file `b` (ref 2) to the already-taken
name `a` in the coherent state `c5St` succeeds in the code, but leaves the
cache inconsistent: `b.parent` is still the root folder (ref 0) while `b`
appears in none of the root's three child collections — `rename`'s
reattach step (`add_object_info`) silently skips insertion because the
name index already holds an entry for `"a"`, after the detach step has
already removed the object.  This refutes the claim for sequences that
include a rename (or move) onto an existing destination name. -/
theorem c5_counterexample :
    Option.map (fun s' => ((s'.heap 2).parent,
        ((s'.heap 0).children_file.contains 2,
         (s'.heap 0).children_folder.contains 2,
         (s'.heap 0).children_other.contains 2)))
      (objRename 5 100 c5St 2 "a")
      = some (some 0, (false, false, false)) := by
  decide

/-- C5 (amended): in every cache state reachable from a consistent initial
state by the shell's add/remove/move/rename cache updates — with `mv` and
`rename` restricted to destination names not already present in the
target folder's name index for that kind (the unrestricted claim is
refuted by `rename`'s silent skip on a name collision) — bidirectional
consistency holds: for every cache-known folder `F` and registered object
`C`, `C.parent == F` iff `C` appears in the child collection of its own
kind and in no other collection of `F`. -/
theorem c5_amended (s0 s : St) (hInv0 : Inv s0)
    (hreach : Relation.ReflTransGen Step s0 s)
    (F c : Ref) (hF : F ∈ domF s) (hc : c ∈ regRefs s) :
    (s.heap c).parent = some F ↔
      (c ∈ chList (s.heap F) ((s.heap c).kind) ∧
       ∀ k, k ≠ (s.heap c).kind → c ∉ chList (s.heap F) k) := by
  have hInv : Inv s := reach_preserves_inv hInv0 hreach
  constructor
  · intro hp
    refine ⟨hInv.fwd c hc F hp, ?_⟩
    intro k hk hm
    exact hk ((hInv.back F hF k c hm).2.symm)
  · intro hm
    exact (hInv.back F hF ((s.heap c).kind) c hm.1).1

/-- Witness for C5: the concrete two-file state satisfies the invariant,
and the amended biconditional holds there for the root folder and file
`a`. -/
theorem c5_amended_witness :
    (c5St.heap 1).parent = some 0 ↔
      (1 ∈ chList (c5St.heap 0) ((c5St.heap 1).kind) ∧
       ∀ k, k ≠ (c5St.heap 1).kind → 1 ∉ chList (c5St.heap 0) k) :=
  c5_amended c5St c5St c5Inv Relation.ReflTransGen.refl 0 1 (by decide) (by decide)

end ODC
